import Mathlib

/-!
# Verification of the meshio PLY codec and registry facade

This file gives a shallow embedding, in Lean 4, of the two source files of
the repository under verification:

* `src/meshio/ply/_ply.py` — the PLY reader/writer (header grammar, binary
  body, the ragged-list decoder `_read_binary_list`, the `cell_type`
  tag/count translation), and
* `src/meshio/_helpers.py` — the format registry facade (`register`,
  `_filetype_from_path`, `read`, `write`).

Modelling conventions, fixed once here:

* Machine scalars (numpy array elements) are represented by their *bit
  patterns*: a value of a dtype with item size `w` is a `Nat` smaller than
  `256 ^ w`.  Reading and writing binary PLY never interprets these
  patterns arithmetically (an IEEE float or a two's-complement integer is
  written and read back as its raw bytes), so this representation is exact.
  Where Python *does* interpret values (decimal text formatting in the
  ASCII writer, `astype` narrowing), the interpretation is modelled
  explicitly on the patterns.
* Byte strings are `List Nat` (each element `< 256`).  The files under
  verification only ever produce and compare ASCII text, so header lines
  are handled as byte lists and compared against the byte lists of the
  Python string literals.
* Python dictionaries are association lists (`List (key × value)`), which
  preserves insertion order exactly as CPython dicts do.
* Loops reading from a file handle become fuel-indexed recursions; the fuel
  is always large enough that exhaustion models only the genuinely
  non-terminating behaviour of the Python code (e.g. `_next_line` spinning
  at end-of-file), reported as `RErr.nonterm`.
-/

/-! ## Decimal digits (Python `str(n)` / `int(s)` on digit strings) -/

/-- Little-endian decimal digits of `n`, with explicit fuel (`fuel ≥ n`
suffices).  `digitsRevAux n n` is `[]` for `n = 0`. -/
def digitsRevAux : Nat → Nat → List Nat
  | 0, _ => []
  | fuel + 1, n => if n = 0 then [] else n % 10 :: digitsRevAux fuel (n / 10)

/-- Big-endian decimal digits of `n` (empty for `0`). -/
def decimalDigits (n : Nat) : List Nat := (digitsRevAux n n).reverse

/-- Value of a little-endian decimal digit list. -/
def digitsVal : List Nat → Nat
  | [] => 0
  | d :: t => d + 10 * digitsVal t

/-- Big-endian evaluation, as Python `int()` folds over a digit string. -/
def digitsFold (l : List Nat) : Nat := l.foldl (fun a d => 10 * a + d) 0

theorem digitsRevAux_val (fuel : Nat) : ∀ n, n ≤ fuel → digitsVal (digitsRevAux fuel n) = n := by
  induction fuel with
  | zero => intro n h; interval_cases n; rfl
  | succ fuel ih =>
    intro n h
    by_cases h0 : n = 0
    · simp [digitsRevAux, h0, digitsVal]
    · have hdiv : n / 10 ≤ fuel := by
        have : n / 10 < n := Nat.div_lt_self (Nat.pos_of_ne_zero h0) (by omega)
        omega
      simp [digitsRevAux, h0, digitsVal, ih _ hdiv]
      omega

theorem digitsRevAux_lt (fuel : Nat) : ∀ n, ∀ d ∈ digitsRevAux fuel n, d < 10 := by
  induction fuel with
  | zero => intro n d h; simp [digitsRevAux] at h
  | succ fuel ih =>
    intro n d h
    by_cases h0 : n = 0
    · simp [digitsRevAux, h0] at h
    · simp [digitsRevAux, h0] at h
      rcases h with h | h
      · omega
      · exact ih _ _ h

theorem digitsRevAux_ne_nil (fuel n : Nat) (h0 : 0 < n) (hf : n ≤ fuel) :
    digitsRevAux fuel n ≠ [] := by
  cases fuel with
  | zero => omega
  | succ fuel => simp [digitsRevAux]; omega

theorem digitsFold_reverse (l : List Nat) : digitsFold l.reverse = digitsVal l := by
  induction l with
  | nil => rfl
  | cons d t ih =>
    simp only [List.reverse_cons, digitsFold, List.foldl_append, List.foldl_cons,
      List.foldl_nil, digitsVal]
    simp only [digitsFold] at ih
    rw [ih]
    omega

theorem digitsFold_decimalDigits (n : Nat) : digitsFold (decimalDigits n) = n := by
  unfold decimalDigits
  rw [digitsFold_reverse, digitsRevAux_val n n (Nat.le_refl n)]

theorem decimalDigits_lt (n : Nat) : ∀ d ∈ decimalDigits n, d < 10 := by
  intro d h
  exact digitsRevAux_lt n n d (by simpa [decimalDigits] using h)

theorem decimalDigits_ne_nil (n : Nat) (h : 0 < n) : decimalDigits n ≠ [] := by
  unfold decimalDigits
  simpa using digitsRevAux_ne_nil n n h (Nat.le_refl n)

/-! ## Digit characters -/

/-- The character for a decimal digit (`str` of a single digit). -/
def digitToChar : Nat → Char
  | 0 => '0' | 1 => '1' | 2 => '2' | 3 => '3' | 4 => '4'
  | 5 => '5' | 6 => '6' | 7 => '7' | 8 => '8' | _ => '9'

theorem digitToChar_toNat (d : Nat) (h : d < 10) : (digitToChar d).toNat = 48 + d := by
  interval_cases d <;> rfl

theorem digitToChar_isDigit (d : Nat) (h : d < 10) : (digitToChar d).isDigit := by
  interval_cases d <;> rfl

/-- Python `str(n)` for a natural number. -/
def natToDecimal (n : Nat) : String :=
  if n = 0 then "0" else String.mk ((decimalDigits n).map digitToChar)

/-- Decimal bytes of `n` (ASCII), as written into a PLY header. -/
def decimalBytes (n : Nat) : List Nat :=
  if n = 0 then [48] else (decimalDigits n).map (fun d => 48 + d)

/-! ## Numpy dtypes

The ten numpy dtypes that the two source files can mention.  Only the item
size (and, for ASCII formatting and `astype` narrowing, the signedness)
of a dtype is ever observable. -/

inductive NpDtype
  | i8 | i16 | i32 | i64 | u8 | u16 | u32 | u64 | f32 | f64
  deriving DecidableEq, Repr

def NpDtype.itemsize : NpDtype → Nat
  | .i8 => 1 | .i16 => 2 | .i32 => 4 | .i64 => 8
  | .u8 => 1 | .u16 => 2 | .u32 => 4 | .u64 => 8
  | .f32 => 4 | .f64 => 8

def NpDtype.isSignedInt : NpDtype → Bool
  | .i8 | .i16 | .i32 | .i64 => true
  | _ => false

def NpDtype.isFloat : NpDtype → Bool
  | .f32 | .f64 => true
  | _ => false

theorem NpDtype.itemsize_pos (d : NpDtype) : 0 < d.itemsize := by
  cases d <;> decide

/-! ## `_ply.py`: reference dtype tables

`ply_to_numpy_dtype` and its inversion `numpy_to_ply_dtype = {np.dtype(v): k
for k, v in ply_to_numpy_dtype.items()}` (later entries overwrite earlier
ones, as in a Python dict comprehension). -/

def ply_to_numpy_dtype : List (String × NpDtype) :=
  [("char", .i8), ("uchar", .u8), ("short", .i16), ("ushort", .u16),
   ("int", .i32), ("int8", .i8), ("int32", .i32), ("int64", .i64),
   ("uint", .u32), ("uint8", .u8), ("uint16", .u16), ("uint32", .u32),
   ("uint64", .u64), ("float", .f32), ("float32", .f32), ("float64", .f64),
   ("double", .f64)]

/-- Insert with overwrite, preserving first-insertion key order (CPython
dict assignment semantics). -/
def dictInsert {α β : Type} [DecidableEq α] (m : List (α × β)) (k : α) (v : β) :
    List (α × β) :=
  match m with
  | [] => [(k, v)]
  | (k', v') :: t => if k' = k then (k, v) :: t else (k', v') :: dictInsert t k v

def invertDict {α β : Type} [DecidableEq β] (m : List (α × β)) : List (β × α) :=
  m.foldl (fun acc p => dictInsert acc p.2 p.1) []

def numpy_to_ply_dtype : List (NpDtype × String) := invertDict ply_to_numpy_dtype

/-! ## `_ply.py`: `cell_type_to_count` / `cell_type_from_count` -/

def cell_type_to_count_table : List (String × Nat) :=
  [("vertex", 1), ("line", 2), ("triangle", 3), ("quad", 4)]

/-- `cell_type_to_count`: table lookup, else `re.fullmatch(r"polygon(\d+)")`
(the whole tag must be the literal `polygon` followed by one or more
decimal digits) and `int()` of the digits. -/
def cell_type_to_count (cell_type : String) : Option Nat :=
  match cell_type_to_count_table.lookup cell_type with
  | some n => some n
  | none =>
    let rest := cell_type.data.drop 7
    if cell_type.data.take 7 = "polygon".data ∧ rest ≠ [] ∧ rest.all Char.isDigit then
      some (rest.foldl (fun a c => 10 * a + (c.toNat - 48)) 0)
    else none

def cell_type_from_count_table : List (Nat × String) :=
  cell_type_to_count_table.map (fun p => (p.2, p.1))

/-- `cell_type_from_count`: reverse of `cell_type_to_count`, defaulting to
`"polygon" + str(count)` (the table values are nonempty strings, so
Python's `or` is an option-default here). -/
def cell_type_from_count (count : Nat) : String :=
  match cell_type_from_count_table.lookup count with
  | some s => s
  | none => "polygon" ++ natToDecimal count

/-! ## Facts about the tag vocabulary (claim C9) -/

theorem lookup_ctc_table_none (s : String) (h7 : s.data.take 7 = "polygon".data) :
    cell_type_to_count_table.lookup s = none := by
  have h1 : s ≠ "vertex" := by rintro rfl; exact absurd h7 (by decide)
  have h2 : s ≠ "line" := by rintro rfl; exact absurd h7 (by decide)
  have h3 : s ≠ "triangle" := by rintro rfl; exact absurd h7 (by decide)
  have h4 : s ≠ "quad" := by rintro rfl; exact absurd h7 (by decide)
  have e1 : (s == "vertex") = false := by simp [h1]
  have e2 : (s == "line") = false := by simp [h2]
  have e3 : (s == "triangle") = false := by simp [h3]
  have e4 : (s == "quad") = false := by simp [h4]
  simp [cell_type_to_count_table, List.lookup, e1, e2, e3, e4]

theorem polygon_append_take7 (x : String) :
    ("polygon" ++ x).data.take 7 = "polygon".data := by
  rw [String.data_append, show (7 : Nat) = "polygon".data.length from rfl, List.take_left]

theorem polygon_append_drop7 (x : String) :
    ("polygon" ++ x).data.drop 7 = x.data := by
  rw [String.data_append, show (7 : Nat) = "polygon".data.length from rfl, List.drop_left]

theorem cell_type_to_count_polygon_append (n : Nat) :
    cell_type_to_count ("polygon" ++ natToDecimal n) = some n := by
  by_cases h0 : n = 0
  · subst h0; decide
  · unfold cell_type_to_count
    rw [lookup_ctc_table_none _ (polygon_append_take7 _)]
    have hmk : (natToDecimal n).data = (decimalDigits n).map digitToChar := by
      unfold natToDecimal; rw [if_neg h0]
    have hdrop : ("polygon" ++ natToDecimal n).data.drop 7
        = (decimalDigits n).map digitToChar := by
      rw [polygon_append_drop7, hmk]
    simp only
    rw [if_pos]
    · rw [hdrop, List.foldl_map]
      have : (decimalDigits n).foldl (fun a c => 10 * a + ((digitToChar c).toNat - 48)) 0
          = (decimalDigits n).foldl (fun a d => 10 * a + d) 0 := by
        apply List.foldl_ext
        intro a d hd
        rw [digitToChar_toNat d (decimalDigits_lt n d hd)]
        omega
      rw [this]
      exact congrArg some (digitsFold_decimalDigits n)
    · refine ⟨polygon_append_take7 _, ?_, ?_⟩
      · rw [hdrop]
        simpa using decimalDigits_ne_nil n (Nat.pos_of_ne_zero h0)
      · rw [hdrop]
        apply List.all_eq_true.mpr
        intro c hc
        obtain ⟨d, hd, rfl⟩ := List.mem_map.mp hc
        exact digitToChar_isDigit d (decimalDigits_lt n d hd)

theorem cell_type_from_count_eq_polygon (n : Nat)
    (h1 : n ≠ 1) (h2 : n ≠ 2) (h3 : n ≠ 3) (h4 : n ≠ 4) :
    cell_type_from_count n = "polygon" ++ natToDecimal n := by
  unfold cell_type_from_count
  have e1 : (n == 1) = false := by simp [h1]
  have e2 : (n == 2) = false := by simp [h2]
  have e3 : (n == 3) = false := by simp [h3]
  have e4 : (n == 4) = false := by simp [h4]
  have : cell_type_from_count_table.lookup n = none := by
    simp [cell_type_from_count_table, cell_type_to_count_table, List.lookup, e1, e2, e3, e4]
  rw [this]

/-- C9: `cell_type_to_count` inverts `cell_type_from_count` on every
positive count; `cell_type_from_count` maps 1,2,3,4 to the four fixed tag
names and every other count to `"polygon" + str(count)`; and
`cell_type_to_count` returns `none` exactly for the tags outside the
vocabulary (not one of the four fixed names and not `polygon` followed by
one or more decimal digits), so custom tags are distinguishable without an
error. -/
theorem C9_cell_type_count_roundtrip :
    (∀ n : Nat, 0 < n → cell_type_to_count (cell_type_from_count n) = some n)
    ∧ cell_type_from_count 1 = "vertex"
    ∧ cell_type_from_count 2 = "line"
    ∧ cell_type_from_count 3 = "triangle"
    ∧ cell_type_from_count 4 = "quad"
    ∧ (∀ n : Nat, n ≠ 1 → n ≠ 2 → n ≠ 3 → n ≠ 4 →
        cell_type_from_count n = "polygon" ++ natToDecimal n)
    ∧ (∀ s : String, cell_type_to_count s = none ↔
        (cell_type_to_count_table.lookup s = none
          ∧ ¬(s.data.take 7 = "polygon".data ∧ s.data.drop 7 ≠ []
              ∧ (s.data.drop 7).all Char.isDigit))) := by
  refine ⟨?_, by decide, by decide, by decide, by decide, ?_, ?_⟩
  · intro n hn
    by_cases h1 : n = 1
    · subst h1; decide
    by_cases h2 : n = 2
    · subst h2; decide
    by_cases h3 : n = 3
    · subst h3; decide
    by_cases h4 : n = 4
    · subst h4; decide
    rw [cell_type_from_count_eq_polygon n h1 h2 h3 h4]
    exact cell_type_to_count_polygon_append n
  · exact cell_type_from_count_eq_polygon
  · intro s
    unfold cell_type_to_count
    cases hl : cell_type_to_count_table.lookup s with
    | some n => simp [hl]
    | none =>
      by_cases hp : s.data.take 7 = "polygon".data ∧ s.data.drop 7 ≠ []
          ∧ (s.data.drop 7).all Char.isDigit
      · simp only [if_pos hp]
        exact iff_of_false (by simp) (fun h => h.2 hp)
      · simp only [if_neg hp]
        exact iff_of_true trivial ⟨trivial, hp⟩

/-- Witness for C9 at the concrete count 7 (`polygon7`). -/
theorem C9_witness :
    0 < 7 ∧ cell_type_to_count (cell_type_from_count 7) = some 7 :=
  ⟨by decide, C9_cell_type_count_roundtrip.1 7 (by decide)⟩

/-! ## Bytes and fixed-width scalars -/

inductive ByteOrder
  | little | big
  deriving DecidableEq, Repr

/-- Python `int.from_bytes(bytes, byteorder)` (unsigned, any length). -/
def decodeUnsigned (bo : ByteOrder) (bytes : List Nat) : Nat :=
  match bo with
  | .little => bytes.foldr (fun b acc => b + 256 * acc) 0
  | .big => bytes.foldl (fun acc b => 256 * acc + b) 0

/-- Little-endian bytes of the `w`-byte scalar with bit pattern `v`. -/
def encUnsignedLE : Nat → Nat → List Nat
  | 0, _ => []
  | w + 1, v => v % 256 :: encUnsignedLE w (v / 256)

/-- The `w` bytes of the scalar with bit pattern `v` in byte order `bo`
(numpy `tobytes` of one element). -/
def encUnsigned (bo : ByteOrder) (w v : Nat) : List Nat :=
  match bo with
  | .little => encUnsignedLE w v
  | .big => (encUnsignedLE w v).reverse

theorem encUnsignedLE_length (w v : Nat) : (encUnsignedLE w v).length = w := by
  induction w generalizing v with
  | zero => rfl
  | succ w ih => simp [encUnsignedLE, ih]

theorem encUnsigned_length (bo : ByteOrder) (w v : Nat) : (encUnsigned bo w v).length = w := by
  cases bo <;> simp [encUnsigned, encUnsignedLE_length]

theorem encUnsignedLE_lt (w v : Nat) : ∀ b ∈ encUnsignedLE w v, b < 256 := by
  induction w generalizing v with
  | zero => simp [encUnsignedLE]
  | succ w ih =>
    intro b hb
    simp only [encUnsignedLE, List.mem_cons] at hb
    rcases hb with h | h
    · omega
    · exact ih _ _ h

theorem decodeUnsignedLE_enc (w v : Nat) :
    decodeUnsigned .little (encUnsignedLE w v) = v % 256 ^ w := by
  induction w generalizing v with
  | zero => simp [encUnsignedLE, decodeUnsigned, Nat.mod_one]
  | succ w ih =>
    simp only [encUnsignedLE, decodeUnsigned, List.foldr_cons]
    have ih2 := ih (v / 256)
    simp only [decodeUnsigned] at ih2
    rw [ih2]
    have hp : (256 : Nat) ^ (w + 1) = 256 * 256 ^ w := by ring
    rw [hp, Nat.mod_mul]

theorem decodeUnsigned_big_reverse (l : List Nat) :
    decodeUnsigned .big l.reverse = decodeUnsigned .little l := by
  simp only [decodeUnsigned, List.foldl_reverse]
  induction l with
  | nil => rfl
  | cons b t ih => simp only [List.foldr_cons, ih]; omega

theorem decodeUnsigned_enc (bo : ByteOrder) (w v : Nat) :
    decodeUnsigned bo (encUnsigned bo w v) = v % 256 ^ w := by
  cases bo
  · exact decodeUnsignedLE_enc w v
  · rw [encUnsigned, decodeUnsigned_big_reverse]
    exact decodeUnsignedLE_enc w v

theorem decodeUnsigned_enc_of_lt (bo : ByteOrder) (w v : Nat) (h : v < 256 ^ w) :
    decodeUnsigned bo (encUnsigned bo w v) = v := by
  rw [decodeUnsigned_enc, Nat.mod_eq_of_lt h]

/-! ## Fixed-size record views (`np.frombuffer` with an itemsize-`k` dtype) -/

def chunkAux (k : Nat) : Nat → List Nat → List (List Nat)
  | 0, _ => []
  | _, [] => []
  | fuel + 1, a :: t => ((a :: t).take k) :: chunkAux k fuel ((a :: t).drop k)

/-- Split a byte buffer into consecutive records of `k` bytes. -/
def chunkList (k : Nat) (l : List Nat) : List (List Nat) :=
  if k = 0 then [] else chunkAux k l.length l

theorem chunkAux_flatten (k : Nat) (hk : 0 < k) (cs : List (List Nat))
    (h : ∀ c ∈ cs, c.length = k) :
    ∀ fuel, cs.flatten.length ≤ fuel → chunkAux k fuel cs.flatten = cs := by
  induction cs with
  | nil => intro fuel _; cases fuel <;> rfl
  | cons c cs ih =>
    intro fuel hf
    have hc : c.length = k := h c (by simp)
    have hcs : ∀ x ∈ cs, x.length = k := fun x hx => h x (by simp [hx])
    obtain ⟨a, t, rfl⟩ : ∃ a t, c = a :: t := by
      cases c with
      | nil => simp at hc; omega
      | cons a t => exact ⟨a, t, rfl⟩
    simp only [List.flatten_cons] at hf ⊢
    have hlen : ((a :: t) ++ cs.flatten).length = k + cs.flatten.length := by
      rw [List.length_append, hc]
    obtain ⟨fuel', rfl⟩ : ∃ fuel', fuel = fuel' + 1 := by
      cases fuel with
      | zero => rw [hlen] at hf; omega
      | succ n => exact ⟨n, rfl⟩
    have hcons : (a :: t) ++ cs.flatten = a :: (t ++ cs.flatten) := by simp
    have htake : ((a :: t) ++ cs.flatten).take k = a :: t := by
      rw [← hc]; exact List.take_left _ _
    have hdrop : ((a :: t) ++ cs.flatten).drop k = cs.flatten := by
      rw [← hc]; exact List.drop_left _ _
    have hf' : cs.flatten.length ≤ fuel' := by rw [hlen] at hf; omega
    rw [hcons]
    show ((a :: (t ++ cs.flatten)).take k) :: chunkAux k fuel' ((a :: (t ++ cs.flatten)).drop k)
      = (a :: t) :: cs
    rw [← hcons, htake, hdrop, ih hcs fuel' hf']

theorem chunkList_flatten (k : Nat) (hk : 0 < k) (cs : List (List Nat))
    (h : ∀ c ∈ cs, c.length = k) : chunkList k cs.flatten = cs := by
  unfold chunkList
  rw [if_neg (by omega)]
  exact chunkAux_flatten k hk cs h _ (Nat.le_refl _)

/-! ## The cell-block data model -/

/-- A `CellBlock`: a cell-type tag plus a 2-D numpy index array, given by
its dtype, its column count (`shape[1]`) and its rows (each entry a bit
pattern of the dtype). -/
structure PCellBlock where
  tag : String
  dtype : NpDtype
  width : Nat
  rows : List (List Nat)
  deriving DecidableEq, Repr

/-! ## `_ply.py`: `_read_binary_list`

The ragged-list decoder.  `buffer` is the byte buffer starting at the
element's first record; the returned first component is the total byte
offset consumed (`byte_starts_ends[-1]`). -/

/-- The `parse_ragged` generator: the `num_cells + 1` byte offsets of the
row boundaries, starting at `a`.  Each step reads the row's count field
(`int.from_bytes`) and advances by `count * data_itemsize +
count_itemsize`. -/
def parseRagged (buffer : List Nat) (countItemsize dataItemsize : Nat) (bo : ByteOrder) :
    Nat → Nat → List Nat
  | a, 0 => [a]
  | a, n + 1 =>
    let count := decodeUnsigned bo ((buffer.drop a).take countItemsize)
    a :: parseRagged buffer countItemsize dataItemsize bo
      (a + count * dataItemsize + countItemsize) n

/-- `np.diff` (the offsets are nondecreasing, so `Nat` subtraction is
exact). -/
def diffs : List Nat → List Nat
  | a :: b :: t => (b - a) :: diffs (b :: t)
  | _ => []

/-- `np.nonzero(np.diff(row_lengths))[0] + 1`: the indices (counting from
`i + 1`) at which the row length changes. -/
def changedIds : List Nat → Nat → List Nat
  | a :: b :: t, i =>
    if b = a then changedIds (b :: t) (i + 1) else (i + 1) :: changedIds (b :: t) (i + 1)
  | _, _ => []

/-- The `(start, end)` row-index bounds of each homogeneous block. -/
def blockBoundsAux : Nat → List Nat → Nat → List (Nat × Nat)
  | start, [], total => [(start, total)]
  | start, e :: t, total => (start, e) :: blockBoundsAux e t total

def blockBounds (ids : List Nat) (total : Nat) : List (Nat × Nat) :=
  blockBoundsAux 0 ids total

/-- Parse one homogeneous block: reinterpret its bytes with the structured
dtype `[("count", count_dtype), ("data", data_dtype * cells_per_row)]` and
extract the data fields. -/
def decodeBlock (buffer : List Nat) (bo : ByteOrder) (cis : Nat) (dataDtype : NpDtype)
    (offsets rowLengths : List Nat) (s e : Nat) : PCellBlock :=
  let dis := dataDtype.itemsize
  let bs := offsets.getD s 0
  let be := offsets.getD e 0
  let blockBuf := (buffer.drop bs).take (be - bs)
  let cpr := (rowLengths.getD s 0 - cis) / dis
  let rowSize := cis + cpr * dis
  let rows := (chunkList rowSize blockBuf).map
    (fun r => (chunkList dis (r.drop cis)).map (decodeUnsigned bo))
  ⟨cell_type_from_count cpr, dataDtype, cpr, rows⟩

/-- `_read_binary_list(buffer, count_dtype, data_dtype, num_cells,
endianness)`. -/
def read_binary_list (buffer : List Nat) (countDtype dataDtype : NpDtype)
    (numCells : Nat) (bo : ByteOrder) : Nat × List PCellBlock :=
  let cis := countDtype.itemsize
  let dis := dataDtype.itemsize
  let offsets := parseRagged buffer cis dis bo 0 numCells
  let rowLengths := diffs offsets
  let bounds := blockBounds (changedIds rowLengths 0) numCells
  let blocks := bounds.foldr
    (fun se acc =>
      if se.1 = se.2 then acc
      else decodeBlock buffer bo cis dataDtype offsets rowLengths se.1 se.2 :: acc) []
  (offsets.getLastD 0, blocks)

/-! ## Specification side for C2: encoding rows and grouping runs -/

/-- The wire encoding of one count-prefixed record. -/
def encodeRow (bo : ByteOrder) (cis dis : Nat) (row : List Nat) : List Nat :=
  encUnsigned bo cis row.length ++ (row.map (encUnsigned bo dis)).flatten

/-- The wire encoding of a whole ragged element. -/
def encodeRows (bo : ByteOrder) (cis dis : Nat) (rows : List (List Nat)) : List Nat :=
  (rows.map (encodeRow bo cis dis)).flatten

/-- Longest prefix of rows whose length equals `n`, plus the remainder. -/
def takeRunLen (n : Nat) : List (List Nat) → List (List Nat) × List (List Nat)
  | [] => ([], [])
  | r :: t =>
    if r.length = n then
      let p := takeRunLen n t
      (r :: p.1, p.2)
    else ([], r :: t)

theorem takeRunLen_snd_length_le (n : Nat) (l : List (List Nat)) :
    (takeRunLen n l).2.length ≤ l.length := by
  induction l with
  | nil => simp [takeRunLen]
  | cons r t ih =>
    by_cases h : r.length = n
    · simp only [takeRunLen, if_pos h]
      exact Nat.le_succ_of_le ih
    · simp [takeRunLen, if_neg h]

def groupRunsAux : Nat → List (List Nat) → List (List (List Nat))
  | 0, _ => []
  | _, [] => []
  | fuel + 1, r :: t =>
    (r :: (takeRunLen r.length t).1) :: groupRunsAux fuel (takeRunLen r.length t).2

/-- The maximal consecutive runs of equal row length, in order. -/
def groupRuns (rows : List (List Nat)) : List (List (List Nat)) :=
  groupRunsAux rows.length rows

/-- Total byte length of the encoded records. -/
def rowByteLen (cis dis : Nat) (row : List Nat) : Nat := cis + row.length * dis

/-! ### Properties of `takeRunLen` and `groupRuns` -/

theorem takeRunLen_append (n : Nat) (l : List (List Nat)) :
    (takeRunLen n l).1 ++ (takeRunLen n l).2 = l := by
  induction l with
  | nil => rfl
  | cons r t ih =>
    by_cases h : r.length = n
    · simp only [takeRunLen, if_pos h]
      simpa using ih
    · simp [takeRunLen, if_neg h]

theorem takeRunLen_fst_length (n : Nat) (l : List (List Nat)) :
    ∀ x ∈ (takeRunLen n l).1, x.length = n := by
  induction l with
  | nil => simp [takeRunLen]
  | cons r t ih =>
    by_cases h : r.length = n
    · simp only [takeRunLen, if_pos h]
      intro x hx
      rcases List.mem_cons.mp hx with rfl | hx
      · exact h
      · exact ih x hx
    · simp [takeRunLen, if_neg h]

theorem takeRunLen_snd_head (n : Nat) (l : List (List Nat)) :
    ∀ x, (takeRunLen n l).2.head? = some x → x.length ≠ n := by
  induction l with
  | nil => simp [takeRunLen]
  | cons r t ih =>
    by_cases h : r.length = n
    · simp only [takeRunLen, if_pos h]
      exact ih
    · simp only [takeRunLen, if_neg h]
      intro x hx
      simp only [List.head?_cons, Option.some.injEq] at hx
      subst hx
      exact h

theorem groupRunsAux_flatten (fuel : Nat) : ∀ l : List (List Nat), l.length ≤ fuel →
    (groupRunsAux fuel l).flatten = l := by
  induction fuel with
  | zero =>
    intro l hl
    have : l = [] := List.length_eq_zero.mp (Nat.le_zero.mp hl)
    subst this; rfl
  | succ fuel ih =>
    intro l hl
    cases l with
    | nil => rfl
    | cons r t =>
      simp only [groupRunsAux, List.flatten_cons]
      have h2 : (takeRunLen r.length t).2.length ≤ fuel := by
        have := takeRunLen_snd_length_le r.length t
        simp only [List.length_cons] at hl
        omega
      rw [ih _ h2]
      simp [takeRunLen_append]

theorem groupRuns_flatten (l : List (List Nat)) : (groupRuns l).flatten = l :=
  groupRunsAux_flatten l.length l (Nat.le_refl _)

theorem groupRunsAux_ne_nil (fuel : Nat) : ∀ l : List (List Nat),
    ∀ run ∈ groupRunsAux fuel l, run ≠ [] := by
  induction fuel with
  | zero => intro l run h; simp [groupRunsAux] at h
  | succ fuel ih =>
    intro l run h
    cases l with
    | nil => simp [groupRunsAux] at h
    | cons r t =>
      simp only [groupRunsAux, List.mem_cons] at h
      rcases h with rfl | h
      · simp
      · exact ih _ run h

theorem groupRunsAux_const_width (fuel : Nat) : ∀ l : List (List Nat),
    ∀ run ∈ groupRunsAux fuel l, ∀ r ∈ run, r.length = (run.headD []).length := by
  induction fuel with
  | zero => intro l run h; simp [groupRunsAux] at h
  | succ fuel ih =>
    intro l run h
    cases l with
    | nil => simp [groupRunsAux] at h
    | cons x t =>
      simp only [groupRunsAux, List.mem_cons] at h
      rcases h with rfl | h
      · intro r hr
        simp only [List.headD_cons]
        rcases List.mem_cons.mp hr with rfl | hr
        · rfl
        · exact takeRunLen_fst_length x.length t r hr
      · exact ih _ run h

theorem groupRunsAux_head_eq (fuel : Nat) (x : List Nat) (t : List (List Nat)) :
    ∃ p, (groupRunsAux (fuel + 1) (x :: t)).head? = some (x :: p) := by
  exact ⟨(takeRunLen x.length t).1, rfl⟩

theorem groupRunsAux_chain (fuel : Nat) : ∀ l : List (List Nat), l.length ≤ fuel →
    (groupRunsAux fuel l).Chain'
      (fun a b => (a.headD []).length ≠ (b.headD []).length) := by
  induction fuel with
  | zero =>
    intro l hl
    have : l = [] := List.length_eq_zero.mp (Nat.le_zero.mp hl)
    subst this; simp [groupRunsAux]
  | succ fuel ih =>
    intro l hl
    cases l with
    | nil => simp [groupRunsAux]
    | cons r t =>
      simp only [groupRunsAux]
      have h2 : (takeRunLen r.length t).2.length ≤ fuel := by
        have := takeRunLen_snd_length_le r.length t
        simp only [List.length_cons] at hl
        omega
      apply List.chain'_cons'.mpr
      refine ⟨?_, ih _ h2⟩
      intro y hy
      cases hsnd : (takeRunLen r.length t).2 with
      | nil =>
        rw [hsnd] at hy
        cases fuel <;> simp [groupRunsAux] at hy
      | cons z t2 =>
        rw [hsnd] at hy
        obtain ⟨fuel', rfl⟩ : ∃ n, fuel = n + 1 := by
          rw [hsnd] at h2
          cases fuel with
          | zero => simp at h2
          | succ n => exact ⟨n, rfl⟩
        obtain ⟨p, hp⟩ := groupRunsAux_head_eq fuel' z t2
        rw [hp] at hy
        cases hy
        have hz : z.length ≠ r.length := by
          apply takeRunLen_snd_head r.length t
          rw [hsnd]; rfl
        simpa using fun h => hz h.symm

theorem groupRuns_ne_nil (l : List (List Nat)) : ∀ run ∈ groupRuns l, run ≠ [] :=
  groupRunsAux_ne_nil l.length l

theorem groupRuns_const_width (l : List (List Nat)) :
    ∀ run ∈ groupRuns l, ∀ r ∈ run, r.length = (run.headD []).length :=
  groupRunsAux_const_width l.length l

theorem groupRuns_chain (l : List (List Nat)) :
    (groupRuns l).Chain' (fun a b => (a.headD []).length ≠ (b.headD []).length) :=
  groupRunsAux_chain l.length l (Nat.le_refl _)

/-! ### The offset scan on an encoded buffer -/

theorem encodeRow_length (bo : ByteOrder) (cis dis : Nat) (row : List Nat) :
    (encodeRow bo cis dis row).length = rowByteLen cis dis row := by
  simp only [encodeRow, rowByteLen, List.length_append, encUnsigned_length]
  congr 1
  rw [List.length_flatten]
  induction row with
  | nil => simp
  | cons v t ih =>
    simp only [List.map_cons, List.map_map]
    simp only [List.map_map] at ih
    simp [ih, encUnsigned_length, Nat.succ_mul]
    omega

/-- Cumulative byte offsets of the rows, starting at `a`. -/
def offsetsFrom (cis dis : Nat) (a : Nat) : List (List Nat) → List Nat
  | [] => [a]
  | r :: t => a :: offsetsFrom cis dis (a + rowByteLen cis dis r) t

def byteSum (cis dis : Nat) (rows : List (List Nat)) : Nat :=
  (rows.map (rowByteLen cis dis)).sum

theorem encodeRows_length (bo : ByteOrder) (cis dis : Nat) (rows : List (List Nat)) :
    (encodeRows bo cis dis rows).length = byteSum cis dis rows := by
  unfold encodeRows byteSum
  rw [List.length_flatten, List.map_map]
  congr 1
  apply List.map_congr_left
  intro r _
  exact encodeRow_length bo cis dis r

theorem encodeRows_append (bo : ByteOrder) (cis dis : Nat) (l₁ l₂ : List (List Nat)) :
    encodeRows bo cis dis (l₁ ++ l₂) = encodeRows bo cis dis l₁ ++ encodeRows bo cis dis l₂ := by
  simp [encodeRows]

theorem parseRagged_encode (bo : ByteOrder) (cis dis : Nat) :
    ∀ (rows : List (List Nat)) (buffer rest : List Nat) (a : Nat),
    buffer.drop a = encodeRows bo cis dis rows ++ rest →
    (∀ r ∈ rows, r.length < 256 ^ cis) →
    parseRagged buffer cis dis bo a rows.length = offsetsFrom cis dis a rows := by
  intro rows
  induction rows with
  | nil => intro buffer rest a _ _; rfl
  | cons r t ih =>
    intro buffer rest a hbuf hlen
    have hbuf1 : buffer.drop a
        = encodeRow bo cis dis r ++ (encodeRows bo cis dis t ++ rest) := by
      rw [hbuf]
      simp [encodeRows]
    have hcount : decodeUnsigned bo ((buffer.drop a).take cis) = r.length := by
      rw [hbuf1]
      have : (encodeRow bo cis dis r
          ++ (encodeRows bo cis dis t ++ rest)).take cis
          = encUnsigned bo cis r.length := by
        unfold encodeRow
        rw [List.append_assoc]
        have h := List.take_left (encUnsigned bo cis r.length)
          ((r.map (encUnsigned bo dis)).flatten ++ (encodeRows bo cis dis t ++ rest))
        rw [encUnsigned_length] at h
        exact h
      rw [this]
      exact decodeUnsigned_enc_of_lt bo cis r.length (hlen r (by simp))
    show (let count := decodeUnsigned bo ((buffer.drop a).take cis)
      a :: parseRagged buffer cis dis bo (a + count * dis + cis) t.length)
      = a :: offsetsFrom cis dis (a + rowByteLen cis dis r) t
    simp only [hcount]
    have harith : a + r.length * dis + cis = a + rowByteLen cis dis r := by
      unfold rowByteLen; omega
    rw [harith]
    congr 1
    apply ih buffer rest
    · rw [← List.drop_drop, hbuf1]
      rw [show rowByteLen cis dis r = (encodeRow bo cis dis r).length from
        (encodeRow_length bo cis dis r).symm]
      exact List.drop_left _ _
    · intro x hx; exact hlen x (by simp [hx])

theorem offsetsFrom_head (cis dis a : Nat) (rows : List (List Nat)) :
    ∃ rest, offsetsFrom cis dis a rows = a :: rest := by
  cases rows <;> exact ⟨_, rfl⟩

theorem diffs_offsetsFrom (cis dis : Nat) :
    ∀ (rows : List (List Nat)) (a : Nat),
    diffs (offsetsFrom cis dis a rows) = rows.map (rowByteLen cis dis) := by
  intro rows
  induction rows with
  | nil => intro a; rfl
  | cons r t ih =>
    intro a
    obtain ⟨rest, hrest⟩ := offsetsFrom_head cis dis (a + rowByteLen cis dis r) t
    show diffs (a :: offsetsFrom cis dis (a + rowByteLen cis dis r) t)
      = rowByteLen cis dis r :: t.map (rowByteLen cis dis)
    rw [hrest]
    show ((a + rowByteLen cis dis r) - a) :: diffs ((a + rowByteLen cis dis r) :: rest)
      = rowByteLen cis dis r :: t.map (rowByteLen cis dis)
    rw [← hrest, ih]
    congr 1
    omega

theorem offsetsFrom_getD (cis dis : Nat) :
    ∀ (rows : List (List Nat)) (a j : Nat), j ≤ rows.length →
    (offsetsFrom cis dis a rows).getD j 0 = a + byteSum cis dis (rows.take j) := by
  intro rows
  induction rows with
  | nil =>
    intro a j hj
    have : j = 0 := Nat.le_zero.mp hj
    subst this
    simp [offsetsFrom, byteSum]
  | cons r t ih =>
    intro a j hj
    cases j with
    | zero => simp [offsetsFrom, byteSum]
    | succ j =>
      show (offsetsFrom cis dis (a + rowByteLen cis dis r) t).getD j 0
        = a + byteSum cis dis (r :: t.take j)
      rw [ih _ j (by simpa using hj)]
      simp [byteSum]
      omega

theorem offsetsFrom_getLastD (cis dis : Nat) :
    ∀ (rows : List (List Nat)) (a : Nat),
    (offsetsFrom cis dis a rows).getLastD 0 = a + byteSum cis dis rows := by
  intro rows
  induction rows with
  | nil => intro a; simp [offsetsFrom, byteSum]
  | cons r t ih =>
    intro a
    obtain ⟨rest, hrest⟩ := offsetsFrom_head cis dis (a + rowByteLen cis dis r) t
    have hunfold : offsetsFrom cis dis a (r :: t)
        = a :: (a + rowByteLen cis dis r) :: rest := by
      show a :: offsetsFrom cis dis (a + rowByteLen cis dis r) t = _
      rw [hrest]
    rw [hunfold]
    have ih2 := ih (a + rowByteLen cis dis r)
    rw [hrest] at ih2
    simp only [List.getLastD_cons] at ih2 ⊢
    rw [ih2]
    simp [byteSum]
    omega

/-! ### Runs of equal row length and the block bounds -/

def runWidth (run : List (List Nat)) : Nat := (run.headD []).length

theorem changedIds_replicate (L : Nat) : ∀ (k i : Nat),
    changedIds (List.replicate k L) i = [] := by
  intro k
  induction k with
  | zero => intro i; rfl
  | succ k ih =>
    intro i
    cases k with
    | zero => rfl
    | succ j =>
      show changedIds (L :: L :: List.replicate j L) i = []
      simp only [changedIds, if_pos rfl]
      exact ih (i + 1)

theorem changedIds_replicate_append (L M : Nat) (rest : List Nat) (hM : M ≠ L) :
    ∀ (j i : Nat),
    changedIds (List.replicate (j + 1) L ++ M :: rest) i
      = (i + (j + 1)) :: changedIds (M :: rest) (i + (j + 1)) := by
  intro j
  induction j with
  | zero =>
    intro i
    show changedIds (L :: M :: rest) i = (i + 1) :: changedIds (M :: rest) (i + 1)
    simp only [changedIds, if_neg hM]
  | succ j ih =>
    intro i
    have h2 : List.replicate (j + 2) L ++ M :: rest
        = L :: L :: (List.replicate j L ++ M :: rest) := by
      simp [List.replicate_succ]
    rw [h2]
    simp only [changedIds, if_pos rfl]
    have h3 : L :: (List.replicate j L ++ M :: rest)
        = List.replicate (j + 1) L ++ M :: rest := by
      simp [List.replicate_succ]
    rw [h3, ih (i + 1)]
    have : i + 1 + (j + 1) = i + (j + 1 + 1) := by omega
    rw [this]
    simp

theorem map_rowByteLen_run (cis dis : Nat) (run : List (List Nat))
    (hconst : ∀ r ∈ run, r.length = runWidth run) :
    run.map (rowByteLen cis dis) = List.replicate run.length (cis + runWidth run * dis) := by
  apply List.eq_replicate_iff.mpr
  constructor
  · simp
  · intro x hx
    obtain ⟨r, hr, rfl⟩ := List.mem_map.mp hx
    rw [rowByteLen, hconst r hr]

/-- The (absolute) row indices at which a new run starts, counting from
`i`, for a nonempty tail of runs. -/
def runBoundaries (i : Nat) : List (List (List Nat)) → List Nat
  | [] => []
  | [_] => []
  | run :: rest => (i + run.length) :: runBoundaries (i + run.length) rest

theorem changedIds_flatten_runs (cis dis : Nat) (hdis : 0 < dis) :
    ∀ (runs : List (List (List Nat))), (∀ run ∈ runs, run ≠ []) →
    (∀ run ∈ runs, ∀ r ∈ run, r.length = runWidth run) →
    runs.Chain' (fun a b => runWidth a ≠ runWidth b) →
    ∀ i, changedIds ((runs.flatten).map (rowByteLen cis dis)) i = runBoundaries i runs := by
  intro runs
  induction runs with
  | nil => intro _ _ _ i; rfl
  | cons run rest ih =>
    intro hne hconst hchain i
    have hconstrun : ∀ r ∈ run, r.length = runWidth run :=
      hconst run (by simp)
    cases rest with
    | nil =>
      show changedIds (([run].flatten).map (rowByteLen cis dis)) i = runBoundaries i [run]
      have : [run].flatten = run := by simp
      rw [this, map_rowByteLen_run cis dis run hconstrun, changedIds_replicate]
      rfl
    | cons run2 rest2 =>
      obtain ⟨r2h, r2t, rfl⟩ : ∃ a t, run2 = a :: t := by
        cases hr2 : run2 with
        | nil => exact absurd hr2 (hne run2 (by simp))
        | cons a t => exact ⟨a, t, rfl⟩
      have hflat : ((run :: (r2h :: r2t) :: rest2).flatten).map (rowByteLen cis dis)
          = List.replicate run.length (cis + runWidth run * dis)
            ++ (rowByteLen cis dis r2h
                :: (r2t ++ rest2.flatten).map (rowByteLen cis dis)) := by
        rw [List.flatten_cons, List.map_append, map_rowByteLen_run cis dis run hconstrun]
        simp
      rw [hflat]
      have hw2 : r2h.length = runWidth ((r2h :: r2t) : List (List Nat)) := by
        simp [runWidth]
      have hM : rowByteLen cis dis r2h ≠ cis + runWidth run * dis := by
        rw [rowByteLen, hw2]
        intro h
        have hmul : runWidth (r2h :: r2t) * dis = runWidth run * dis := by omega
        have := Nat.eq_of_mul_eq_mul_right hdis hmul
        have hcc := List.chain'_cons.mp hchain
        exact hcc.1 this.symm
      obtain ⟨j, hj⟩ : ∃ j, run.length = j + 1 := by
        cases hl : run with
        | nil => exact absurd hl (hne run (by simp))
        | cons a t => exact ⟨t.length, by simp⟩
      rw [hj, changedIds_replicate_append _ _ _ hM]
      have htail : rowByteLen cis dis r2h :: (r2t ++ rest2.flatten).map (rowByteLen cis dis)
          = (((r2h :: r2t) :: rest2).flatten).map (rowByteLen cis dis) := by
        rw [List.flatten_cons]
        simp
      rw [htail]
      have hchain2 : ((r2h :: r2t) :: rest2).Chain'
          (fun a b => runWidth a ≠ runWidth b) := (List.chain'_cons.mp hchain).2
      rw [ih (fun x hx => hne x (by simp [hx]))
        (fun x hx => hconst x (by simp [hx])) hchain2]
      show (i + (j + 1)) :: runBoundaries (i + (j + 1)) ((r2h :: r2t) :: rest2)
        = (i + run.length) :: runBoundaries (i + run.length) ((r2h :: r2t) :: rest2)
      rw [hj]

/-- The `(start, end)` row-index pairs that `block_bounds` contains, for a
tail of runs beginning at row index `s`. -/
def boundsList (s : Nat) : List (List (List Nat)) → List (Nat × Nat)
  | [] => [(s, s)]
  | [run] => [(s, s + run.length)]
  | run :: rest => (s, s + run.length) :: boundsList (s + run.length) rest

def sumLens (runs : List (List (List Nat))) : Nat := (runs.map List.length).sum

theorem blockBoundsAux_runBoundaries :
    ∀ (runs : List (List (List Nat))) (s : Nat),
    blockBoundsAux s (runBoundaries s runs) (s + sumLens runs) = boundsList s runs := by
  intro runs
  induction runs with
  | nil =>
    intro s
    show [(s, s + sumLens [])] = [(s, s)]
    simp [sumLens]
  | cons run rest ih =>
    intro s
    cases rest with
    | nil =>
      show [(s, s + sumLens [run])] = [(s, s + run.length)]
      simp [sumLens]
    | cons run2 rest2 =>
      show blockBoundsAux s
          ((s + run.length) :: runBoundaries (s + run.length) (run2 :: rest2))
          (s + sumLens (run :: run2 :: rest2))
        = (s, s + run.length) :: boundsList (s + run.length) (run2 :: rest2)
      show (s, s + run.length) :: blockBoundsAux (s + run.length)
          (runBoundaries (s + run.length) (run2 :: rest2))
          (s + sumLens (run :: run2 :: rest2))
        = (s, s + run.length) :: boundsList (s + run.length) (run2 :: rest2)
      congr 1
      have : s + sumLens (run :: run2 :: rest2)
          = (s + run.length) + sumLens (run2 :: rest2) := by
        simp [sumLens]; omega
      rw [this]
      exact ih (s + run.length)

theorem foldr_skip_eq_map (g : Nat → Nat → PCellBlock) :
    ∀ bounds : List (Nat × Nat), (∀ se ∈ bounds, se.1 ≠ se.2) →
    bounds.foldr (fun se acc => if se.1 = se.2 then acc else g se.1 se.2 :: acc) []
      = bounds.map (fun se => g se.1 se.2) := by
  intro bounds
  induction bounds with
  | nil => intro _; rfl
  | cons b t ih =>
    intro h
    simp only [List.foldr_cons, List.map_cons]
    rw [if_neg (h b (by simp)), ih (fun se hse => h se (by simp [hse]))]

theorem boundsList_ne (runs : List (List (List Nat))) (hruns : ∀ run ∈ runs, run ≠ []) :
    runs ≠ [] → ∀ s, ∀ se ∈ boundsList s runs, se.1 ≠ se.2 := by
  induction runs with
  | nil => intro h; exact absurd rfl h
  | cons run rest ih =>
    intro _ s se hse
    have hlen : 0 < run.length :=
      List.length_pos.mpr (hruns run (by simp))
    cases rest with
    | nil =>
      have : se = (s, s + run.length) := by
        simpa [boundsList] using hse
      subst this
      show s ≠ s + run.length
      omega
    | cons run2 rest2 =>
      have hse2 : se = (s, s + run.length)
          ∨ se ∈ boundsList (s + run.length) (run2 :: rest2) := by
        simpa [boundsList] using hse
      rcases hse2 with rfl | hse2
      · show s ≠ s + run.length
        omega
      · exact ih (fun x hx => hruns x (by simp [hx])) (by simp) _ se hse2

/-- `(A ++ B).getD A.length d = B.getD 0 d`. -/
theorem getD_append_length {α : Type} (d : α) :
    ∀ (A B : List α), (A ++ B).getD A.length d = B.getD 0 d := by
  intro A
  induction A with
  | nil => intro B; rfl
  | cons a t ih => intro B; simpa using ih B

theorem byteSum_append (cis dis : Nat) (A B : List (List Nat)) :
    byteSum cis dis (A ++ B) = byteSum cis dis A + byteSum cis dis B := by
  simp [byteSum]

theorem decodeRowBytes (bo : ByteOrder) (cis dis : Nat) (hdis : 0 < dis)
    (r : List Nat) (hval : ∀ v ∈ r, v < 256 ^ dis) :
    (chunkList dis ((encodeRow bo cis dis r).drop cis)).map (decodeUnsigned bo) = r := by
  have hdrop : (encodeRow bo cis dis r).drop cis = (r.map (encUnsigned bo dis)).flatten := by
    unfold encodeRow
    have h := List.drop_left (encUnsigned bo cis r.length) ((r.map (encUnsigned bo dis)).flatten)
    rw [encUnsigned_length] at h
    exact h
  rw [hdrop, chunkList_flatten dis hdis _ (by
    intro c hc
    obtain ⟨v, _, rfl⟩ := List.mem_map.mp hc
    exact encUnsigned_length bo dis v)]
  rw [List.map_map]
  have : r.map (decodeUnsigned bo ∘ encUnsigned bo dis) = r.map id := by
    apply List.map_congr_left
    intro v hv
    exact decodeUnsigned_enc_of_lt bo dis v (hval v hv)
  rw [this, List.map_id]

theorem decodeBlock_at (bo : ByteOrder) (cis : Nat) (hcis : 0 < cis) (ddt : NpDtype)
    (pre run post : List (List Nat)) (rest : List Nat)
    (hrun : run ≠ [])
    (hconst : ∀ r ∈ run, r.length = runWidth run)
    (hval : ∀ r ∈ run, ∀ v ∈ r, v < 256 ^ ddt.itemsize) :
    decodeBlock (encodeRows bo cis ddt.itemsize (pre ++ (run ++ post)) ++ rest) bo cis ddt
      (offsetsFrom cis ddt.itemsize 0 (pre ++ (run ++ post)))
      ((pre ++ (run ++ post)).map (rowByteLen cis ddt.itemsize))
      pre.length (pre.length + run.length)
    = ⟨cell_type_from_count (runWidth run), ddt, runWidth run, run⟩ := by
  have hdis : 0 < ddt.itemsize := ddt.itemsize_pos
  obtain ⟨rh, rt, rfl⟩ : ∃ a t, run = a :: t := by
    cases hr : run with
    | nil => exact absurd hr hrun
    | cons a t => exact ⟨a, t, rfl⟩
  have hw : runWidth (rh :: rt) = rh.length := rfl
  -- the two byte offsets
  have hbs : (offsetsFrom cis ddt.itemsize 0 (pre ++ ((rh :: rt) ++ post))).getD pre.length 0
      = byteSum cis ddt.itemsize pre := by
    rw [offsetsFrom_getD _ _ _ _ _ (by simp)]
    rw [List.take_left]
    omega
  have htake2 : (pre ++ ((rh :: rt) ++ post)).take (pre.length + (rh :: rt).length)
      = pre ++ (rh :: rt) := by
    rw [← List.append_assoc]
    have h := List.take_left (pre ++ (rh :: rt)) post
    rwa [List.length_append] at h
  have hbe : (offsetsFrom cis ddt.itemsize 0
        (pre ++ ((rh :: rt) ++ post))).getD (pre.length + (rh :: rt).length) 0
      = byteSum cis ddt.itemsize pre + byteSum cis ddt.itemsize (rh :: rt) := by
    rw [offsetsFrom_getD _ _ _ _ _ (by simp)]
    rw [htake2, byteSum_append]
    omega
  -- the row length at the start of the block
  have hrl : ((pre ++ ((rh :: rt) ++ post)).map
        (rowByteLen cis ddt.itemsize)).getD pre.length 0
      = cis + runWidth (rh :: rt) * ddt.itemsize := by
    rw [List.map_append]
    have h := getD_append_length 0 (pre.map (rowByteLen cis ddt.itemsize))
      (((rh :: rt) ++ post).map (rowByteLen cis ddt.itemsize))
    rw [List.length_map] at h
    rw [h]
    show rowByteLen cis ddt.itemsize rh = cis + runWidth (rh :: rt) * ddt.itemsize
    rw [rowByteLen, hw]
  -- the byte slice of the block
  have hslice : ((encodeRows bo cis ddt.itemsize (pre ++ ((rh :: rt) ++ post)) ++ rest).drop
        (byteSum cis ddt.itemsize pre)).take
        ((byteSum cis ddt.itemsize pre + byteSum cis ddt.itemsize (rh :: rt))
          - byteSum cis ddt.itemsize pre)
      = encodeRows bo cis ddt.itemsize (rh :: rt) := by
    have e1 : encodeRows bo cis ddt.itemsize (pre ++ ((rh :: rt) ++ post)) ++ rest
        = encodeRows bo cis ddt.itemsize pre
          ++ (encodeRows bo cis ddt.itemsize (rh :: rt)
              ++ (encodeRows bo cis ddt.itemsize post ++ rest)) := by
      rw [encodeRows_append, encodeRows_append]
      simp [List.append_assoc]
    rw [e1]
    have e2 : (encodeRows bo cis ddt.itemsize pre
          ++ (encodeRows bo cis ddt.itemsize (rh :: rt)
              ++ (encodeRows bo cis ddt.itemsize post ++ rest))).drop
          (byteSum cis ddt.itemsize pre)
        = encodeRows bo cis ddt.itemsize (rh :: rt)
          ++ (encodeRows bo cis ddt.itemsize post ++ rest) := by
      have h := List.drop_left (encodeRows bo cis ddt.itemsize pre)
        (encodeRows bo cis ddt.itemsize (rh :: rt) ++ (encodeRows bo cis ddt.itemsize post ++ rest))
      rwa [encodeRows_length] at h
    rw [e2]
    have e3 : byteSum cis ddt.itemsize pre + byteSum cis ddt.itemsize (rh :: rt)
        - byteSum cis ddt.itemsize pre = byteSum cis ddt.itemsize (rh :: rt) := by omega
    rw [e3]
    have h := List.take_left (encodeRows bo cis ddt.itemsize (rh :: rt))
      (encodeRows bo cis ddt.itemsize post ++ rest)
    rwa [encodeRows_length] at h
  -- cells per row
  have hcpr : (cis + runWidth (rh :: rt) * ddt.itemsize - cis) / ddt.itemsize
      = runWidth (rh :: rt) := by
    rw [Nat.add_sub_cancel_left, Nat.mul_div_cancel _ hdis]
  -- rows of the block
  have hchunk : chunkList (cis + runWidth (rh :: rt) * ddt.itemsize)
        (encodeRows bo cis ddt.itemsize (rh :: rt))
      = (rh :: rt).map (encodeRow bo cis ddt.itemsize) := by
    apply chunkList_flatten _ (by omega)
    intro c hc
    obtain ⟨r, hr, rfl⟩ := List.mem_map.mp hc
    rw [encodeRow_length, rowByteLen, hconst r hr]
  unfold decodeBlock
  simp only [hbs, hbe, hrl, hslice, hcpr, hchunk]
  congr 1
  rw [List.map_map]
  have : (rh :: rt).map
        ((fun r => (chunkList ddt.itemsize (r.drop cis)).map (decodeUnsigned bo))
          ∘ encodeRow bo cis ddt.itemsize)
      = (rh :: rt).map id := by
    apply List.map_congr_left
    intro r hr
    exact decodeRowBytes bo cis ddt.itemsize hdis r (hval r hr)
  rw [this, List.map_id]

theorem foldr_decode_boundsList (bo : ByteOrder) (cis : Nat) (hcis : 0 < cis)
    (ddt : NpDtype) (rest : List Nat) :
    ∀ (runs pre : List (List (List Nat))) (rows : List (List Nat)),
    rows = pre.flatten ++ runs.flatten →
    (∀ run ∈ runs, run ≠ []) →
    (∀ run ∈ runs, ∀ r ∈ run, r.length = runWidth run) →
    (∀ run ∈ runs, ∀ r ∈ run, ∀ v ∈ r, v < 256 ^ ddt.itemsize) →
    (boundsList pre.flatten.length runs).foldr
      (fun se acc => if se.1 = se.2 then acc
        else decodeBlock (encodeRows bo cis ddt.itemsize rows ++ rest) bo cis ddt
          (offsetsFrom cis ddt.itemsize 0 rows)
          (rows.map (rowByteLen cis ddt.itemsize)) se.1 se.2 :: acc) []
      = runs.map (fun run => ⟨cell_type_from_count (runWidth run), ddt, runWidth run, run⟩) := by
  intro runs
  induction runs with
  | nil =>
    intro pre rows _ _ _ _
    show (if pre.flatten.length = pre.flatten.length then ([] : List PCellBlock)
      else _ :: []) = []
    rw [if_pos rfl]
  | cons run rest2 ih =>
    intro pre rows hrows hne hconst hval
    have hrun : run ≠ [] := hne run (by simp)
    have hlenrun : 0 < run.length := List.length_pos.mpr hrun
    have hdec : decodeBlock (encodeRows bo cis ddt.itemsize rows ++ rest) bo cis ddt
          (offsetsFrom cis ddt.itemsize 0 rows)
          (rows.map (rowByteLen cis ddt.itemsize))
          pre.flatten.length (pre.flatten.length + run.length)
        = ⟨cell_type_from_count (runWidth run), ddt, runWidth run, run⟩ := by
      have hr2 : rows = pre.flatten ++ (run ++ rest2.flatten) := by
        rw [hrows, List.flatten_cons]
      rw [hr2]
      exact decodeBlock_at bo cis hcis ddt pre.flatten run rest2.flatten rest hrun
        (hconst run (by simp)) (hval run (by simp))
    cases rest2 with
    | nil =>
      show (if pre.flatten.length = pre.flatten.length + run.length then []
        else [decodeBlock (encodeRows bo cis ddt.itemsize rows ++ rest) bo cis ddt
          (offsetsFrom cis ddt.itemsize 0 rows)
          (rows.map (rowByteLen cis ddt.itemsize))
          pre.flatten.length (pre.flatten.length + run.length)])
        = [⟨cell_type_from_count (runWidth run), ddt, runWidth run, run⟩]
      rw [if_neg (by omega), hdec]
    | cons run2 rest3 =>
      show (if pre.flatten.length = pre.flatten.length + run.length then _ else
          decodeBlock (encodeRows bo cis ddt.itemsize rows ++ rest) bo cis ddt
            (offsetsFrom cis ddt.itemsize 0 rows)
            (rows.map (rowByteLen cis ddt.itemsize))
            pre.flatten.length (pre.flatten.length + run.length)
          :: (boundsList (pre.flatten.length + run.length) (run2 :: rest3)).foldr _ [])
        = _
      rw [if_neg (by omega), hdec]
      have hpre2 : (pre ++ [run]).flatten.length = pre.flatten.length + run.length := by
        simp
      have hrows2 : rows = (pre ++ [run]).flatten ++ (run2 :: rest3).flatten := by
        rw [hrows, List.flatten_cons]
        simp
      have := ih (pre ++ [run]) rows hrows2
        (fun x hx => hne x (by simp [hx]))
        (fun x hx => hconst x (by simp [hx]))
        (fun x hx => hval x (by simp [hx]))
      rw [hpre2] at this
      rw [this]
      rfl

theorem read_binary_list_runs (bo : ByteOrder) (cdt ddt : NpDtype)
    (runs : List (List (List Nat))) (rest : List Nat)
    (hne : ∀ run ∈ runs, run ≠ [])
    (hconst : ∀ run ∈ runs, ∀ r ∈ run, r.length = runWidth run)
    (hchain : runs.Chain' (fun a b => runWidth a ≠ runWidth b))
    (hlen : ∀ r ∈ runs.flatten, r.length < 256 ^ cdt.itemsize)
    (hval : ∀ run ∈ runs, ∀ r ∈ run, ∀ v ∈ r, v < 256 ^ ddt.itemsize) :
    read_binary_list
        (encodeRows bo cdt.itemsize ddt.itemsize runs.flatten ++ rest)
        cdt ddt runs.flatten.length bo
      = (byteSum cdt.itemsize ddt.itemsize runs.flatten,
         runs.map (fun run => ⟨cell_type_from_count (runWidth run), ddt, runWidth run, run⟩)) := by
  have hcis : 0 < cdt.itemsize := cdt.itemsize_pos
  have hdis : 0 < ddt.itemsize := ddt.itemsize_pos
  unfold read_binary_list
  have hoffs : parseRagged
        (encodeRows bo cdt.itemsize ddt.itemsize runs.flatten ++ rest)
        cdt.itemsize ddt.itemsize bo 0 runs.flatten.length
      = offsetsFrom cdt.itemsize ddt.itemsize 0 runs.flatten :=
    parseRagged_encode bo cdt.itemsize ddt.itemsize runs.flatten _ rest 0 rfl hlen
  simp only [hoffs, diffs_offsetsFrom, offsetsFrom_getLastD]
  have hchanged : changedIds ((runs.flatten).map
        (rowByteLen cdt.itemsize ddt.itemsize)) 0 = runBoundaries 0 runs :=
    changedIds_flatten_runs cdt.itemsize ddt.itemsize hdis runs hne hconst hchain 0
  rw [hchanged]
  have htotal : runs.flatten.length = 0 + sumLens runs := by
    simp [sumLens, List.length_flatten]
  rw [htotal]
  show (0 + byteSum cdt.itemsize ddt.itemsize runs.flatten,
      (blockBoundsAux 0 (runBoundaries 0 runs) (0 + sumLens runs)).foldr _ [])
    = _
  rw [blockBoundsAux_runBoundaries runs 0]
  have hfold := foldr_decode_boundsList bo cdt.itemsize hcis ddt rest runs [] runs.flatten
    rfl hne hconst hval
  simp only [List.flatten_nil, List.length_nil] at hfold
  rw [hfold]
  congr 1
  omega

/-- C2 (amended): decoding a buffer that encodes `rows.length`
count-prefixed records (each row length below the count field's range,
each value below the data field's range, arbitrary trailing bytes) yields
one `CellBlock` per maximal consecutive run of equal row length, in
original order (a zero-length run, i.e. an empty element, contributes no
block), and the consumed byte offset is exactly the total byte length of
the records.  In particular, for record lengths `[3,3,3,4,4,5]` the blocks
are `triangle, quad, polygon5` with row counts `3, 2, 1` (not `3, 1, 2` as
the specification instance states). -/
theorem C2_ragged_decode (bo : ByteOrder) (cdt ddt : NpDtype)
    (rows : List (List Nat)) (rest : List Nat)
    (hlen : ∀ r ∈ rows, r.length < 256 ^ cdt.itemsize)
    (hval : ∀ r ∈ rows, ∀ v ∈ r, v < 256 ^ ddt.itemsize) :
    read_binary_list (encodeRows bo cdt.itemsize ddt.itemsize rows ++ rest)
        cdt ddt rows.length bo
      = ((encodeRows bo cdt.itemsize ddt.itemsize rows).length,
         (groupRuns rows).map
           (fun run => ⟨cell_type_from_count (runWidth run), ddt, runWidth run, run⟩)) := by
  have hflat := groupRuns_flatten rows
  have h := read_binary_list_runs bo cdt ddt (groupRuns rows) rest
    (groupRuns_ne_nil rows)
    (groupRuns_const_width rows)
    (groupRuns_chain rows)
    (by rw [hflat]; exact hlen)
    (by
      intro run hrun r hr v hv
      exact hval r (by rw [← hflat]; exact List.mem_flatten.mpr ⟨run, hrun, hr⟩) v hv)
  rw [hflat] at h
  rw [h, encodeRows_length]

def c2rows : List (List Nat) :=
  [[0, 1, 2], [3, 4, 5], [6, 7, 8], [0, 1, 2, 3], [4, 5, 6, 7], [0, 1, 2, 3, 4]]

/-- C2 counterexample: for the concrete buffer with record lengths
`[3,3,3,4,4,5]` (uint8 counts, int32 data), the decoder returns blocks
tagged `triangle, quad, polygon5` with row counts `3, 2, 1` — which
refutes the claimed row counts `3, 1, 2`. -/
theorem C2_counterexample :
    ((read_binary_list (encodeRows .little 1 4 c2rows) .u8 .i32 6 .little).2.map
        (fun b => (b.tag, b.rows.length))
      = [("triangle", 3), ("quad", 2), ("polygon5", 1)])
    ∧ ¬((read_binary_list (encodeRows .little 1 4 c2rows) .u8 .i32 6 .little).2.map
        (fun b => (b.tag, b.rows.length))
      = [("triangle", 3), ("quad", 1), ("polygon5", 2)]) := by
  constructor
  · decide
  · decide

/-- Witness instantiating `C2_ragged_decode` at the concrete
`[3,3,3,4,4,5]` buffer. -/
theorem C2_witness :
    (∀ r ∈ c2rows, r.length < 256 ^ NpDtype.u8.itemsize)
    ∧ (∀ r ∈ c2rows, ∀ v ∈ r, v < 256 ^ NpDtype.i32.itemsize)
    ∧ read_binary_list
        (encodeRows .little NpDtype.u8.itemsize NpDtype.i32.itemsize c2rows ++ [])
        .u8 .i32 c2rows.length .little
      = ((encodeRows .little NpDtype.u8.itemsize NpDtype.i32.itemsize c2rows).length,
         (groupRuns c2rows).map
           (fun run => ⟨cell_type_from_count (runWidth run), .i32, runWidth run, run⟩)) :=
  ⟨by decide, by decide,
    C2_ragged_decode .little .u8 .i32 c2rows [] (by decide) (by decide)⟩

/-! ## `_ply.py`: the `_read_ascii` face-collection loop (claim C10)

In `_read_ascii` the faces are read line by line into
`polygons = collections.defaultdict(list)` via `polygons[n].append(row)`,
where `n` is the row's leading vertex count (equal to the row's length for
a well-formed line), and afterwards
`cells = [CellBlock(cell_type_from_count(n), np.array(data)) for (n, data)
in polygons.items()]` — one block per *distinct* count, in first-occurrence
order, unlike the per-run blocks of `_read_binary_list`. -/

/-- `defaultdict(list)`: append `row` to the entry of `k`, creating the
entry at the end on first use (CPython dict insertion order). -/
def dictAppend (m : List (Nat × List (List Nat))) (k : Nat) (row : List Nat) :
    List (Nat × List (List Nat)) :=
  match m with
  | [] => [(k, [row])]
  | (k', v) :: t => if k' = k then (k', v ++ [row]) :: t else (k', v) :: dictAppend t k row

def asciiFold (m : List (Nat × List (List Nat))) (rows : List (List Nat)) :
    List (Nat × List (List Nat)) :=
  rows.foldl (fun m row => dictAppend m row.length row) m

/-- The `polygons` dict built by the face loop of `_read_ascii` (for a face
element whose only property is the `vertex_indices` list). -/
def read_ascii_polygons (faceRows : List (List Nat)) : List (Nat × List (List Nat)) :=
  asciiFold [] faceRows

/-- The `cells` list built from `polygons.items()`. -/
def read_ascii_cells (ddt : NpDtype) (faceRows : List (List Nat)) : List PCellBlock :=
  (read_ascii_polygons faceRows).map (fun p => ⟨cell_type_from_count p.1, ddt, p.1, p.2⟩)

/-- The distinct values of a list, in first-occurrence order. -/
def firstOccurs : List Nat → List Nat
  | [] => []
  | k :: t => k :: (firstOccurs t).filter (· ≠ k)

theorem firstOccurs_mem (k : Nat) : ∀ L : List Nat, k ∈ firstOccurs L ↔ k ∈ L := by
  intro L
  induction L with
  | nil => simp [firstOccurs]
  | cons x t ih =>
    simp only [firstOccurs, List.mem_cons, List.mem_filter]
    constructor
    · rintro (rfl | ⟨h, _⟩)
      · exact Or.inl rfl
      · exact Or.inr (ih.mp h)
    · rintro (rfl | h)
      · exact Or.inl rfl
      · by_cases hx : k = x
        · exact Or.inl hx
        · exact Or.inr ⟨ih.mpr h, by simpa using hx⟩

theorem firstOccurs_nodup : ∀ L : List Nat, (firstOccurs L).Nodup := by
  intro L
  induction L with
  | nil => simp [firstOccurs]
  | cons x t ih =>
    simp only [firstOccurs]
    apply List.Nodup.cons
    · intro hx
      have := (List.mem_filter.mp hx).2
      simp at this
    · exact List.Nodup.filter _ ih

theorem firstOccurs_append_singleton (k : Nat) : ∀ L : List Nat,
    firstOccurs (L ++ [k])
      = if k ∈ L then firstOccurs L else firstOccurs L ++ [k] := by
  intro L
  induction L with
  | nil => simp [firstOccurs]
  | cons x t ih =>
    show x :: (firstOccurs (t ++ [k])).filter (· ≠ x) = _
    by_cases hk : k ∈ t
    · rw [ih, if_pos hk, if_pos (by simp [hk])]
      rfl
    · rw [ih, if_neg hk]
      by_cases hx : k = x
      · rw [if_pos (by simp [hx])]
        cases hx
        show k :: ((firstOccurs t ++ [k]).filter (· ≠ k)) = firstOccurs (k :: t)
        rw [List.filter_append]
        have h1 : [k].filter (fun b => decide (b ≠ k)) = [] := by simp
        rw [h1, List.append_nil]
        rfl
      · have hmem : ¬ k ∈ x :: t := by
          simp only [List.mem_cons]
          rintro (h | h)
          · exact hx h
          · exact hk h
        rw [if_neg hmem]
        show x :: ((firstOccurs t ++ [k]).filter (· ≠ x))
          = (x :: (firstOccurs t).filter (· ≠ x)) ++ [k]
        rw [List.filter_append]
        have h2 : [k].filter (fun b => decide (b ≠ x)) = [k] := by simp [hx]
        rw [h2]
        rfl

theorem dictAppend_map_not_mem (g : Nat → List (List Nat)) (k : Nat) (row : List Nat) :
    ∀ M : List Nat, k ∉ M →
    dictAppend (M.map (fun n => (n, g n))) k row
      = M.map (fun n => (n, g n)) ++ [(k, [row])] := by
  intro M
  induction M with
  | nil => intro _; rfl
  | cons x t ih =>
    intro hk
    have hx : x ≠ k := fun h => hk (by simp [h])
    show (if x = k then _ else (x, g x) :: dictAppend (t.map _) k row) = _
    rw [if_neg hx, ih (fun h => hk (by simp [h]))]
    rfl

theorem dictAppend_map_mem (g : Nat → List (List Nat)) (k : Nat) (row : List Nat) :
    ∀ M : List Nat, k ∈ M → M.Nodup →
    dictAppend (M.map (fun n => (n, g n))) k row
      = M.map (fun n => (n, if n = k then g n ++ [row] else g n)) := by
  intro M
  induction M with
  | nil => intro h; simp at h
  | cons x t ih =>
    intro hk hnd
    by_cases hx : x = k
    · subst hx
      show (if x = x then (x, g x ++ [row]) :: t.map _ else _) = _
      rw [if_pos rfl]
      simp only [List.map_cons, if_pos rfl]
      congr 1
      apply List.map_congr_left
      intro n hn
      have : n ≠ x := fun h => (List.nodup_cons.mp hnd).1 (h ▸ hn)
      rw [if_neg this]
    · have hkt : k ∈ t := by
        rcases List.mem_cons.mp hk with h | h
        · exact absurd h.symm hx
        · exact h
      show (if x = k then _ else (x, g x) :: dictAppend (t.map _) k row) = _
      rw [if_neg hx, ih hkt (List.nodup_cons.mp hnd).2]
      simp only [List.map_cons, if_neg hx]

theorem read_ascii_polygons_eq (rows : List (List Nat)) :
    read_ascii_polygons rows
      = (firstOccurs (rows.map List.length)).map
          (fun n => (n, rows.filter (fun r => r.length = n))) := by
  induction rows using List.reverseRecOn with
  | nil => rfl
  | append_singleton rows row ih =>
    have hstep : read_ascii_polygons (rows ++ [row])
        = dictAppend (read_ascii_polygons rows) row.length row := by
      unfold read_ascii_polygons asciiFold
      rw [List.foldl_append]
      rfl
    rw [hstep, ih]
    have hm : (rows ++ [row]).map List.length = rows.map List.length ++ [row.length] := by
      simp
    rw [hm, firstOccurs_append_singleton]
    by_cases hk : row.length ∈ rows.map List.length
    · rw [if_pos hk]
      rw [dictAppend_map_mem _ _ _ _ ((firstOccurs_mem _ _).mpr hk)
        (firstOccurs_nodup _)]
      apply List.map_congr_left
      intro n _
      have hfil : (rows ++ [row]).filter (fun r => r.length = n)
          = rows.filter (fun r => r.length = n)
            ++ (if row.length = n then [row] else []) := by
        rw [List.filter_append]
        congr 1
        by_cases h : row.length = n <;> simp [h]
      rw [hfil]
      by_cases h : n = row.length
      · subst h; simp
      · rw [if_neg h, if_neg (fun hh => h hh.symm), List.append_nil]
    · rw [if_neg hk]
      rw [dictAppend_map_not_mem _ _ _ _ ((fun h => hk ((firstOccurs_mem _ _).mp h)))]
      rw [List.map_append]
      congr 1
      · apply List.map_congr_left
        intro n hn
        have hne : n ≠ row.length := by
          intro h
          exact hk (h ▸ (firstOccurs_mem _ _).mp hn)
        rw [List.filter_append]
        have hrn : ¬ row.length = n := fun h => hne h.symm
        have : [row].filter (fun r => r.length = n) = [] := by simp [hrn]
        rw [this, List.append_nil]
      · show [(row.length, [row])] = [(row.length, (rows ++ [row]).filter _)]
        have h1 : rows.filter (fun r => r.length = row.length) = [] := by
          rw [List.filter_eq_nil_iff]
          intro r hr
          simp only [decide_eq_true_eq]
          intro h
          exact hk (h ▸ List.mem_map_of_mem List.length hr)
        rw [List.filter_append, h1]
        simp

def c10rows : List (List Nat) := [[0, 1, 2], [0, 1, 2, 3], [3, 4, 5]]

/-- C10: the ASCII face loop collects all rows of equal vertex count into a
single block keyed by that count, blocks ordered by first occurrence of
each count; for the interleaved arities `[3,4,3]` this yields two blocks
(`triangle` with both length-3 rows, then `quad`), while the binary ragged
decoder yields three per-run blocks for the same row sequence. -/
theorem C10_ascii_groups_by_count :
    (∀ (ddt : NpDtype) (faceRows : List (List Nat)),
      read_ascii_cells ddt faceRows
        = (firstOccurs (faceRows.map List.length)).map
            (fun n => ⟨cell_type_from_count n, ddt, n,
              faceRows.filter (fun r => r.length = n)⟩))
    ∧ read_ascii_cells .i32 c10rows
        = [⟨"triangle", .i32, 3, [[0, 1, 2], [3, 4, 5]]⟩,
           ⟨"quad", .i32, 4, [[0, 1, 2, 3]]⟩]
    ∧ (read_binary_list (encodeRows .little 1 4 c10rows) .u8 .i32 3 .little).2
        = [⟨"triangle", .i32, 3, [[0, 1, 2]]⟩,
           ⟨"quad", .i32, 4, [[0, 1, 2, 3]]⟩,
           ⟨"triangle", .i32, 3, [[3, 4, 5]]⟩] := by
  refine ⟨?_, by decide, by decide⟩
  intro ddt faceRows
  unfold read_ascii_cells
  rw [read_ascii_polygons_eq, List.map_map]
  rfl

deriving instance DecidableEq for Except

/-! ## `_helpers.py`: errors, registry tables, and validation -/

/-- Failures of a read: `ReadError`s raised by the facade or the PLY
reader, `KeyError`/`AttributeError` crashes inside numpy/regex plumbing,
and the non-termination of `_next_line` at end of file. -/
inductive RErr
  | expectedPly
  | badFormatLine
  | badHeaderLine
  | propertyNoMatch
  | keyError
  | nonterm
  | formatRequired
  | bufferTetgen
  | notFound
  | unknownFormat
  deriving DecidableEq, Repr

/-- Failures of a write raised by `_helpers.write` or the PLY writer. -/
inductive WErr
  | shapeMismatch
  | valueErrorMalformedKey
  | unknownFormat
  | formatRequired
  | bufferTetgen
  | mixedCellDtypes
  | indexError
  deriving DecidableEq, Repr

def digitsFoldChars (ds : List Char) : Nat :=
  ds.foldl (fun a c => 10 * a + (c.toNat - 48)) 0

/-- Python `int(s)` on a string: optional surrounding whitespace, optional
sign, one or more decimal digits (numeric underscore separators are not
modelled; no tag in play contains one).  `none` where Python raises
`ValueError`. -/
def pyInt (s : String) : Option Int :=
  let l := s.data.dropWhile Char.isWhitespace
  let l2 := (l.reverse.dropWhile Char.isWhitespace).reverse
  match l2 with
  | '+' :: ds =>
    if ds ≠ [] ∧ ds.all Char.isDigit then some (digitsFoldChars ds : Int) else none
  | '-' :: ds =>
    if ds ≠ [] ∧ ds.all Char.isDigit then some (-(digitsFoldChars ds : Int)) else none
  | ds =>
    if ds ≠ [] ∧ ds.all Char.isDigit then some (digitsFoldChars ds : Int) else none

/-- Modelled from the spec: `num_nodes_per_cell` lives in
`src/meshio/_common.py`, which is not among the source files under
verification.  The spec fixes the recognized fixed-arity vocabulary and
its vertex counts: vertex 1, line 2, triangle 3, quad 4 (§3 "a fixed
vocabulary {vertex, line, triangle, quad, polygonN for integer N, plus
custom}", §4.1 "row width must equal that tag's fixed vertex count"). -/
def num_nodes_per_cell : List (String × Nat) :=
  [("vertex", 1), ("line", 2), ("triangle", 3), ("quad", 4)]

/-- The "check cells for sanity" test of `_helpers.write`, for one block
with tag `key` and row width `value.shape[1]`. -/
def check_cell_block (key : String) (width : Nat) : Except WErr Unit :=
  if key.data.take 7 = "polygon".data then
    match pyInt (String.mk (key.data.drop 7)) with
    | none => .error .valueErrorMalformedKey
    | some n => if (width : Int) ≠ n then .error .shapeMismatch else .ok ()
  else
    match num_nodes_per_cell.lookup key with
    | some c => if width ≠ c then .error .shapeMismatch else .ok ()
    | none => .ok ()

/-- The loop over `mesh.cells` in `_helpers.write` (first failure wins). -/
def check_cells : List (String × Nat) → Except WErr Unit
  | [] => .ok ()
  | (key, width) :: t =>
    match check_cell_block key width with
    | .ok () => check_cells t
    | .error e => .error e

/-- C3: the generic write entry point validates each block: a
`polygon`-prefixed tag with a parseable integer `N` passes iff the row
width equals `N` and otherwise fails with the shape-mismatch `WriteError`;
a malformed `polygon...` tag fails with `ValueError`; a tag in the
known-shape table passes iff the width equals the table's vertex count and
otherwise fails with shape mismatch; any other tag passes unchecked.  The
whole mesh passes iff every block does, and the spec's concrete instances
hold (`quad`/width 5 fails, `polygon5`/width 5 passes, a custom tag
passes). -/
theorem C3_write_shape_validation :
    (∀ (key : String) (width : Nat) (n : Int), key.data.take 7 = "polygon".data →
      pyInt (String.mk (key.data.drop 7)) = some n →
      check_cell_block key width
        = (if (width : Int) = n then .ok () else .error .shapeMismatch))
    ∧ (∀ (key : String) (width : Nat), key.data.take 7 = "polygon".data →
        pyInt (String.mk (key.data.drop 7)) = none →
        check_cell_block key width = .error .valueErrorMalformedKey)
    ∧ (∀ (key : String) (width c : Nat), key.data.take 7 ≠ "polygon".data →
        num_nodes_per_cell.lookup key = some c →
        check_cell_block key width
          = (if width = c then .ok () else .error .shapeMismatch))
    ∧ (∀ (key : String) (width : Nat), key.data.take 7 ≠ "polygon".data →
        num_nodes_per_cell.lookup key = none →
        check_cell_block key width = .ok ())
    ∧ check_cell_block "quad" 5 = .error .shapeMismatch
    ∧ check_cell_block "polygon5" 5 = .ok ()
    ∧ check_cell_block "customXYZ" 11 = .ok ()
    ∧ (∀ cells : List (String × Nat),
        check_cells cells = .ok () ↔ ∀ p ∈ cells, check_cell_block p.1 p.2 = .ok ()) := by
  refine ⟨?_, ?_, ?_, ?_, by rfl, by rfl, by rfl, ?_⟩
  · intro key width n h7 hint
    unfold check_cell_block
    rw [if_pos h7, hint]
    show (if (width : Int) ≠ n then Except.error WErr.shapeMismatch else Except.ok ())
      = (if (width : Int) = n then Except.ok () else Except.error WErr.shapeMismatch)
    by_cases h : (width : Int) = n
    · rw [if_neg (not_not_intro h), if_pos h]
    · rw [if_pos h, if_neg h]
  · intro key width h7 hint
    unfold check_cell_block
    rw [if_pos h7, hint]
  · intro key width c h7 hc
    unfold check_cell_block
    rw [if_neg h7, hc]
    show (if width ≠ c then Except.error WErr.shapeMismatch else Except.ok ())
      = (if width = c then Except.ok () else Except.error WErr.shapeMismatch)
    by_cases h : width = c
    · rw [if_neg (not_not_intro h), if_pos h]
    · rw [if_pos h, if_neg h]
  · intro key width h7 hc
    unfold check_cell_block
    rw [if_neg h7, hc]
  · intro cells
    induction cells with
    | nil => simp [check_cells]
    | cons p t ih =>
      obtain ⟨key, width⟩ := p
      constructor
      · intro h
        cases hcb : check_cell_block key width with
        | ok u =>
          intro q hq
          rcases List.mem_cons.mp hq with rfl | hq
          · cases u; exact hcb
          · have ht : check_cells t = .ok () := by
              unfold check_cells at h
              rw [hcb] at h
              exact h
            exact (ih.mp ht) q hq
        | error e =>
          exfalso
          unfold check_cells at h
          rw [hcb] at h
          cases h
      · intro h
        have h1 := h (key, width) (by simp)
        unfold check_cells
        rw [h1]
        exact ih.mpr (fun q hq => h q (by simp [hq]))

/-- Witness instantiating the polygon branch of C3 at `polygon12`. -/
theorem C3_witness :
    "polygon12".data.take 7 = "polygon".data
    ∧ pyInt (String.mk ("polygon12".data.drop 7)) = some 12
    ∧ check_cell_block "polygon12" 12
        = (if ((12 : Nat) : Int) = (12 : Int) then .ok () else .error .shapeMismatch) :=
  ⟨by decide, by decide,
    C3_write_shape_validation.1 "polygon12" 12 12 (by decide) (by decide)⟩

/-! ## `_helpers.py`: `register` and `_filetype_from_path` (claim C6) -/

/-- The effect of `register(name, extensions, ...)` on
`extension_to_filetype`. -/
def registerExtensions (table : List (String × String)) (name : String)
    (extensions : List String) : List (String × String) :=
  extensions.foldl (fun t ext => dictInsert t ext name) table

/-- The process-wide `extension_to_filetype` after module load: the only
codec among the sources, `_ply.py`, runs `register("ply", [".ply"], read,
{"ply": write})`. -/
def extension_to_filetype : List (String × String) :=
  registerExtensions [] "ply" [".ply"]

/-- Python `str.lower()` (the file extensions in play are ASCII). -/
def lowerStr (s : String) : String := String.mk (s.data.map Char.toLower)

/-- `str.split(sep)` for a one-character separator. -/
def splitOnDot : List Char → List (List Char)
  | [] => [[]]
  | c :: t =>
    let r := splitOnDot t
    if c = '.' then [] :: r
    else
      match r with
      | [] => [[c]]
      | h :: t2 => (c :: h) :: t2

/-- `pathlib.Path(name).suffixes` for an ordinary file name (no leading or
trailing dot): each `.`-separated part after the stem, with its dot. -/
def pathSuffixes (name : String) : List String :=
  match splitOnDot name.data with
  | [] => []
  | _ :: parts => parts.map (fun p => "." ++ String.mk p)

/-- The loop of `_filetype_from_path`: `ext` accumulates
`(suffix + ext).lower()` over `reversed(suffixes)`, and `out` keeps the
latest (hence longest) registered match. -/
def resolveLoop (table : List (String × String)) :
    List String → String → Option String → Option String
  | [], _, out => out
  | s :: rest, ext, out =>
    let ext2 := lowerStr (s ++ ext)
    resolveLoop table rest ext2
      (match table.lookup ext2 with
       | some v => some v
       | none => out)

/-- `_filetype_from_path` (raises `ReadError` when no suffix matched). -/
def filetype_from_path (table : List (String × String)) (suffixes : List String) :
    Except RErr String :=
  match resolveLoop table suffixes.reverse "" none with
  | some out => .ok out
  | none => .error .unknownFormat

/-- The accumulated (lower-cased) extensions the loop examines, in
examination order — each extending the previous to the left, so later
candidates are the longer, more specific ones. -/
def candsFrom : List String → String → List String
  | [], _ => []
  | s :: rest, ext => lowerStr (s ++ ext) :: candsFrom rest (lowerStr (s ++ ext))

theorem resolveLoop_spec (table : List (String × String)) :
    ∀ (l : List String) (ext : String) (out : Option String),
    resolveLoop table l ext out
      = match ((candsFrom l ext).filterMap (fun c => table.lookup c)).getLast? with
        | some v => some v
        | none => out := by
  intro l
  induction l with
  | nil => intro ext out; rfl
  | cons s rest ih =>
    intro ext out
    show resolveLoop table rest (lowerStr (s ++ ext)) _ = _
    rw [ih]
    rw [show candsFrom (s :: rest) ext
      = lowerStr (s ++ ext) :: candsFrom rest (lowerStr (s ++ ext)) from rfl]
    cases hl : table.lookup (lowerStr (s ++ ext)) with
    | none =>
      simp only [List.filterMap_cons, hl]
    | some v0 =>
      simp only [List.filterMap_cons, hl]
      cases hfm : (candsFrom rest (lowerStr (s ++ ext))).filterMap
          (fun c => table.lookup c) with
      | nil => rfl
      | cons w t =>
        rw [List.getLast?_cons_cons]
        cases ht : (w :: t).getLast? with
        | none => exact absurd ht (by simp)
        | some u => rfl

/-- C6: format resolution walks the suffix chain from the rightmost suffix
inward, accumulating (lower-cased) multi-part extensions, and returns the
registered match of the last — longest, most specific — accumulated
extension that is registered, failing with the format-unknown error when
none is; `mesh.ply` (case-insensitively) resolves to `"ply"` and
`mesh.unknown` fails. -/
theorem C6_format_resolution :
    (∀ (table : List (String × String)) (suffixes : List String),
      filetype_from_path table suffixes
        = match ((candsFrom suffixes.reverse "").filterMap
              (fun c => table.lookup c)).getLast? with
          | some v => .ok v
          | none => .error .unknownFormat)
    ∧ filetype_from_path extension_to_filetype (pathSuffixes "mesh.ply") = .ok "ply"
    ∧ filetype_from_path extension_to_filetype (pathSuffixes "MESH.PLY") = .ok "ply"
    ∧ filetype_from_path extension_to_filetype (pathSuffixes "mesh.unknown")
        = .error .unknownFormat := by
  refine ⟨?_, by rfl, by rfl, by rfl⟩
  intro table suffixes
  unfold filetype_from_path
  rw [resolveLoop_spec]
  cases ((candsFrom suffixes.reverse "").filterMap (fun c => table.lookup c)).getLast? with
  | none => rfl
  | some v => rfl

/-! ## `_ply.py`: the writer

The writer is embedded as a function from the mesh (plus the host byte
order, standing for `sys.byteorder`, and a float-formatting function
`ffmt`, standing for Python's decimal rendering of IEEE floats in the
ASCII body — the claims never depend on it) to the produced file bytes,
the final state of `mesh.cells` (the writer narrows 64-bit blocks in
place), and the warnings raised, or a fatal `WriteError`. -/

/-- Bytes of an ASCII string literal. -/
def strBytes (s : String) : List Nat := s.data.map Char.toNat

/-- One header line: text plus the newline terminator. -/
def lineBytes (l : List Nat) : List Nat := l ++ [10]

inductive Warning
  | multidimPointData (key : String)
  | castDown
  | skippedCellType
  deriving DecidableEq, Repr

/-- A 1-D (or, for the skipped multidimensional case, higher-D) numpy
array: dtype, shape, flat bit patterns. -/
structure NpArr where
  dtype : NpDtype
  shape : List Nat
  data : List Nat
  deriving DecidableEq, Repr

/-- The canonical in-memory mesh, as far as the PLY codec observes it.
(`cell_data`, `field_data` and the sets are not touched by this codec's
writer and are omitted.) -/
structure PMesh where
  pointsDtype : NpDtype
  pointsDim : Nat
  points : List (List Nat)
  point_data : List (String × NpArr)
  cells : List PCellBlock
  deriving DecidableEq, Repr

def boName : ByteOrder → String
  | .little => "little"
  | .big => "big"

/-- The `comment Created by meshio v..., <timestamp>` line; its text is
irrelevant (readers skip every `comment` line), so the version/timestamp
are elided. -/
def plyCommentLine : String := "comment Created by meshio"

/-- `type_name_table` of the writer (total on the ten dtypes). -/
def type_name_table : List (NpDtype × String) :=
  [(.i8, "int8"), (.i16, "int16"), (.i32, "int32"), (.i64, "int64"),
   (.u8, "uint8"), (.u16, "uint16"), (.u32, "uint32"), (.u64, "uint64"),
   (.f32, "float"), (.f64, "double")]

def typeName (d : NpDtype) : String := (type_name_table.lookup d).getD ""

def plyTypeName (d : NpDtype) : String := (numpy_to_ply_dtype.lookup d).getD ""

def dimName : Nat → String
  | 0 => "x" | 1 => "y" | 2 => "z" | _ => ""

/-- The point-data loop: property lines for the 1-D arrays, the kept
arrays (`pd`), and a warning per skipped multidimensional array. -/
def writePointDataLoop : List (String × NpArr) →
    (List (List Nat) × List NpArr × List Warning)
  | [] => ([], [], [])
  | (key, arr) :: t =>
    let r := writePointDataLoop t
    if arr.shape.length > 1 then
      (r.1, r.2.1, .multidimPointData key :: r.2.2)
    else
      (strBytes ("property " ++ typeName arr.dtype ++ " " ++ key) :: r.1,
       arr :: r.2.1, r.2.2)

/-- `num_cells`: total rows of the blocks whose tag has a *truthy* count
(`if cell_type_to_count(cell_type):` — `None` and `0` are both falsy, so a
`polygon0` block is not counted). -/
def writeNumCells (cells : List PCellBlock) : Nat :=
  cells.foldl (fun acc b =>
    match cell_type_to_count b.tag with
    | some (_ + 1) => acc + b.rows.length
    | _ => acc) 0

/-- `astype(np.int32)` narrowing of an `int64` block (pattern truncation,
as two's-complement wrap-around). -/
def narrowBlock (b : PCellBlock) : PCellBlock :=
  if b.dtype = .i64 then
    ⟨b.tag, .i32, b.width, b.rows.map (fun r => r.map (· % 2 ^ 32))⟩
  else b

/-- The `cell_dtype` uniformity loop: first dtype wins, any later
different dtype raises `WriteError`. -/
def findCellDtype : List PCellBlock → Option NpDtype → Except WErr (Option NpDtype)
  | [], acc => .ok acc
  | b :: t, acc =>
    match acc with
    | none => findCellDtype t (some b.dtype)
    | some d => if b.dtype ≠ d then .error .mixedCellDtypes else findCellDtype t (some d)

/-- One point record of the binary body
(`np.rec.fromarrays([*points.T, *pd]).tobytes()`, row `i`). -/
def pointRecordBytes (bo : ByteOrder) (pdt : NpDtype) (row : List Nat)
    (pdArrs : List NpArr) (i : Nat) : List Nat :=
  (row.map (encUnsigned bo pdt.itemsize)).flatten
    ++ (pdArrs.map (fun a => encUnsigned bo a.dtype.itemsize (a.data.getD i 0))).flatten

def binaryPointsBytes (bo : ByteOrder) (pdt : NpDtype) (points : List (List Nat))
    (pdArrs : List NpArr) : List Nat :=
  ((List.range points.length).map (fun i =>
    pointRecordBytes bo pdt (points.getD i []) pdArrs i)).flatten

/-- The binary cells loop: a block whose tag has *no* count
(`cell_type_to_count(cell_type) is None`) is skipped with a warning; a
recognized block is emitted as count-prefixed records
(`np.uint8(data.shape[1])`, hence the width modulo 256). -/
def binaryCellsBytes (bo : ByteOrder) : List PCellBlock → (List Nat × List Warning)
  | [] => ([], [])
  | b :: t =>
    let r := binaryCellsBytes bo t
    match cell_type_to_count b.tag with
    | none => (r.1, .skippedCellType :: r.2)
    | some _ =>
      ((b.rows.map (fun row =>
          encUnsigned bo 1 b.width
            ++ (row.map (encUnsigned bo b.dtype.itemsize)).flatten)).flatten
        ++ r.1, r.2)

/-- `str.join` (for a nonempty separator as used here). -/
def joinSep (sep : String) : List String → String
  | [] => ""
  | [x] => x
  | x :: t => x ++ sep ++ joinSep sep t

/-- `"{}".format` of one numpy scalar (dtype + bit pattern): signed
integers print their two's-complement value, unsigned ones the pattern;
floats are delegated to `ffmt`. -/
def fmtScalar (ffmt : NpDtype → Nat → String) (d : NpDtype) (v : Nat) : String :=
  if d.isFloat then ffmt d v
  else if d.isSignedInt ∧ 2 ^ (8 * d.itemsize - 1) ≤ v then
    "-" ++ natToDecimal (2 ^ (8 * d.itemsize) - v)
  else natToDecimal v

def asciiPointsBytes (ffmt : NpDtype → Nat → String) (pdt : NpDtype)
    (points : List (List Nat)) (pdArrs : List NpArr) : List Nat :=
  strBytes (joinSep "\x0a" ((List.range points.length).map (fun i =>
    joinSep " " (((points.getD i []).map (fmtScalar ffmt pdt))
      ++ pdArrs.map (fun a => fmtScalar ffmt a.dtype (a.data.getD i 0))))) ++ "\x0a")

/-- The ASCII cells loop: *every* block is emitted (the tag check is
commented out in the source), with the leading count column carrying the
block's data dtype (`np.full(..., dtype=data.dtype)`), and no warning. -/
def asciiCellsBytes (ffmt : NpDtype → Nat → String) : List PCellBlock → List Nat
  | [] => []
  | b :: t =>
    strBytes (joinSep "\x0a" (b.rows.map (fun row =>
      joinSep " " (fmtScalar ffmt b.dtype (b.width % 2 ^ (8 * b.dtype.itemsize))
        :: row.map (fmtScalar ffmt b.dtype)))) ++ "\x0a")
      ++ asciiCellsBytes ffmt t

/-- `_ply.write(filename, mesh, binary)`. -/
def ply_write (bo : ByteOrder) (ffmt : NpDtype → Nat → String) (mesh : PMesh)
    (binary : Bool) : Except WErr (List Nat × List PCellBlock × List Warning) :=
  if mesh.pointsDim > 3 then .error .indexError
  else
    let l0 := strBytes "ply"
    let l1 := if binary then strBytes ("format binary_" ++ boName bo ++ "_endian 1.0")
      else strBytes "format ascii 1.0"
    let l2 := strBytes plyCommentLine
    let l3 := strBytes "element vertex " ++ decimalBytes mesh.points.length
    let dimLines := (List.range mesh.pointsDim).map (fun k =>
      strBytes ("property " ++ typeName mesh.pointsDtype ++ " " ++ dimName k))
    let pdRes := writePointDataLoop mesh.point_data
    let nc := writeNumCells mesh.cells
    if nc > 0 then
      let cells2 := mesh.cells.map narrowBlock
      let castWarns : List Warning :=
        if mesh.cells.any (fun b => b.dtype = .i64) then [.castDown] else []
      match findCellDtype cells2 none with
      | .error e => .error e
      | .ok cellDtype? =>
        let faceLines := (strBytes "element face " ++ decimalBytes nc)
          :: (match cellDtype? with
              | some d => [strBytes ("property list uint8 " ++ plyTypeName d
                  ++ " vertex_indices")]
              | none => [])
        let headerLines := l0 :: l1 :: l2 :: l3 :: dimLines ++ pdRes.1
          ++ faceLines ++ [strBytes "end_header"]
        let bodyRes : List Nat × List Warning :=
          if binary then
            let cb := binaryCellsBytes bo cells2
            (binaryPointsBytes bo mesh.pointsDtype mesh.points pdRes.2.1 ++ cb.1, cb.2)
          else
            (asciiPointsBytes ffmt mesh.pointsDtype mesh.points pdRes.2.1
              ++ asciiCellsBytes ffmt cells2, [])
        .ok ((headerLines.map lineBytes).flatten ++ bodyRes.1, cells2,
          pdRes.2.2 ++ castWarns ++ bodyRes.2)
    else
      let headerLines := l0 :: l1 :: l2 :: l3 :: dimLines ++ pdRes.1
        ++ [strBytes "end_header"]
      let bodyRes : List Nat × List Warning :=
        if binary then
          let cb := binaryCellsBytes bo mesh.cells
          (binaryPointsBytes bo mesh.pointsDtype mesh.points pdRes.2.1 ++ cb.1, cb.2)
        else
          (asciiPointsBytes ffmt mesh.pointsDtype mesh.points pdRes.2.1
            ++ asciiCellsBytes ffmt mesh.cells, [])
      .ok ((headerLines.map lineBytes).flatten ++ bodyRes.1, mesh.cells,
        pdRes.2.2 ++ bodyRes.2)

/-! ## `_ply.py`: `read_buffer` and `_read_binary`

The reader works on the raw file bytes.  Lines are compared at the byte
level (the files in play are ASCII, where `decode("utf-8")` is the
identity on code points).  The ASCII body branch (`_read_ascii`, whose
face-grouping core is embedded above for C10) enters through a reader
parameter; no claim depends on it. -/

def isSpaceByte (b : Nat) : Bool :=
  b = 32 || b = 9 || b = 10 || b = 13 || b = 11 || b = 12

/-- `.strip()` on a decoded line. -/
def stripBytes (l : List Nat) : List Nat :=
  ((l.dropWhile isSpaceByte).reverse.dropWhile isSpaceByte).reverse

/-- `f.readline().decode("utf-8").strip()` plus the remaining stream. -/
def readLine (f : List Nat) : List Nat × List Nat :=
  (stripBytes (f.takeWhile (· ≠ 10)), (f.dropWhile (· ≠ 10)).drop 1)

/-- `_next_line`: skip blank and `comment` lines; `none` models the
infinite loop this code enters at end of file. -/
def nextLine : Nat → List Nat → Option (List Nat × List Nat)
  | 0, _ => none
  | fuel + 1, f =>
    if f.isEmpty then none
    else
      let p := readLine f
      if p.1 ≠ [] ∧ ¬(p.1.take 7 = strBytes "comment") then some p
      else nextLine fuel p.2

/-- `re.match` of a literal prefix followed by `(\d+)` (anchored at the
start; trailing text is ignored, as with `re.match`). -/
def matchElementCount (pre : String) (line : List Nat) : Option Nat :=
  if line.take (strBytes pre).length = strBytes pre then
    let ds := (line.drop (strBytes pre).length).takeWhile (fun b => 48 ≤ b && b ≤ 57)
    if ds = [] then none
    else some (ds.foldl (fun a b => 10 * a + (b - 48)) 0)
  else none

/-- The groups of greedy `(.+) (.+)` applied to `l`: split at the last
space.  (A line ending in a space would make the regex backtrack further;
stripped lines never do.) -/
def splitLastSpace (l : List Nat) : Option (List Nat × List Nat) :=
  let rev := l.reverse
  let b := rev.takeWhile (· ≠ 32)
  match rev.dropWhile (· ≠ 32) with
  | [] => none
  | _ :: restTail =>
    if b = [] ∨ restTail = [] then none else some (restTail.reverse, b.reverse)

/-- `re.match("property (.+) (.+)", line).groups()` (`none` models the
`AttributeError` on a failed match). -/
def matchProperty2 (line : List Nat) : Option (List Nat × List Nat) :=
  if line.take 9 = strBytes "property " then splitLastSpace (line.drop 9)
  else none

/-- `re.match("property list (.+) (.+) (.+)", line).groups()`. -/
def matchPropertyList3 (line : List Nat) : Option (List Nat × List Nat × List Nat) :=
  if line.take 14 = strBytes "property list " then
    match splitLastSpace (line.drop 14) with
    | none => none
    | some (g12, g3) =>
      match splitLastSpace g12 with
      | none => none
      | some (g1, g2) => some (g1, g2, g3)
  else none

/-- A face property declaration: a plain `property <type> <name>` or a
`property list <count-type> <data-type> <name>`. -/
inductive PropDtype
  | scalar (fmt : List Nat)
  | list (count : List Nat) (dat : List Nat)
  deriving DecidableEq, Repr

/-- The header fields accumulated by `read_buffer`'s loop. -/
structure HeaderAcc where
  numVerts : Nat
  numCells : Nat
  pointNames : List (List Nat)
  pointFormats : List (List Nat)
  cellNames : List (List Nat)
  cellDtypes : List PropDtype
  deriving DecidableEq, Repr

/-- The `while line[:8] == "property"` loop of the `element vertex`
branch. -/
def vertPropLoop : Nat → List Nat → List (List Nat) → List (List Nat) →
    Except RErr (List (List Nat) × List (List Nat) × List Nat × List Nat)
  | 0, _, _, _ => .error .nonterm
  | fuel + 1, f, fmts, names =>
    match nextLine (f.length + 1) f with
    | none => .error .nonterm
    | some (line, rest) =>
      if line.take 8 = strBytes "property" then
        match matchProperty2 line with
        | none => .error .propertyNoMatch
        | some (fmt, name) => vertPropLoop fuel rest (fmts ++ [fmt]) (names ++ [name])
      else .ok (fmts, names, line, rest)

/-- The property loop of the `element face` branch. -/
def facePropLoop : Nat → List Nat → List (List Nat) → List PropDtype →
    Except RErr (List (List Nat) × List PropDtype × List Nat × List Nat)
  | 0, _, _, _ => .error .nonterm
  | fuel + 1, f, names, dtypes =>
    match nextLine (f.length + 1) f with
    | none => .error .nonterm
    | some (line, rest) =>
      if line.take 8 = strBytes "property" then
        if line.take 13 = strBytes "property list" then
          match matchPropertyList3 line with
          | none => .error .propertyNoMatch
          | some (cnt, dat, name) =>
            facePropLoop fuel rest (names ++ [name]) (dtypes ++ [.list cnt dat])
        else
          match matchProperty2 line with
          | none => .error .propertyNoMatch
          | some (fmt, name) =>
            facePropLoop fuel rest (names ++ [name]) (dtypes ++ [.scalar fmt])
      else .ok (names, dtypes, line, rest)

/-- The `while line != "end_header"` loop. -/
def headerLoop : Nat → List Nat → List Nat → HeaderAcc → Except RErr (HeaderAcc × List Nat)
  | 0, _, _, _ => .error .nonterm
  | fuel + 1, f, line, acc =>
    if line = strBytes "end_header" then .ok (acc, f)
    else if line.take 8 = strBytes "obj_info" then
      match nextLine (f.length + 1) f with
      | none => .error .nonterm
      | some (line2, rest) => headerLoop fuel rest line2 acc
    else
      match matchElementCount "element vertex " line with
      | some n =>
        match vertPropLoop (f.length + 1) f acc.pointFormats acc.pointNames with
        | .error e => .error e
        | .ok (fmts, names, line2, rest) =>
          headerLoop fuel rest line2
            { acc with numVerts := n, pointFormats := fmts, pointNames := names }
      | none =>
        match matchElementCount "element face " line with
        | some n =>
          match facePropLoop (f.length + 1) f acc.cellNames acc.cellDtypes with
          | .error e => .error e
          | .ok (names, dtypes, line2, rest) =>
            headerLoop fuel rest line2
              { acc with numCells := n, cellNames := names, cellDtypes := dtypes }
        | none => .error .badHeaderLine

/-- The local `ply_to_numpy_dtype_string` table of `_read_binary`: note
that the source maps `uchar` to `"i1"` (a *signed* byte) and omits
`char`, `short`, `ushort`, `int16` and `float64` entirely. -/
def ply_to_numpy_dtype_string : List (String × NpDtype) :=
  [("uchar", .i8), ("uint", .u32), ("uint8", .u8), ("uint16", .u16),
   ("uint32", .u32), ("uint64", .u64), ("int", .i32), ("int8", .i8),
   ("int32", .i32), ("int64", .i64), ("float", .f32), ("float32", .f32),
   ("double", .f64)]

def lookupDtypeString (name : List Nat) : Option NpDtype :=
  (ply_to_numpy_dtype_string.map (fun p => (strBytes p.1, p.2))).lookup name

def resolveDtypes : List (List Nat) → Except RErr (List NpDtype)
  | [] => .ok []
  | f :: t =>
    match lookupDtypeString f with
    | none => .error .keyError
    | some d =>
      match resolveDtypes t with
      | .error e => .error e
      | .ok r => .ok (d :: r)

/-- Split one fixed-stride point record into its named fields. -/
def splitFields : List (List Nat × NpDtype) → List Nat → List (List Nat × List Nat)
  | [], _ => []
  | (name, d) :: t, bytes =>
    (name, bytes.take d.itemsize) :: splitFields t (bytes.drop d.itemsize)

def fieldValue (bo : ByteOrder) (recF : List (List Nat × List Nat)) (name : List Nat) : Nat :=
  match recF.lookup name with
  | some bytes => decodeUnsigned bo bytes
  | none => 0

/-- ASCII decoding of a header name (point-attribute keys). -/
def decodeAscii (l : List Nat) : String := String.mk (l.map Char.ofNat)

/-- A decoded per-face entry: the ragged list's blocks, or the single
scalar the source reads for a non-list face property. -/
inductive CellEntry
  | blocks (bs : List PCellBlock)
  | scalar (v : Nat)
  deriving DecidableEq, Repr

/-- The loop over `(cell_data_names, dts)`: a list property consumes what
`_read_binary_list` reports, a scalar property consumes one item and
keeps only the first element (`np.frombuffer(...)[0]`, as in the
source). -/
def readCellLoop (bo : ByteOrder) (numCells : Nat) (buffer : List Nat) :
    List (List Nat × PropDtype) → Nat → Except RErr (List (List Nat × CellEntry))
  | [], _ => .ok []
  | (name, dt) :: t, pos =>
    match dt with
    | .list cntName datName =>
      match lookupDtypeString cntName, lookupDtypeString datName with
      | some cdt, some ddt =>
        let r := read_binary_list (buffer.drop pos) cdt ddt numCells bo
        match readCellLoop bo numCells buffer t (pos + r.1) with
        | .error e => .error e
        | .ok rest => .ok ((name, .blocks r.2) :: rest)
      | _, _ => .error .keyError
    | .scalar fmt =>
      match lookupDtypeString fmt with
      | none => .error .keyError
      | some d =>
        let v := decodeUnsigned bo ((buffer.drop pos).take d.itemsize)
        match readCellLoop bo numCells buffer t (pos + d.itemsize) with
        | .error e => .error e
        | .ok rest => .ok ((name, .scalar v) :: rest)

/-- `_read_binary`. -/
def read_binary (bo : ByteOrder) (pointNames pointFormats : List (List Nat))
    (numVerts numCells : Nat) (cellNames : List (List Nat))
    (cellDtypes : List PropDtype) (body : List Nat) : Except RErr PMesh :=
  match resolveDtypes pointFormats with
  | .error e => .error e
  | .ok pdts =>
    let itemsize := (pdts.map NpDtype.itemsize).sum
    let records := chunkList itemsize (body.take (numVerts * itemsize))
    let recordsF := records.map (splitFields (pointNames.zip pdts))
    if ¬(strBytes "x" ∈ pointNames ∧ strBytes "y" ∈ pointNames
        ∧ strBytes "z" ∈ pointNames) then .error .keyError
    else
      let verts := recordsF.map (fun rf =>
        [fieldValue bo rf (strBytes "x"), fieldValue bo rf (strBytes "y"),
         fieldValue bo rf (strBytes "z")])
      let xdtype := ((pointNames.zip pdts).lookup (strBytes "x")).getD .f64
      let pdOut := (pointNames.zip pdts).filterMap (fun p =>
        if p.1 = strBytes "x" ∨ p.1 = strBytes "y" ∨ p.1 = strBytes "z" then none
        else some (decodeAscii p.1,
          (⟨p.2, [numVerts], recordsF.map (fun rf => fieldValue bo rf p.1)⟩ : NpArr)))
      let rest := body.drop (numVerts * itemsize)
      match readCellLoop bo numCells rest (cellNames.zip cellDtypes) 0 with
      | .error e => .error e
      | .ok cellData =>
        match cellData.lookup (strBytes "vertex_indices") with
        | some (.scalar _) => .error .keyError
        | some (.blocks bs) =>
          .ok ⟨xdtype, 3, verts, pdOut, bs⟩
        | none => .ok ⟨xdtype, 3, verts, pdOut, []⟩

/-- `read_buffer`: magic line, format line, header loop, then the binary
body (the ASCII body is delegated to the `asciiReader` parameter standing
for `_read_ascii`). -/
def ply_read_buffer (asciiReader : HeaderAcc → List Nat → Except RErr PMesh)
    (f : List Nat) : Except RErr PMesh :=
  let p0 := readLine f
  if p0.1 ≠ strBytes "ply" then .error .expectedPly
  else
    match nextLine (p0.2.length + 1) p0.2 with
    | none => .error .nonterm
    | some (fline, r1) =>
      let bo2 : Except RErr (Option ByteOrder) :=
        if fline = strBytes "format ascii 1.0" then .ok none
        else if fline = strBytes "format binary_big_endian 1.0" then .ok (some .big)
        else if fline = strBytes "format binary_little_endian 1.0" then .ok (some .little)
        else .error .badFormatLine
      match bo2 with
      | .error e => .error e
      | .ok bo? =>
        match nextLine (r1.length + 1) r1 with
        | none => .error .nonterm
        | some (line1, r2) =>
          match headerLoop (r2.length + 1) r2 line1 ⟨0, 0, [], [], [], []⟩ with
          | .error e => .error e
          | .ok (acc, rbody) =>
            match bo? with
            | some bo => read_binary bo acc.pointNames acc.pointFormats acc.numVerts
                acc.numCells acc.cellNames acc.cellDtypes rbody
            | none => asciiReader acc rbody

/-! ## Reading back what the writer produced: line-level lemmas -/

theorem strBytes_append (a b : String) : strBytes (a ++ b) = strBytes a ++ strBytes b := by
  simp [strBytes, String.data_append]

theorem takeWhile_append_stop {p : Nat → Bool} :
    ∀ (l : List Nat), (∀ b ∈ l, p b) → ∀ (c : Nat) (rest : List Nat), ¬ p c →
    (l ++ c :: rest).takeWhile p = l := by
  intro l
  induction l with
  | nil =>
    intro _ c rest hc
    simp [List.takeWhile_cons, hc]
  | cons a t ih =>
    intro h c rest hc
    have ha : p a := h a (by simp)
    have ih2 := ih (fun b hb => h b (by simp [hb])) c rest hc
    simp [List.takeWhile_cons, ha, ih2]

theorem dropWhile_append_stop {p : Nat → Bool} :
    ∀ (l : List Nat), (∀ b ∈ l, p b) → ∀ (c : Nat) (rest : List Nat), ¬ p c →
    (l ++ c :: rest).dropWhile p = c :: rest := by
  intro l
  induction l with
  | nil =>
    intro _ c rest hc
    simp [List.dropWhile_cons, hc]
  | cons a t ih =>
    intro h c rest hc
    have ha : p a := h a (by simp)
    simp only [List.cons_append, List.dropWhile_cons, ha]
    exact ih (fun b hb => h b (by simp [hb])) c rest hc

theorem dropWhile_eq_self_of_head {p : Nat → Bool} (l : List Nat)
    (h : ∀ b, l.head? = some b → ¬ p b) : l.dropWhile p = l := by
  cases l with
  | nil => rfl
  | cons a t =>
    have := h a rfl
    simp [List.dropWhile_cons, this]

theorem stripBytes_eq_self (l : List Nat)
    (hh : ∀ b, l.head? = some b → ¬ isSpaceByte b)
    (hl : ∀ b, l.getLast? = some b → ¬ isSpaceByte b) : stripBytes l = l := by
  unfold stripBytes
  rw [dropWhile_eq_self_of_head l hh]
  rw [dropWhile_eq_self_of_head l.reverse (by
    intro b hb
    apply hl
    rw [List.getLast?_eq_head?_reverse]
    exact hb)]
  exact List.reverse_reverse l

theorem readLine_cons (l rest : List Nat) (h10 : ∀ b ∈ l, b ≠ 10)
    (hs : stripBytes l = l) :
    readLine (lineBytes l ++ rest) = (l, rest) := by
  unfold readLine lineBytes
  rw [List.append_assoc]
  show (stripBytes ((l ++ 10 :: rest).takeWhile (· ≠ 10)),
      ((l ++ 10 :: rest).dropWhile (· ≠ 10)).drop 1) = (l, rest)
  rw [takeWhile_append_stop l (by intro b hb; simpa using h10 b hb) 10 rest (by simp)]
  rw [dropWhile_append_stop l (by intro b hb; simpa using h10 b hb) 10 rest (by simp)]
  rw [hs]
  rfl

theorem nextLine_sig (fuel : Nat) (l rest : List Nat) (h10 : ∀ b ∈ l, b ≠ 10)
    (hs : stripBytes l = l) (hne : l ≠ []) (hnc : ¬ l.take 7 = strBytes "comment")
    (hf : 0 < fuel) :
    nextLine fuel (lineBytes l ++ rest) = some (l, rest) := by
  obtain ⟨fuel2, rfl⟩ : ∃ m, fuel = m + 1 := ⟨fuel - 1, by omega⟩
  show (if (lineBytes l ++ rest).isEmpty then none else _) = _
  rw [if_neg (by simp [lineBytes])]
  rw [readLine_cons l rest h10 hs]
  simp only
  rw [if_pos ⟨hne, hnc⟩]

theorem nextLine_skip (fuel : Nat) (l rest : List Nat) (h10 : ∀ b ∈ l, b ≠ 10)
    (hs : stripBytes l = l) (hskip : l = [] ∨ l.take 7 = strBytes "comment") :
    nextLine (fuel + 1) (lineBytes l ++ rest) = nextLine fuel rest := by
  show (if (lineBytes l ++ rest).isEmpty then none else _) = _
  rw [if_neg (by simp [lineBytes])]
  rw [readLine_cons l rest h10 hs]
  simp only
  rw [if_neg (by
    rcases hskip with rfl | h
    · simp
    · intro hcon
      exact hcon.2 h)]

theorem decimalBytes_range (n : Nat) : ∀ b ∈ decimalBytes n, 48 ≤ b ∧ b ≤ 57 := by
  intro b hb
  unfold decimalBytes at hb
  by_cases h0 : n = 0
  · rw [if_pos h0] at hb
    simp at hb
    omega
  · rw [if_neg h0] at hb
    obtain ⟨d, hd, rfl⟩ := List.mem_map.mp hb
    have := decimalDigits_lt n d hd
    omega

theorem decimalBytes_ne_nil (n : Nat) : decimalBytes n ≠ [] := by
  unfold decimalBytes
  by_cases h0 : n = 0
  · simp [h0]
  · rw [if_neg h0]
    simpa using decimalDigits_ne_nil n (Nat.pos_of_ne_zero h0)

theorem decimalBytes_fold (n : Nat) :
    (decimalBytes n).foldl (fun a b => 10 * a + (b - 48)) 0 = n := by
  unfold decimalBytes
  by_cases h0 : n = 0
  · simp [h0]
  · rw [if_neg h0, List.foldl_map]
    have : (decimalDigits n).foldl (fun a d => 10 * a + (48 + d - 48)) 0
        = (decimalDigits n).foldl (fun a d => 10 * a + d) 0 := by
      apply List.foldl_ext
      intro a d _
      omega
    rw [this]
    exact digitsFold_decimalDigits n

theorem matchElementCount_encoded (pre : String) (n : Nat) :
    matchElementCount pre (strBytes pre ++ decimalBytes n) = some n := by
  unfold matchElementCount
  rw [List.take_left, if_pos rfl, List.drop_left]
  have hall : (decimalBytes n).takeWhile (fun b => 48 ≤ b && b ≤ 57) = decimalBytes n := by
    apply List.takeWhile_eq_self_iff.mpr
    intro b hb
    have := decimalBytes_range n b hb
    simp only [Bool.and_eq_true, decide_eq_true_eq]
    omega
  rw [hall, if_neg (by simpa using decimalBytes_ne_nil n)]
  rw [decimalBytes_fold]

theorem splitLastSpace_spec (a c : List Nat) (ha : a ≠ []) (hc : c ≠ [])
    (hcsp : ∀ b ∈ c, b ≠ 32) :
    splitLastSpace (a ++ 32 :: c) = some (a, c) := by
  have hrev : (a ++ 32 :: c).reverse = c.reverse ++ 32 :: a.reverse := by simp
  have htw : (a ++ 32 :: c).reverse.takeWhile (fun x => decide (x ≠ 32)) = c.reverse := by
    rw [hrev]
    exact takeWhile_append_stop c.reverse
      (by intro b hb; simpa using hcsp b (List.mem_reverse.mp hb)) 32 a.reverse (by simp)
  have hdw : (a ++ 32 :: c).reverse.dropWhile (fun x => decide (x ≠ 32)) = 32 :: a.reverse := by
    rw [hrev]
    exact dropWhile_append_stop c.reverse
      (by intro b hb; simpa using hcsp b (List.mem_reverse.mp hb)) 32 a.reverse (by simp)
  simp only [splitLastSpace]
  rw [htw, hdw]
  show (if c.reverse = [] ∨ a.reverse = [] then none
    else some (a.reverse.reverse, c.reverse.reverse)) = some (a, c)
  rw [if_neg (by
    simp only [not_or]
    exact ⟨by simpa using hc, by simpa using ha⟩)]
  simp

/-! ## Claim C4: mixed index dtypes -/

theorem findCellDtype_some_error (d0 : NpDtype) :
    ∀ l : List PCellBlock, (∃ b ∈ l, b.dtype ≠ d0) →
    findCellDtype l (some d0) = .error .mixedCellDtypes := by
  intro l
  induction l with
  | nil => intro h; simp at h
  | cons b t ih =>
    intro h
    by_cases hb : b.dtype = d0
    · show (if b.dtype ≠ d0 then _ else findCellDtype t (some d0)) = _
      rw [if_neg (not_not_intro hb)]
      apply ih
      obtain ⟨x, hx, hxne⟩ := h
      rcases List.mem_cons.mp hx with rfl | hxt
      · exact absurd hb hxne
      · exact ⟨x, hxt, hxne⟩
    · show (if b.dtype ≠ d0 then Except.error WErr.mixedCellDtypes else _) = _
      rw [if_pos hb]

theorem findCellDtype_none_error (l : List PCellBlock)
    (h : ∃ b1 ∈ l, ∃ b2 ∈ l, b1.dtype ≠ b2.dtype) :
    findCellDtype l none = .error .mixedCellDtypes := by
  cases l with
  | nil =>
    exfalso
    obtain ⟨b1, h1, _⟩ := h
    simp at h1
  | cons b t =>
    show findCellDtype t (some b.dtype) = _
    apply findCellDtype_some_error
    obtain ⟨b1, h1, b2, h2, hne⟩ := h
    by_cases e1 : b1.dtype = b.dtype
    · have hb2 : b2.dtype ≠ b.dtype := fun hh => hne (e1.trans hh.symm)
      rcases List.mem_cons.mp h2 with rfl | h2t
      · exact absurd rfl hb2
      · exact ⟨b2, h2t, hb2⟩
    · rcases List.mem_cons.mp h1 with rfl | h1t
      · exact absurd rfl e1
      · exact ⟨b1, h1t, e1⟩

/-- C4 (amended): when the face element is actually emitted (at least one
block with a recognized, truthy-count tag and a positive row count, so
`num_cells > 0`) and the blocks' index dtypes are still mixed after the
64-bit narrowing step, the write fails with the fatal `WriteError`; with
`num_cells = 0` the check never runs (see the counterexample). -/
theorem C4_mixed_dtypes (bo : ByteOrder) (ffmt : NpDtype → Nat → String)
    (mesh : PMesh) (binary : Bool)
    (hdim : ¬ mesh.pointsDim > 3)
    (hnc : writeNumCells mesh.cells > 0)
    (hmix : ∃ b1 ∈ mesh.cells.map narrowBlock, ∃ b2 ∈ mesh.cells.map narrowBlock,
      b1.dtype ≠ b2.dtype) :
    ply_write bo ffmt mesh binary = .error .mixedCellDtypes := by
  simp only [ply_write]
  rw [if_neg hdim, if_pos hnc, findCellDtype_none_error _ hmix]

def c4mesh : PMesh :=
  { pointsDtype := .f64, pointsDim := 3, points := [[0, 0, 0]], point_data := [],
    cells := [⟨"custom1", .i32, 3, [[0, 1, 1]]⟩, ⟨"custom2", .i16, 4, [[0, 0, 1, 1]]⟩] }

/-- C4 counterexample: a mesh whose two cell blocks have different index
dtypes after narrowing (int32 vs int16) for which the PLY writer
nevertheless succeeds, because no block has a recognized tag, so
`num_cells = 0` and the dtype check never runs — refuting the claim as
stated for every mesh. -/
theorem C4_counterexample :
    (c4mesh.cells.map narrowBlock).map PCellBlock.dtype = [.i32, .i16]
    ∧ (ply_write .little (fun _ _ => "") c4mesh true).isOk = true :=
  ⟨by decide, by decide⟩

def c4mixedmesh : PMesh :=
  { pointsDtype := .f64, pointsDim := 3, points := [[0, 0, 0]], point_data := [],
    cells := [⟨"triangle", .i32, 3, [[0, 1, 1]]⟩, ⟨"quad", .i16, 4, [[0, 0, 1, 1]]⟩] }

/-- Witness instantiating `C4_mixed_dtypes` at a concrete mesh. -/
theorem C4_witness :
    ¬ c4mixedmesh.pointsDim > 3
    ∧ writeNumCells c4mixedmesh.cells > 0
    ∧ ply_write .little (fun _ _ => "") c4mixedmesh true = .error .mixedCellDtypes :=
  ⟨by decide, by decide,
    C4_mixed_dtypes .little (fun _ _ => "") c4mixedmesh true (by decide) (by decide)
      ⟨⟨"triangle", .i32, 3, [[0, 1, 1]]⟩, by decide,
       ⟨"quad", .i16, 4, [[0, 0, 1, 1]]⟩, by decide, by decide⟩⟩

/-! ## Claim C8: unrecognized cell-type tags at write time -/

/-- The binary wire bytes of one recognized block. -/
def blockBinaryBytes (bo : ByteOrder) (b : PCellBlock) : List Nat :=
  (b.rows.map (fun row => encUnsigned bo 1 b.width
    ++ (row.map (encUnsigned bo b.dtype.itemsize)).flatten)).flatten

/-- The ASCII wire bytes of one block. -/
def blockAsciiBytes (ffmt : NpDtype → Nat → String) (b : PCellBlock) : List Nat :=
  strBytes (joinSep "\x0a" (b.rows.map (fun row =>
    joinSep " " (fmtScalar ffmt b.dtype (b.width % 2 ^ (8 * b.dtype.itemsize))
      :: row.map (fmtScalar ffmt b.dtype)))) ++ "\x0a")

theorem binaryCellsBytes_spec (bo : ByteOrder) : ∀ cells : List PCellBlock,
    binaryCellsBytes bo cells
      = (((cells.filter (fun b => (cell_type_to_count b.tag).isSome)).map
            (blockBinaryBytes bo)).flatten,
         List.replicate (cells.countP (fun b => (cell_type_to_count b.tag).isNone))
           Warning.skippedCellType) := by
  intro cells
  induction cells with
  | nil => rfl
  | cons b t ih =>
    show (match cell_type_to_count b.tag with
      | none => ((binaryCellsBytes bo t).1,
          Warning.skippedCellType :: (binaryCellsBytes bo t).2)
      | some _ => (blockBinaryBytes bo b ++ (binaryCellsBytes bo t).1,
          (binaryCellsBytes bo t).2)) = _
    cases hc : cell_type_to_count b.tag with
    | none =>
      rw [ih]
      simp [List.filter_cons, List.countP_cons, hc, List.replicate_succ]
    | some n =>
      rw [ih]
      simp [List.filter_cons, List.countP_cons, hc]

theorem asciiCellsBytes_spec (ffmt : NpDtype → Nat → String) :
    ∀ cells : List PCellBlock,
    asciiCellsBytes ffmt cells = (cells.map (blockAsciiBytes ffmt)).flatten := by
  intro cells
  induction cells with
  | nil => rfl
  | cons b t ih =>
    show blockAsciiBytes ffmt b ++ asciiCellsBytes ffmt t = _
    rw [ih]
    simp

theorem writePointDataLoop_warns : ∀ pd : List (String × NpArr),
    ∀ w ∈ (writePointDataLoop pd).2.2, ∃ k, w = .multidimPointData k := by
  intro pd
  induction pd with
  | nil => simp [writePointDataLoop]
  | cons p t ih =>
    intro w hw
    obtain ⟨key, arr⟩ := p
    by_cases hsh : arr.shape.length > 1
    · simp only [writePointDataLoop, if_pos hsh] at hw
      rcases List.mem_cons.mp hw with rfl | hw2
      · exact ⟨key, rfl⟩
      · exact ih w hw2
    · simp only [writePointDataLoop, if_neg hsh] at hw
      exact ih w hw

theorem count_skipped_writePointDataLoop (pd : List (String × NpArr)) :
    ((writePointDataLoop pd).2.2).count Warning.skippedCellType = 0 := by
  rw [List.count_eq_zero]
  intro hmem
  obtain ⟨k, hk⟩ := writePointDataLoop_warns pd _ hmem
  cases hk

theorem narrowBlock_tag (b : PCellBlock) : (narrowBlock b).tag = b.tag := by
  unfold narrowBlock
  by_cases h : b.dtype = .i64 <;> simp [h]

/-- C8 (amended): in *binary* mode each block whose tag the writer does
not recognize is skipped (the body holds exactly the recognized blocks'
records, in order) and one non-fatal warning is raised per skipped block;
in *ASCII* mode every block — recognized or not — is emitted with its own
width prefix and no skip warning is raised (the tag check is commented
out in the source). -/
theorem C8_unrecognized_tags :
    (∀ (bo : ByteOrder) (cells : List PCellBlock),
      binaryCellsBytes bo cells
        = (((cells.filter (fun b => (cell_type_to_count b.tag).isSome)).map
              (blockBinaryBytes bo)).flatten,
           List.replicate (cells.countP (fun b => (cell_type_to_count b.tag).isNone))
             Warning.skippedCellType))
    ∧ (∀ (ffmt : NpDtype → Nat → String) (cells : List PCellBlock),
        asciiCellsBytes ffmt cells = (cells.map (blockAsciiBytes ffmt)).flatten)
    ∧ (∀ (bo : ByteOrder) (ffmt : NpDtype → Nat → String) (mesh : PMesh)
        (out : List Nat) (cells2 : List PCellBlock) (warns : List Warning),
        ply_write bo ffmt mesh false = .ok (out, cells2, warns) →
        warns.count Warning.skippedCellType = 0)
    ∧ (∀ (bo : ByteOrder) (ffmt : NpDtype → Nat → String) (mesh : PMesh)
        (out : List Nat) (cells2 : List PCellBlock) (warns : List Warning),
        ply_write bo ffmt mesh true = .ok (out, cells2, warns) →
        warns.count Warning.skippedCellType
          = mesh.cells.countP (fun b => (cell_type_to_count b.tag).isNone)) := by
  refine ⟨binaryCellsBytes_spec, asciiCellsBytes_spec, ?_, ?_⟩
  · intro bo ffmt mesh out cells2 warns h
    simp only [ply_write, Bool.false_eq_true, if_false] at h
    by_cases hdim : mesh.pointsDim > 3
    · rw [if_pos hdim] at h; cases h
    rw [if_neg hdim] at h
    by_cases hnc : writeNumCells mesh.cells > 0
    · rw [if_pos hnc] at h
      cases hfd : findCellDtype (mesh.cells.map narrowBlock) none with
      | error e => rw [hfd] at h; cases h
      | ok cd =>
        rw [hfd] at h
        have hw := congrArg (fun t => t.2.2) (Except.ok.inj h)
        simp only at hw
        rw [← hw, List.count_append, List.count_append,
          count_skipped_writePointDataLoop]
        by_cases hcast : mesh.cells.any (fun b => b.dtype = .i64) <;>
          simp [hcast, List.count_cons, List.count_nil]
    · rw [if_neg hnc] at h
      have hw := congrArg (fun t => t.2.2) (Except.ok.inj h)
      simp only at hw
      rw [← hw, List.count_append, count_skipped_writePointDataLoop,
        List.count_nil]
  · intro bo ffmt mesh out cells2 warns h
    simp only [ply_write, if_true] at h
    by_cases hdim : mesh.pointsDim > 3
    · rw [if_pos hdim] at h; cases h
    rw [if_neg hdim] at h
    have hcountmap : (mesh.cells.map narrowBlock).countP
        (fun b => (cell_type_to_count b.tag).isNone)
        = mesh.cells.countP (fun b => (cell_type_to_count b.tag).isNone) := by
      rw [List.countP_map]
      apply List.countP_congr
      intro b _
      simp [Function.comp, narrowBlock_tag]
    by_cases hnc : writeNumCells mesh.cells > 0
    · rw [if_pos hnc] at h
      cases hfd : findCellDtype (mesh.cells.map narrowBlock) none with
      | error e => rw [hfd] at h; cases h
      | ok cd =>
        rw [hfd] at h
        have hw := congrArg (fun t => t.2.2) (Except.ok.inj h)
        simp only at hw
        rw [← hw, List.count_append, List.count_append,
          count_skipped_writePointDataLoop, binaryCellsBytes_spec]
        have hrep : (List.replicate ((mesh.cells.map narrowBlock).countP
            (fun b => (cell_type_to_count b.tag).isNone))
            Warning.skippedCellType).count Warning.skippedCellType
            = (mesh.cells.map narrowBlock).countP
              (fun b => (cell_type_to_count b.tag).isNone) := by
          simp [List.count_replicate]
        by_cases hcast : mesh.cells.any (fun b => b.dtype = .i64) <;>
          simp [hcast, List.count_cons, List.count_nil, hrep, hcountmap]
    · rw [if_neg hnc] at h
      have hw := congrArg (fun t => t.2.2) (Except.ok.inj h)
      simp only at hw
      rw [← hw, List.count_append, count_skipped_writePointDataLoop,
        binaryCellsBytes_spec]
      simp [List.count_replicate]

def c8mesh : PMesh :=
  { pointsDtype := .i32, pointsDim := 3, points := [[1, 2, 3]], point_data := [],
    cells := [⟨"custom", .i32, 2, [[7, 8]]⟩] }

/-- C8 counterexample: writing in ASCII mode a mesh whose only cell block
has the unrecognized tag `custom` emits the block's row (`2 7 8` appears
in the output) and raises *no* warning — refuting the claim for the ASCII
mode. -/
theorem C8_counterexample :
    ply_write .little (fun _ _ => "") c8mesh false
      = .ok (strBytes ("ply\x0aformat ascii 1.0\x0acomment Created by meshio\x0a"
          ++ "element vertex 1\x0aproperty int32 x\x0aproperty int32 y\x0a"
          ++ "property int32 z\x0aend_header\x0a1 2 3\x0a2 7 8\x0a"),
          c8mesh.cells, []) := by
  decide

/-- Witness instantiating the binary conjunct of `C8_unrecognized_tags`
at a concrete mesh. -/
theorem C8_witness :
    ply_write .little (fun _ _ => "") c8mesh true
      = .ok (strBytes ("ply\x0aformat binary_little_endian 1.0\x0a"
          ++ "comment Created by meshio\x0aelement vertex 1\x0a"
          ++ "property int32 x\x0aproperty int32 y\x0aproperty int32 z\x0a"
          ++ "end_header\x0a")
          ++ [1, 0, 0, 0, 2, 0, 0, 0, 3, 0, 0, 0],
          c8mesh.cells, [Warning.skippedCellType])
    ∧ ([Warning.skippedCellType] : List Warning).count Warning.skippedCellType
        = c8mesh.cells.countP (fun b => (cell_type_to_count b.tag).isNone) :=
  ⟨by decide,
    C8_unrecognized_tags.2.2.2 .little (fun _ _ => "") c8mesh
      (strBytes ("ply\x0aformat binary_little_endian 1.0\x0a"
        ++ "comment Created by meshio\x0aelement vertex 1\x0a"
        ++ "property int32 x\x0aproperty int32 y\x0aproperty int32 z\x0a"
        ++ "end_header\x0a")
        ++ [1, 0, 0, 0, 2, 0, 0, 0, 3, 0, 0, 0])
      c8mesh.cells [Warning.skippedCellType] (by decide)⟩

/-! ## `_helpers.py`: the `read` facade (claim C7) -/

/-- A read source: an already-open in-memory buffer, or a file path. -/
inductive Source
  | buffer (contents : List Nat)
  | path (name : String)

/-- `reader_map` after module load: only `_ply.py` registered a reader.
The readers take the file's bytes (the facade passes the open buffer or
the path to the reader, which reads the bytes). -/
def reader_map (asciiReader : HeaderAcc → List Nat → Except RErr PMesh) :
    List (String × (List Nat → Except RErr PMesh)) :=
  [("ply", ply_read_buffer asciiReader)]

/-- `_helpers.read(filename, file_format)`.  `fs` is the file system (a
partial map from path names to contents), standing for `path.exists()`
and the subsequent open. -/
def helpers_read (fs : String → Option (List Nat))
    (asciiReader : HeaderAcc → List Nat → Except RErr PMesh)
    (source : Source) (file_format : Option String) : Except RErr PMesh :=
  match source with
  | .buffer contents =>
    match file_format with
    | none => .error .formatRequired
    | some fmt =>
      if fmt = "tetgen" then .error .bufferTetgen
      else
        match (reader_map asciiReader).lookup fmt with
        | none => .error .unknownFormat
        | some rd => rd contents
  | .path p =>
    match fs p with
    | none => .error .notFound
    | some contents =>
      let fmtE : Except RErr String :=
        match file_format with
        | none => filetype_from_path extension_to_filetype (pathSuffixes p)
        | some fmt =>
          if fmt = "" then filetype_from_path extension_to_filetype (pathSuffixes p)
          else .ok fmt
      match fmtE with
      | .error e => .error e
      | .ok fmt =>
        match (reader_map asciiReader).lookup fmt with
        | none => .error .unknownFormat
        | some rd => rd contents

/-- A concrete little binary PLY file: one float32 vertex, no faces. -/
def c7bytes : List Nat :=
  strBytes ("ply\x0aformat binary_little_endian 1.0\x0aelement vertex 1\x0a"
    ++ "property float x\x0aproperty float y\x0aproperty float z\x0aend_header\x0a")
  ++ [0, 0, 0, 0, 0, 0, 128, 63, 0, 0, 0, 64]

def c7mesh : PMesh :=
  { pointsDtype := .f32, pointsDim := 3,
    points := [[0, 63 * 2 ^ 24 + 128 * 2 ^ 16, 64 * 2 ^ 24]],
    point_data := [], cells := [] }

set_option maxRecDepth 100000 in
/-- C7: reading from an in-memory buffer requires an explicit format and
rejects the multi-file-only `tetgen` format; any other format dispatches
to the registered reader, succeeding for `"ply"` on a well-formed buffer;
a path that does not exist fails with the not-found error before any
format resolution. -/
theorem C7_read_facade :
    (∀ fs ar contents,
      helpers_read fs ar (.buffer contents) none = .error .formatRequired)
    ∧ (∀ fs ar contents,
        helpers_read fs ar (.buffer contents) (some "tetgen") = .error .bufferTetgen)
    ∧ (∀ fs ar contents,
        helpers_read fs ar (.buffer contents) (some "ply")
          = ply_read_buffer ar contents)
    ∧ (∀ fs ar contents (fmt : String), fmt ≠ "tetgen" → fmt ≠ "ply" →
        helpers_read fs ar (.buffer contents) (some fmt) = .error .unknownFormat)
    ∧ (helpers_read (fun _ => none) (fun _ _ => .error .nonterm)
        (.buffer c7bytes) (some "ply") = .ok c7mesh)
    ∧ (∀ fs ar p fmt, fs p = none →
        helpers_read fs ar (.path p) fmt = .error .notFound) := by
  refine ⟨fun _ _ _ => rfl, fun _ _ _ => rfl, fun _ _ _ => rfl, ?_, by decide, ?_⟩
  · intro fs ar contents fmt h1 h2
    show (if fmt = "tetgen" then _ else _) = _
    rw [if_neg h1]
    have e : (fmt == "ply") = false := by simp [h2]
    have : (reader_map ar).lookup fmt = none := by
      simp [reader_map, List.lookup, e]
    rw [this]
  · intro fs ar p fmt h
    show (match fs p with
      | none => Except.error RErr.notFound
      | some contents => _) = _
    rw [h]

/-- Witness instantiating the unknown-format conjunct of `C7_read_facade`. -/
theorem C7_witness :
    ("obj" : String) ≠ "tetgen" ∧ ("obj" : String) ≠ "ply"
    ∧ helpers_read (fun _ => none) (fun _ _ => .error .nonterm)
        (.buffer []) (some "obj") = .error .unknownFormat :=
  ⟨by decide, by decide,
    C7_read_facade.2.2.2.1 (fun _ => none) (fun _ _ => .error .nonterm) [] "obj"
      (by decide) (by decide)⟩

/-! ## The binary write→read round trip: writer-side lemmas -/

theorem ctc_from_count (w : Nat) (h : 0 < w) :
    cell_type_to_count (cell_type_from_count w) = some w := by
  by_cases h1 : w = 1
  · subst h1; decide
  by_cases h2 : w = 2
  · subst h2; decide
  by_cases h3 : w = 3
  · subst h3; decide
  by_cases h4 : w = 4
  · subst h4; decide
  rw [cell_type_from_count_eq_polygon w h1 h2 h3 h4]
  exact cell_type_to_count_polygon_append w

theorem writeNumCells_canonical (cells : List PCellBlock)
    (htag : ∀ b ∈ cells, b.tag = cell_type_from_count b.width)
    (hwpos : ∀ b ∈ cells, 0 < b.width) :
    writeNumCells cells = (cells.map (fun b => b.rows.length)).sum := by
  unfold writeNumCells
  have main : ∀ l : List PCellBlock, (∀ b ∈ l, b.tag = cell_type_from_count b.width) →
      (∀ b ∈ l, 0 < b.width) → ∀ acc : Nat,
      l.foldl (fun acc b =>
        match cell_type_to_count b.tag with
        | some (_ + 1) => acc + b.rows.length
        | _ => acc) acc = acc + (l.map (fun b => b.rows.length)).sum := by
    intro l
    induction l with
    | nil => intro _ _ acc; simp
    | cons b t ih =>
      intro ht hp acc
      have hc : cell_type_to_count b.tag = some b.width := by
        rw [ht b (by simp)]
        exact ctc_from_count b.width (hp b (by simp))
      obtain ⟨w2, hw2⟩ : ∃ w2, b.width = w2 + 1 :=
        ⟨b.width - 1, by have := hp b (by simp); omega⟩
      simp only [List.foldl_cons, hc, hw2]
      rw [ih (fun x hx => ht x (by simp [hx])) (fun x hx => hp x (by simp [hx]))]
      rw [List.map_cons, List.sum_cons]
      exact Nat.add_assoc acc b.rows.length _
  rw [main cells htag hwpos 0]
  omega

theorem findCellDtype_all_eq (d : NpDtype) :
    ∀ l : List PCellBlock, (∀ b ∈ l, b.dtype = d) →
    findCellDtype l (some d) = .ok (some d) := by
  intro l
  induction l with
  | nil => intro _; rfl
  | cons b t ih =>
    intro h
    show (if b.dtype ≠ d then _ else findCellDtype t (some d)) = _
    rw [if_neg (not_not_intro (h b (by simp)))]
    exact ih (fun x hx => h x (by simp [hx]))

theorem findCellDtype_none_ok (d : NpDtype) (l : List PCellBlock) (hne : l ≠ [])
    (h : ∀ b ∈ l, b.dtype = d) : findCellDtype l none = .ok (some d) := by
  cases l with
  | nil => exact absurd rfl hne
  | cons b t =>
    show findCellDtype t (some b.dtype) = _
    rw [h b (by simp)]
    exact findCellDtype_all_eq d t (fun x hx => h x (by simp [hx]))

theorem map_range_getD {α β : Type} (l : List α) (d : α) (f : α → β) :
    (List.range l.length).map (fun i => f (l.getD i d)) = l.map f := by
  apply List.ext_getElem
  · simp
  · intro i h1 h2
    simp only [List.getElem_map, List.getElem_range]
    congr 1
    rw [List.getD_eq_getElem?_getD]
    rw [List.getElem?_eq_getElem (by simpa using h2)]
    rfl

theorem binaryPointsBytes_no_pd (bo : ByteOrder) (pdt : NpDtype)
    (points : List (List Nat)) :
    binaryPointsBytes bo pdt points []
      = (points.map (fun row => (row.map (encUnsigned bo pdt.itemsize)).flatten)).flatten := by
  unfold binaryPointsBytes
  congr 1
  have : ∀ i, pointRecordBytes bo pdt (points.getD i []) [] i
      = ((points.getD i []).map (encUnsigned bo pdt.itemsize)).flatten := by
    intro i
    unfold pointRecordBytes
    simp
  calc (List.range points.length).map (fun i =>
        pointRecordBytes bo pdt (points.getD i []) [] i)
      = (List.range points.length).map (fun i =>
          ((points.getD i []).map (encUnsigned bo pdt.itemsize)).flatten) := by
        apply List.map_congr_left
        intro i _
        exact this i
    _ = points.map (fun row => (row.map (encUnsigned bo pdt.itemsize)).flatten) :=
        map_range_getD points []
          (fun row => (row.map (encUnsigned bo pdt.itemsize)).flatten)

theorem binaryCellsBytes_all_recognized (bo : ByteOrder) (cells : List PCellBlock)
    (htag : ∀ b ∈ cells, b.tag = cell_type_from_count b.width)
    (hwpos : ∀ b ∈ cells, 0 < b.width) :
    binaryCellsBytes bo cells = ((cells.map (blockBinaryBytes bo)).flatten, []) := by
  rw [binaryCellsBytes_spec]
  have h1 : cells.filter (fun b => (cell_type_to_count b.tag).isSome) = cells := by
    apply List.filter_eq_self.mpr
    intro b hb
    rw [htag b hb, ctc_from_count b.width (hwpos b hb)]
    rfl
  have h2 : cells.countP (fun b => (cell_type_to_count b.tag).isNone) = 0 := by
    apply List.countP_eq_zero.mpr
    intro b hb
    rw [htag b hb, ctc_from_count b.width (hwpos b hb)]
    simp
  rw [h1, h2]
  rfl

theorem encodeRows_flatten (bo : ByteOrder) (cis dis : Nat) :
    ∀ Ls : List (List (List Nat)),
    encodeRows bo cis dis Ls.flatten = (Ls.map (encodeRows bo cis dis)).flatten := by
  intro Ls
  induction Ls with
  | nil => rfl
  | cons L t ih =>
    rw [List.flatten_cons, encodeRows_append, ih]
    rfl

theorem blockBinaryBytes_encodeRows (bo : ByteOrder) (d : NpDtype) (b : PCellBlock)
    (hdt : b.dtype = d) (hrect : ∀ r ∈ b.rows, r.length = b.width) :
    blockBinaryBytes bo b = encodeRows bo 1 d.itemsize b.rows := by
  unfold blockBinaryBytes encodeRows
  congr 1
  apply List.map_congr_left
  intro row hrow
  unfold encodeRow
  rw [hdt, hrect row hrow]

theorem cellsBody_encodeRows (bo : ByteOrder) (d : NpDtype) (cells : List PCellBlock)
    (hdt : ∀ b ∈ cells, b.dtype = d)
    (hrect : ∀ b ∈ cells, ∀ r ∈ b.rows, r.length = b.width) :
    (cells.map (blockBinaryBytes bo)).flatten
      = encodeRows bo 1 d.itemsize (cells.map PCellBlock.rows).flatten := by
  rw [encodeRows_flatten, List.map_map]
  congr 1
  apply List.map_congr_left
  intro b hb
  exact blockBinaryBytes_encodeRows bo d b (hdt b hb) (hrect b hb)

def expectedHeader (bo : ByteOrder) (pdt : NpDtype) (nv nc : Nat) (d : NpDtype) : List Nat :=
  (([strBytes "ply",
     strBytes ("format binary_" ++ boName bo ++ "_endian 1.0"),
     strBytes plyCommentLine,
     strBytes "element vertex " ++ decimalBytes nv,
     strBytes ("property " ++ typeName pdt ++ " " ++ "x"),
     strBytes ("property " ++ typeName pdt ++ " " ++ "y"),
     strBytes ("property " ++ typeName pdt ++ " " ++ "z"),
     strBytes "element face " ++ decimalBytes nc,
     strBytes ("property list uint8 " ++ plyTypeName d ++ " vertex_indices"),
     strBytes "end_header"]).map lineBytes).flatten

theorem ply_write_ok (bo : ByteOrder) (ffmt : NpDtype → Nat → String) (mesh : PMesh)
    (d : NpDtype)
    (hdim : mesh.pointsDim = 3)
    (hpd : mesh.point_data = [])
    (hcne : mesh.cells ≠ [])
    (hbne : ∀ b ∈ mesh.cells, b.rows ≠ [])
    (htag : ∀ b ∈ mesh.cells, b.tag = cell_type_from_count b.width)
    (hwpos : ∀ b ∈ mesh.cells, 0 < b.width)
    (hd : ∀ b ∈ mesh.cells, (narrowBlock b).dtype = d) :
    ply_write bo ffmt mesh true
      = .ok (expectedHeader bo mesh.pointsDtype mesh.points.length
              (writeNumCells mesh.cells) d
            ++ (binaryPointsBytes bo mesh.pointsDtype mesh.points []
                ++ ((mesh.cells.map narrowBlock).map (blockBinaryBytes bo)).flatten),
          mesh.cells.map narrowBlock,
          if mesh.cells.any (fun b => b.dtype = .i64) then [Warning.castDown] else []) := by
  have hdim3 : ¬ mesh.pointsDim > 3 := by omega
  have hncpos : writeNumCells mesh.cells > 0 := by
    rw [writeNumCells_canonical mesh.cells htag hwpos]
    cases hc : mesh.cells with
    | nil => exact absurd hc hcne
    | cons b0 t =>
      have : b0.rows ≠ [] := hbne b0 (by rw [hc]; simp)
      have := List.length_pos.mpr this
      simp [List.map_cons, List.sum_cons]
      omega
  have hmapne : mesh.cells.map narrowBlock ≠ [] := by
    intro h
    exact hcne (List.map_eq_nil_iff.mp h)
  have hmapd : ∀ b ∈ mesh.cells.map narrowBlock, b.dtype = d := by
    intro b hb
    obtain ⟨x, hx, rfl⟩ := List.mem_map.mp hb
    exact hd x hx
  have hfd : findCellDtype (mesh.cells.map narrowBlock) none = .ok (some d) :=
    findCellDtype_none_ok d _ hmapne hmapd
  have hntag : ∀ b ∈ mesh.cells.map narrowBlock, b.tag = cell_type_from_count b.width := by
    intro b hb
    obtain ⟨x, hx, rfl⟩ := List.mem_map.mp hb
    rw [narrowBlock_tag]
    have hxw : (narrowBlock x).width = x.width := by
      unfold narrowBlock
      by_cases h : x.dtype = .i64 <;> simp [h]
    rw [hxw]
    exact htag x hx
  have hnwpos : ∀ b ∈ mesh.cells.map narrowBlock, 0 < b.width := by
    intro b hb
    obtain ⟨x, hx, rfl⟩ := List.mem_map.mp hb
    have hxw : (narrowBlock x).width = x.width := by
      unfold narrowBlock
      by_cases h : x.dtype = .i64 <;> simp [h]
    rw [hxw]
    exact hwpos x hx
  have hcb := binaryCellsBytes_all_recognized bo (mesh.cells.map narrowBlock) hntag hnwpos
  simp only [ply_write]
  rw [if_neg hdim3, hpd, if_pos hncpos, hfd, hcb, hdim]
  simp only [writePointDataLoop, List.append_nil, List.nil_append, if_true]
  rfl

theorem mem_of_getLast? : ∀ (l : List Nat) (b : Nat), l.getLast? = some b → b ∈ l
  | [a], b, h => by
    simp only [List.getLast?_singleton, Option.some.injEq] at h
    simp [h]
  | a :: c :: t, b, h => by
    rw [List.getLast?_cons_cons] at h
    exact List.mem_cons_of_mem a (mem_of_getLast? (c :: t) b h)

theorem head?_append_left {α : Type} (l₁ l₂ : List α) (h : l₁ ≠ []) :
    (l₁ ++ l₂).head? = l₁.head? := by
  cases l₁ with
  | nil => exact absurd rfl h
  | cons a t => rfl

theorem getLast?_append_right {α : Type} (l₁ l₂ : List α) (h : l₂ ≠ []) :
    (l₁ ++ l₂).getLast? = l₂.getLast? :=
  List.getLast?_append_of_ne_nil _ h

/-- The byte-level shape every header line the writer emits has: printable
bytes (no control characters) with no leading or trailing blank. -/
def cleanLine (l : List Nat) : Prop :=
  (∀ b ∈ l, 14 ≤ b ∧ b ≤ 126) ∧ l.head? ≠ some 32 ∧ l.getLast? ≠ some 32

theorem cleanLine_h10 (l : List Nat) (h : cleanLine l) : ∀ b ∈ l, b ≠ 10 := by
  intro b hb
  have := h.1 b hb
  omega

theorem cleanLine_strip (l : List Nat) (h : cleanLine l) : stripBytes l = l := by
  apply stripBytes_eq_self
  · intro b hb
    have hmem : b ∈ l := by
      cases l with
      | nil => simp at hb
      | cons a t =>
        simp only [List.head?_cons, Option.some.injEq] at hb
        simp [hb]
    have h1 := h.1 b hmem
    have h2 : b ≠ 32 := by
      intro hcon
      exact h.2.1 (by cases l with
        | nil => simp at hb
        | cons a t =>
          simp only [List.head?_cons, Option.some.injEq] at hb
          simp [hb, hcon])
    simp only [isSpaceByte]
    simp only [Bool.or_eq_true, decide_eq_true_eq, not_or]
    omega
  · intro b hb
    have hmem : b ∈ l := mem_of_getLast? l b hb
    have h1 := h.1 b hmem
    have h2 : b ≠ 32 := by
      intro hcon
      rw [hcon] at hb
      exact h.2.2 hb
    simp only [isSpaceByte]
    simp only [Bool.or_eq_true, decide_eq_true_eq, not_or]
    omega

instance (l : List Nat) : Decidable (cleanLine l) := by
  unfold cleanLine
  exact inferInstance

/-- `nextLine` on a clean, non-comment, nonempty line. -/
theorem nextLine_clean (fuel : Nat) (l rest : List Nat) (h : cleanLine l)
    (hne : l ≠ []) (hnc : ¬ l.take 7 = strBytes "comment") (hf : 0 < fuel) :
    nextLine fuel (lineBytes l ++ rest) = some (l, rest) :=
  nextLine_sig fuel l rest (cleanLine_h10 l h) (cleanLine_strip l h) hne hnc hf

theorem matchElementCount_none (pre : String) (line : List Nat)
    (h : ¬ line.take (strBytes pre).length = strBytes pre) :
    matchElementCount pre line = none := by
  unfold matchElementCount
  rw [if_neg h]

theorem matchProperty2_encoded (tn nm : List Nat) (htn : tn ≠ []) (hnm : nm ≠ [])
    (hnmsp : ∀ b ∈ nm, b ≠ 32) :
    matchProperty2 (strBytes "property " ++ (tn ++ 32 :: nm)) = some (tn, nm) := by
  unfold matchProperty2
  rw [show (strBytes "property " ++ (tn ++ 32 :: nm)).take 9 = strBytes "property "
    from List.take_left' rfl]
  rw [if_pos rfl]
  rw [show (strBytes "property " ++ (tn ++ 32 :: nm)).drop 9 = tn ++ 32 :: nm
    from List.drop_left' rfl]
  exact splitLastSpace_spec tn nm htn hnm hnmsp

theorem matchPropertyList3_encoded (cnt dat nm : List Nat) (hcnt : cnt ≠ [])
    (hdat : dat ≠ []) (hnm : nm ≠ [])
    (hdatsp : ∀ b ∈ dat, b ≠ 32) (hnmsp : ∀ b ∈ nm, b ≠ 32) :
    matchPropertyList3 (strBytes "property list " ++ (cnt ++ 32 :: (dat ++ 32 :: nm)))
      = some (cnt, dat, nm) := by
  unfold matchPropertyList3
  rw [show (strBytes "property list " ++ (cnt ++ 32 :: (dat ++ 32 :: nm))).take 14
      = strBytes "property list " from List.take_left' rfl]
  rw [if_pos rfl]
  rw [show (strBytes "property list " ++ (cnt ++ 32 :: (dat ++ 32 :: nm))).drop 14
      = cnt ++ 32 :: (dat ++ 32 :: nm) from List.drop_left' rfl]
  have h1 : splitLastSpace ((cnt ++ 32 :: dat) ++ 32 :: nm) = some (cnt ++ 32 :: dat, nm) :=
    splitLastSpace_spec (cnt ++ 32 :: dat) nm (by simp) hnm hnmsp
  rw [show cnt ++ 32 :: (dat ++ 32 :: nm) = (cnt ++ 32 :: dat) ++ 32 :: nm by simp]
  simp only [h1, splitLastSpace_spec cnt dat hcnt hdat hdatsp]

theorem lookupDtypeString_plyTypeName (d : NpDtype) (h : d ≠ .i16) :
    lookupDtypeString (strBytes (plyTypeName d)) = some d := by
  cases d <;> first | rfl | exact absurd rfl h

theorem lookupDtypeString_typeName (pdt : NpDtype)
    (h : pdt = .f32 ∨ pdt = .f64) :
    lookupDtypeString (strBytes (typeName pdt)) = some pdt := by
  rcases h with rfl | rfl <;> rfl

theorem flatten_length_const (k : Nat) :
    ∀ cs : List (List Nat), (∀ c ∈ cs, c.length = k) →
    cs.flatten.length = cs.length * k := by
  intro cs
  induction cs with
  | nil => intro _; simp
  | cons c t ih =>
    intro h
    rw [List.flatten_cons, List.length_append, h c (by simp),
      ih (fun x hx => h x (by simp [hx])), List.length_cons]
    ring

theorem ne_nil_of_take1 (l : List Nat) (a : Nat) (h : l.take 1 = [a]) : l ≠ [] := by
  intro hcon
  rw [hcon] at h
  simp at h

theorem getLast?_append_cons (l₁ : List Nat) (a : Nat) (l₂ : List Nat) (h : l₂ ≠ []) :
    (l₁ ++ a :: l₂).getLast? = l₂.getLast? := by
  rw [show l₁ ++ a :: l₂ = (l₁ ++ [a]) ++ l₂ by simp]
  exact getLast?_append_right _ _ h

theorem cleanLine_pre_decimal (pre : String) (n : Nat)
    (hpre : ∀ b ∈ strBytes pre, 14 ≤ b ∧ b ≤ 126)
    (hh : (strBytes pre).head? ≠ some 32) (hne : strBytes pre ≠ []) :
    cleanLine (strBytes pre ++ decimalBytes n) := by
  refine ⟨?_, ?_, ?_⟩
  · intro b hb
    rcases List.mem_append.mp hb with h | h
    · exact hpre b h
    · have := decimalBytes_range n b h
      omega
  · rw [head?_append_left _ _ hne]
    exact hh
  · rw [getLast?_append_right _ _ (decimalBytes_ne_nil n)]
    intro hcon
    have := decimalBytes_range n 32 (mem_of_getLast? _ 32 hcon)
    omega

theorem cleanLine_property (tn nm : List Nat)
    (htn : ∀ b ∈ tn, 97 ≤ b ∧ b ≤ 122)
    (hnm : ∀ b ∈ nm, 95 ≤ b ∧ b ≤ 122) (hnmne : nm ≠ []) :
    cleanLine (strBytes "property " ++ (tn ++ 32 :: nm)) := by
  refine ⟨?_, ?_, ?_⟩
  · intro b hb
    rcases List.mem_append.mp hb with h | h
    · have hall : ∀ x ∈ strBytes "property ", 14 ≤ x ∧ x ≤ 126 := by decide
      exact hall b h
    · rcases List.mem_append.mp h with h2 | h2
      · have := htn b h2; omega
      · rcases List.mem_cons.mp h2 with h3 | h3
        · omega
        · have := hnm b h3; omega
  · rw [head?_append_left _ _ (by decide)]
    decide
  · rw [getLast?_append_right _ _ (by simp), getLast?_append_cons _ _ _ hnmne]
    intro hcon
    have := hnm 32 (mem_of_getLast? _ 32 hcon)
    omega

theorem cleanLine_proplist (cnt dat nm : List Nat)
    (hcnt : ∀ b ∈ cnt, 48 ≤ b ∧ b ≤ 122)
    (hdat : ∀ b ∈ dat, 48 ≤ b ∧ b ≤ 122)
    (hnm : ∀ b ∈ nm, 95 ≤ b ∧ b ≤ 122) (hnmne : nm ≠ []) :
    cleanLine (strBytes "property list " ++ (cnt ++ 32 :: (dat ++ 32 :: nm))) := by
  refine ⟨?_, ?_, ?_⟩
  · intro b hb
    rcases List.mem_append.mp hb with h | h
    · have hall : ∀ x ∈ strBytes "property list ", 14 ≤ x ∧ x ≤ 126 := by decide
      exact hall b h
    · rcases List.mem_append.mp h with h2 | h2
      · have := hcnt b h2; omega
      · rcases List.mem_cons.mp h2 with h3 | h3
        · omega
        · rcases List.mem_append.mp h3 with h4 | h4
          · have := hdat b h4; omega
          · rcases List.mem_cons.mp h4 with h5 | h5
            · omega
            · have := hnm b h5; omega
  · rw [head?_append_left _ _ (by decide)]
    decide
  · rw [getLast?_append_right _ _ (by simp), getLast?_append_cons _ _ _ (by simp),
      getLast?_append_cons _ _ _ hnmne]
    intro hcon
    have := hnm 32 (mem_of_getLast? _ 32 hcon)
    omega

theorem vertPropLoop_prop_step (fuel : Nat) (tn nm rest : List Nat)
    (fmts names : List (List Nat))
    (htn : ∀ b ∈ tn, 97 ≤ b ∧ b ≤ 122) (htnne : tn ≠ [])
    (hnm : ∀ b ∈ nm, 95 ≤ b ∧ b ≤ 122) (hnmne : nm ≠ []) :
    vertPropLoop (fuel + 1)
        (lineBytes (strBytes "property " ++ (tn ++ 32 :: nm)) ++ rest) fmts names
      = vertPropLoop fuel rest (fmts ++ [tn]) (names ++ [nm]) := by
  have hnl := nextLine_clean
    ((lineBytes (strBytes "property " ++ (tn ++ 32 :: nm)) ++ rest).length + 1)
    (strBytes "property " ++ (tn ++ 32 :: nm)) rest
    (cleanLine_property tn nm htn hnm hnmne)
    (ne_nil_of_take1 _ 112 rfl)
    (by rw [show (strBytes "property " ++ (tn ++ 32 :: nm)).take 7
        = strBytes "propert" from rfl]; decide)
    (by omega)
  simp only [vertPropLoop, hnl]
  rw [if_pos (show (strBytes "property " ++ (tn ++ 32 :: nm)).take 8
      = strBytes "property" from rfl)]
  rw [matchProperty2_encoded tn nm htnne hnmne (fun b hb => by have := hnm b hb; omega)]

theorem vertPropLoop_stop (fuel : Nat) (l rest : List Nat)
    (fmts names : List (List Nat))
    (hcl : cleanLine l) (hne : l ≠ []) (hnc : ¬ l.take 7 = strBytes "comment")
    (hstop : ¬ l.take 8 = strBytes "property") :
    vertPropLoop (fuel + 1) (lineBytes l ++ rest) fmts names = .ok (fmts, names, l, rest) := by
  have hnl := nextLine_clean ((lineBytes l ++ rest).length + 1) l rest hcl hne hnc (by omega)
  simp only [vertPropLoop, hnl]
  rw [if_neg hstop]

theorem facePropLoop_list_step (fuel : Nat) (cnt dat nm rest : List Nat)
    (names : List (List Nat)) (dtypes : List PropDtype)
    (hcnt : ∀ b ∈ cnt, 48 ≤ b ∧ b ≤ 122) (hcntne : cnt ≠ [])
    (hdat : ∀ b ∈ dat, 48 ≤ b ∧ b ≤ 122) (hdatne : dat ≠ [])
    (hnm : ∀ b ∈ nm, 95 ≤ b ∧ b ≤ 122) (hnmne : nm ≠ []) :
    facePropLoop (fuel + 1)
        (lineBytes (strBytes "property list " ++ (cnt ++ 32 :: (dat ++ 32 :: nm))) ++ rest)
        names dtypes
      = facePropLoop fuel rest (names ++ [nm]) (dtypes ++ [.list cnt dat]) := by
  have hnl := nextLine_clean
    ((lineBytes (strBytes "property list " ++ (cnt ++ 32 :: (dat ++ 32 :: nm))) ++ rest).length + 1)
    (strBytes "property list " ++ (cnt ++ 32 :: (dat ++ 32 :: nm))) rest
    (cleanLine_proplist cnt dat nm hcnt hdat hnm hnmne)
    (ne_nil_of_take1 _ 112 rfl)
    (by rw [show (strBytes "property list " ++ (cnt ++ 32 :: (dat ++ 32 :: nm))).take 7
        = strBytes "propert" from rfl]; decide)
    (by omega)
  simp only [facePropLoop, hnl]
  rw [if_pos (show (strBytes "property list " ++ (cnt ++ 32 :: (dat ++ 32 :: nm))).take 8
      = strBytes "property" from rfl)]
  rw [if_pos (show (strBytes "property list " ++ (cnt ++ 32 :: (dat ++ 32 :: nm))).take 13
      = strBytes "property list" from rfl)]
  rw [matchPropertyList3_encoded cnt dat nm hcntne hdatne hnmne
    (fun b hb => by have := hdat b hb; omega)
    (fun b hb => by have := hnm b hb; omega)]

theorem facePropLoop_stop (fuel : Nat) (l rest : List Nat)
    (names : List (List Nat)) (dtypes : List PropDtype)
    (hcl : cleanLine l) (hne : l ≠ []) (hnc : ¬ l.take 7 = strBytes "comment")
    (hstop : ¬ l.take 8 = strBytes "property") :
    facePropLoop (fuel + 1) (lineBytes l ++ rest) names dtypes = .ok (names, dtypes, l, rest) := by
  have hnl := nextLine_clean ((lineBytes l ++ rest).length + 1) l rest hcl hne hnc (by omega)
  simp only [facePropLoop, hnl]
  rw [if_neg hstop]


theorem reader_header_walk (ar : HeaderAcc → List Nat → Except RErr PMesh)
    (bo : ByteOrder) (nv nc : Nat) (tn pn body : List Nat)
    (htn : ∀ b ∈ tn, 97 ≤ b ∧ b ≤ 122) (htnne : tn ≠ [])
    (hpn : ∀ b ∈ pn, 48 ≤ b ∧ b ≤ 122) (hpnne : pn ≠ []) :
    ply_read_buffer ar
      (lineBytes (strBytes "ply") ++ (lineBytes (strBytes ("format binary_" ++ boName bo ++ "_endian 1.0")) ++ (lineBytes (strBytes plyCommentLine) ++ (lineBytes (strBytes "element vertex " ++ decimalBytes nv) ++ (lineBytes (strBytes "property " ++ (tn ++ 32 :: strBytes "x")) ++ (lineBytes (strBytes "property " ++ (tn ++ 32 :: strBytes "y")) ++ (lineBytes (strBytes "property " ++ (tn ++ 32 :: strBytes "z")) ++ (lineBytes (strBytes "element face " ++ decimalBytes nc) ++ (lineBytes (strBytes "property list " ++ (strBytes "uint8" ++ 32 :: (pn ++ 32 :: strBytes "vertex_indices"))) ++ (lineBytes (strBytes "end_header") ++ (body)))))))))))
      = read_binary bo [strBytes "x", strBytes "y", strBytes "z"] [tn, tn, tn] nv nc
          [strBytes "vertex_indices"] [PropDtype.list (strBytes "uint8") pn] body := by
  have hVP : ∀ fuel, 3 ≤ fuel → vertPropLoop (fuel + 1)
      (lineBytes (strBytes "property " ++ (tn ++ 32 :: strBytes "x")) ++ (lineBytes (strBytes "property " ++ (tn ++ 32 :: strBytes "y")) ++ (lineBytes (strBytes "property " ++ (tn ++ 32 :: strBytes "z")) ++ (lineBytes (strBytes "element face " ++ decimalBytes nc) ++ (lineBytes (strBytes "property list " ++ (strBytes "uint8" ++ 32 :: (pn ++ 32 :: strBytes "vertex_indices"))) ++ (lineBytes (strBytes "end_header") ++ (body))))))) [] []
      = .ok ([tn, tn, tn], [strBytes "x", strBytes "y", strBytes "z"],
          strBytes "element face " ++ decimalBytes nc, lineBytes (strBytes "property list " ++ (strBytes "uint8" ++ 32 :: (pn ++ 32 :: strBytes "vertex_indices"))) ++ (lineBytes (strBytes "end_header") ++ (body))) := by
    intro fuel hf
    obtain ⟨g, rfl⟩ : ∃ g, fuel = g + 3 := ⟨fuel - 3, by omega⟩
    rw [show g + 3 + 1 = (g + 3) + 1 from rfl]
    rw [vertPropLoop_prop_step (g + 3) tn (strBytes "x") _ [] [] htn htnne
      (by decide) (by decide)]
    rw [show g + 3 = (g + 2) + 1 from rfl]
    rw [vertPropLoop_prop_step (g + 2) tn (strBytes "y") _ _ _ htn htnne
      (by decide) (by decide)]
    rw [show g + 2 = (g + 1) + 1 from rfl]
    rw [vertPropLoop_prop_step (g + 1) tn (strBytes "z") _ _ _ htn htnne
      (by decide) (by decide)]
    rw [vertPropLoop_stop g (strBytes "element face " ++ decimalBytes nc) _ _ _
      (cleanLine_pre_decimal "element face " nc (by decide) (by decide) (by decide))
      (ne_nil_of_take1 _ 101 rfl)
      (by rw [show (strBytes "element face " ++ decimalBytes nc).take 7 = strBytes "element" from rfl]; decide)
      (by rw [show (strBytes "element face " ++ decimalBytes nc).take 8 = strBytes "element " from rfl]; decide)]
    rfl
  have hFP : ∀ fuel, 1 ≤ fuel → facePropLoop (fuel + 1)
      (lineBytes (strBytes "property list " ++ (strBytes "uint8" ++ 32 :: (pn ++ 32 :: strBytes "vertex_indices"))) ++ (lineBytes (strBytes "end_header") ++ (body))) [] []
      = .ok ([strBytes "vertex_indices"], [PropDtype.list (strBytes "uint8") pn],
          strBytes "end_header", body) := by
    intro fuel hf
    obtain ⟨g, rfl⟩ : ∃ g, fuel = g + 1 := ⟨fuel - 1, by omega⟩
    rw [show g + 1 + 1 = (g + 1) + 1 from rfl]
    rw [facePropLoop_list_step (g + 1) (strBytes "uint8") pn (strBytes "vertex_indices")
      _ [] [] (by decide) (by decide) hpn hpnne (by decide) (by decide)]
    rw [facePropLoop_stop g (strBytes "end_header") body _ _
      (by decide) (by decide) (by decide) (by decide)]
    rfl
  have hL3a : ¬ (strBytes "element vertex " ++ decimalBytes nv = strBytes "end_header") := by
    intro hcon
    have h2 := congrArg (List.take 8) hcon
    rw [show (strBytes "element vertex " ++ decimalBytes nv).take 8 = strBytes "element " from rfl] at h2
    exact absurd h2 (by decide)
  have hL3b : ¬ ((strBytes "element vertex " ++ decimalBytes nv).take 8 = strBytes "obj_info") := by
    rw [show (strBytes "element vertex " ++ decimalBytes nv).take 8 = strBytes "element " from rfl]
    decide
  have hL7a : ¬ (strBytes "element face " ++ decimalBytes nc = strBytes "end_header") := by
    intro hcon
    have h2 := congrArg (List.take 8) hcon
    rw [show (strBytes "element face " ++ decimalBytes nc).take 8 = strBytes "element " from rfl] at h2
    exact absurd h2 (by decide)
  have hL7b : ¬ ((strBytes "element face " ++ decimalBytes nc).take 8 = strBytes "obj_info") := by
    rw [show (strBytes "element face " ++ decimalBytes nc).take 8 = strBytes "element " from rfl]
    decide
  have hL7c : matchElementCount "element vertex " (strBytes "element face " ++ decimalBytes nc) = none := by
    apply matchElementCount_none
    intro hcon
    have h2 := congrArg (List.take 9) hcon
    rw [List.take_take] at h2
    rw [show min 9 (strBytes "element vertex ").length = 9 from rfl] at h2
    rw [show (strBytes "element face " ++ decimalBytes nc).take 9 = strBytes "element f" from rfl] at h2
    exact absurd h2 (by decide)
  have hb3 : 3 ≤ (lineBytes (strBytes "property " ++ (tn ++ 32 :: strBytes "x")) ++ (lineBytes (strBytes "property " ++ (tn ++ 32 :: strBytes "y")) ++ (lineBytes (strBytes "property " ++ (tn ++ 32 :: strBytes "z")) ++ (lineBytes (strBytes "element face " ++ decimalBytes nc) ++ (lineBytes (strBytes "property list " ++ (strBytes "uint8" ++ 32 :: (pn ++ 32 :: strBytes "vertex_indices"))) ++ (lineBytes (strBytes "end_header") ++ (body))))))).length := by
    simp only [lineBytes, List.length_append, List.length_cons, List.length_nil]
    omega
  have hb7 : 1 ≤ (lineBytes (strBytes "property list " ++ (strBytes "uint8" ++ 32 :: (pn ++ 32 :: strBytes "vertex_indices"))) ++ (lineBytes (strBytes "end_header") ++ (body))).length := by
    simp only [lineBytes, List.length_append, List.length_cons, List.length_nil]
    omega
  have hHL : ∀ fuel, 2 ≤ fuel → headerLoop (fuel + 1)
      (lineBytes (strBytes "property " ++ (tn ++ 32 :: strBytes "x")) ++ (lineBytes (strBytes "property " ++ (tn ++ 32 :: strBytes "y")) ++ (lineBytes (strBytes "property " ++ (tn ++ 32 :: strBytes "z")) ++ (lineBytes (strBytes "element face " ++ decimalBytes nc) ++ (lineBytes (strBytes "property list " ++ (strBytes "uint8" ++ 32 :: (pn ++ 32 :: strBytes "vertex_indices"))) ++ (lineBytes (strBytes "end_header") ++ (body))))))) (strBytes "element vertex " ++ decimalBytes nv) ⟨0, 0, [], [], [], []⟩
      = .ok (⟨nv, nc, [strBytes "x", strBytes "y", strBytes "z"], [tn, tn, tn], [strBytes "vertex_indices"], [PropDtype.list (strBytes "uint8") pn]⟩, body) := by
    intro fuel hf
    obtain ⟨g, rfl⟩ : ∃ g, fuel = g + 2 := ⟨fuel - 2, by omega⟩
    have step1 : headerLoop (g + 2 + 1) (lineBytes (strBytes "property " ++ (tn ++ 32 :: strBytes "x")) ++ (lineBytes (strBytes "property " ++ (tn ++ 32 :: strBytes "y")) ++ (lineBytes (strBytes "property " ++ (tn ++ 32 :: strBytes "z")) ++ (lineBytes (strBytes "element face " ++ decimalBytes nc) ++ (lineBytes (strBytes "property list " ++ (strBytes "uint8" ++ 32 :: (pn ++ 32 :: strBytes "vertex_indices"))) ++ (lineBytes (strBytes "end_header") ++ (body))))))) (strBytes "element vertex " ++ decimalBytes nv) ⟨0, 0, [], [], [], []⟩
        = headerLoop (g + 2) (lineBytes (strBytes "property list " ++ (strBytes "uint8" ++ 32 :: (pn ++ 32 :: strBytes "vertex_indices"))) ++ (lineBytes (strBytes "end_header") ++ (body))) (strBytes "element face " ++ decimalBytes nc) (⟨nv, 0, [strBytes "x", strBytes "y", strBytes "z"], [tn, tn, tn], [], []⟩) := by
      simp only [headerLoop]
      rw [if_neg hL3a, if_neg hL3b, matchElementCount_encoded "element vertex " nv,
        hVP _ hb3]
    have step2 : headerLoop (g + 2) (lineBytes (strBytes "property list " ++ (strBytes "uint8" ++ 32 :: (pn ++ 32 :: strBytes "vertex_indices"))) ++ (lineBytes (strBytes "end_header") ++ (body))) (strBytes "element face " ++ decimalBytes nc) (⟨nv, 0, [strBytes "x", strBytes "y", strBytes "z"], [tn, tn, tn], [], []⟩)
        = headerLoop (g + 1) body (strBytes "end_header") (⟨nv, nc, [strBytes "x", strBytes "y", strBytes "z"], [tn, tn, tn], [strBytes "vertex_indices"], [PropDtype.list (strBytes "uint8") pn]⟩) := by
      rw [show g + 2 = (g + 1) + 1 from rfl]
      simp only [headerLoop]
      rw [if_neg hL7a, if_neg hL7b, hL7c, matchElementCount_encoded "element face " nc,
        hFP _ hb7]
      rfl
    have step3 : headerLoop (g + 1) body (strBytes "end_header") (⟨nv, nc, [strBytes "x", strBytes "y", strBytes "z"], [tn, tn, tn], [strBytes "vertex_indices"], [PropDtype.list (strBytes "uint8") pn]⟩)
        = .ok (⟨nv, nc, [strBytes "x", strBytes "y", strBytes "z"], [tn, tn, tn], [strBytes "vertex_indices"], [PropDtype.list (strBytes "uint8") pn]⟩, body) := by
      simp only [headerLoop]
      rw [if_pos trivial]
    exact step1.trans (step2.trans step3)
  have hn1 : nextLine ((lineBytes (strBytes ("format binary_" ++ boName bo ++ "_endian 1.0")) ++ (lineBytes (strBytes plyCommentLine) ++ (lineBytes (strBytes "element vertex " ++ decimalBytes nv) ++ (lineBytes (strBytes "property " ++ (tn ++ 32 :: strBytes "x")) ++ (lineBytes (strBytes "property " ++ (tn ++ 32 :: strBytes "y")) ++ (lineBytes (strBytes "property " ++ (tn ++ 32 :: strBytes "z")) ++ (lineBytes (strBytes "element face " ++ decimalBytes nc) ++ (lineBytes (strBytes "property list " ++ (strBytes "uint8" ++ 32 :: (pn ++ 32 :: strBytes "vertex_indices"))) ++ (lineBytes (strBytes "end_header") ++ (body)))))))))).length + 1) (lineBytes (strBytes ("format binary_" ++ boName bo ++ "_endian 1.0")) ++ (lineBytes (strBytes plyCommentLine) ++ (lineBytes (strBytes "element vertex " ++ decimalBytes nv) ++ (lineBytes (strBytes "property " ++ (tn ++ 32 :: strBytes "x")) ++ (lineBytes (strBytes "property " ++ (tn ++ 32 :: strBytes "y")) ++ (lineBytes (strBytes "property " ++ (tn ++ 32 :: strBytes "z")) ++ (lineBytes (strBytes "element face " ++ decimalBytes nc) ++ (lineBytes (strBytes "property list " ++ (strBytes "uint8" ++ 32 :: (pn ++ 32 :: strBytes "vertex_indices"))) ++ (lineBytes (strBytes "end_header") ++ (body))))))))))
      = some (strBytes ("format binary_" ++ boName bo ++ "_endian 1.0"), lineBytes (strBytes plyCommentLine) ++ (lineBytes (strBytes "element vertex " ++ decimalBytes nv) ++ (lineBytes (strBytes "property " ++ (tn ++ 32 :: strBytes "x")) ++ (lineBytes (strBytes "property " ++ (tn ++ 32 :: strBytes "y")) ++ (lineBytes (strBytes "property " ++ (tn ++ 32 :: strBytes "z")) ++ (lineBytes (strBytes "element face " ++ decimalBytes nc) ++ (lineBytes (strBytes "property list " ++ (strBytes "uint8" ++ 32 :: (pn ++ 32 :: strBytes "vertex_indices"))) ++ (lineBytes (strBytes "end_header") ++ (body))))))))) :=
    nextLine_clean _ _ _ (by cases bo <;> decide) (by cases bo <;> decide)
      (by cases bo <;> decide) (by omega)
  have hb1 : 0 < (lineBytes (strBytes plyCommentLine) ++ (lineBytes (strBytes "element vertex " ++ decimalBytes nv) ++ (lineBytes (strBytes "property " ++ (tn ++ 32 :: strBytes "x")) ++ (lineBytes (strBytes "property " ++ (tn ++ 32 :: strBytes "y")) ++ (lineBytes (strBytes "property " ++ (tn ++ 32 :: strBytes "z")) ++ (lineBytes (strBytes "element face " ++ decimalBytes nc) ++ (lineBytes (strBytes "property list " ++ (strBytes "uint8" ++ 32 :: (pn ++ 32 :: strBytes "vertex_indices"))) ++ (lineBytes (strBytes "end_header") ++ (body))))))))).length := by
    simp only [lineBytes, List.length_append, List.length_cons, List.length_nil]
    omega
  have hn2 : nextLine ((lineBytes (strBytes plyCommentLine) ++ (lineBytes (strBytes "element vertex " ++ decimalBytes nv) ++ (lineBytes (strBytes "property " ++ (tn ++ 32 :: strBytes "x")) ++ (lineBytes (strBytes "property " ++ (tn ++ 32 :: strBytes "y")) ++ (lineBytes (strBytes "property " ++ (tn ++ 32 :: strBytes "z")) ++ (lineBytes (strBytes "element face " ++ decimalBytes nc) ++ (lineBytes (strBytes "property list " ++ (strBytes "uint8" ++ 32 :: (pn ++ 32 :: strBytes "vertex_indices"))) ++ (lineBytes (strBytes "end_header") ++ (body))))))))).length + 1) (lineBytes (strBytes plyCommentLine) ++ (lineBytes (strBytes "element vertex " ++ decimalBytes nv) ++ (lineBytes (strBytes "property " ++ (tn ++ 32 :: strBytes "x")) ++ (lineBytes (strBytes "property " ++ (tn ++ 32 :: strBytes "y")) ++ (lineBytes (strBytes "property " ++ (tn ++ 32 :: strBytes "z")) ++ (lineBytes (strBytes "element face " ++ decimalBytes nc) ++ (lineBytes (strBytes "property list " ++ (strBytes "uint8" ++ 32 :: (pn ++ 32 :: strBytes "vertex_indices"))) ++ (lineBytes (strBytes "end_header") ++ (body)))))))))
      = some (strBytes "element vertex " ++ decimalBytes nv, lineBytes (strBytes "property " ++ (tn ++ 32 :: strBytes "x")) ++ (lineBytes (strBytes "property " ++ (tn ++ 32 :: strBytes "y")) ++ (lineBytes (strBytes "property " ++ (tn ++ 32 :: strBytes "z")) ++ (lineBytes (strBytes "element face " ++ decimalBytes nc) ++ (lineBytes (strBytes "property list " ++ (strBytes "uint8" ++ 32 :: (pn ++ 32 :: strBytes "vertex_indices"))) ++ (lineBytes (strBytes "end_header") ++ (body))))))) := by
    rw [nextLine_skip ((lineBytes (strBytes plyCommentLine) ++ (lineBytes (strBytes "element vertex " ++ decimalBytes nv) ++ (lineBytes (strBytes "property " ++ (tn ++ 32 :: strBytes "x")) ++ (lineBytes (strBytes "property " ++ (tn ++ 32 :: strBytes "y")) ++ (lineBytes (strBytes "property " ++ (tn ++ 32 :: strBytes "z")) ++ (lineBytes (strBytes "element face " ++ decimalBytes nc) ++ (lineBytes (strBytes "property list " ++ (strBytes "uint8" ++ 32 :: (pn ++ 32 :: strBytes "vertex_indices"))) ++ (lineBytes (strBytes "end_header") ++ (body))))))))).length) (strBytes plyCommentLine) _ (by decide) (by decide)
      (Or.inr (by decide))]
    exact nextLine_clean _ _ _
      (cleanLine_pre_decimal "element vertex " nv (by decide) (by decide) (by decide))
      (ne_nil_of_take1 _ 101 rfl)
      (by rw [show (strBytes "element vertex " ++ decimalBytes nv).take 7 = strBytes "element" from rfl]; decide)
      hb1
  have hbH : 2 ≤ (lineBytes (strBytes "property " ++ (tn ++ 32 :: strBytes "x")) ++ (lineBytes (strBytes "property " ++ (tn ++ 32 :: strBytes "y")) ++ (lineBytes (strBytes "property " ++ (tn ++ 32 :: strBytes "z")) ++ (lineBytes (strBytes "element face " ++ decimalBytes nc) ++ (lineBytes (strBytes "property list " ++ (strBytes "uint8" ++ 32 :: (pn ++ 32 :: strBytes "vertex_indices"))) ++ (lineBytes (strBytes "end_header") ++ (body))))))).length := by
    simp only [lineBytes, List.length_append, List.length_cons, List.length_nil]
    omega
  have hdispatch : (if (strBytes ("format binary_" ++ boName bo ++ "_endian 1.0")) = strBytes "format ascii 1.0"
        then (Except.ok none : Except RErr (Option ByteOrder))
      else if (strBytes ("format binary_" ++ boName bo ++ "_endian 1.0")) = strBytes "format binary_big_endian 1.0"
        then Except.ok (some ByteOrder.big)
      else if (strBytes ("format binary_" ++ boName bo ++ "_endian 1.0")) = strBytes "format binary_little_endian 1.0"
        then Except.ok (some ByteOrder.little)
      else Except.error RErr.badFormatLine) = Except.ok (some bo) := by
    cases bo <;> rfl
  simp only [ply_read_buffer]
  rw [readLine_cons (strBytes "ply") _ (by decide) (by decide)]
  simp only [hn1, hdispatch, hn2, hHL _ hbH]
  rw [if_neg (fun hcon => hcon rfl)]

theorem list_len3 {α : Type} (l : List α) (h : l.length = 3) : ∃ a b c, l = [a, b, c] := by
  match l, h with
  | [a, b, c], _ => exact ⟨a, b, c, rfl⟩

theorem decode_point_record (bo : ByteOrder) (pdt : NpDtype) (a b c : Nat)
    (ha : a < 256 ^ pdt.itemsize) (hb : b < 256 ^ pdt.itemsize)
    (hc : c < 256 ^ pdt.itemsize) :
    [fieldValue bo (splitFields ([strBytes "x", strBytes "y", strBytes "z"].zip [pdt, pdt, pdt])
        (([a, b, c].map (encUnsigned bo pdt.itemsize)).flatten)) (strBytes "x"),
     fieldValue bo (splitFields ([strBytes "x", strBytes "y", strBytes "z"].zip [pdt, pdt, pdt])
        (([a, b, c].map (encUnsigned bo pdt.itemsize)).flatten)) (strBytes "y"),
     fieldValue bo (splitFields ([strBytes "x", strBytes "y", strBytes "z"].zip [pdt, pdt, pdt])
        (([a, b, c].map (encUnsigned bo pdt.itemsize)).flatten)) (strBytes "z")]
      = [a, b, c] := by
  rw [show [strBytes "x", strBytes "y", strBytes "z"].zip [pdt, pdt, pdt]
    = [(strBytes "x", pdt), (strBytes "y", pdt), (strBytes "z", pdt)] from rfl]
  rw [show ([a, b, c].map (encUnsigned bo pdt.itemsize)).flatten
    = encUnsigned bo pdt.itemsize a ++ (encUnsigned bo pdt.itemsize b
        ++ (encUnsigned bo pdt.itemsize c ++ [])) from by simp]
  simp only [splitFields]
  rw [List.take_left' (encUnsigned_length bo pdt.itemsize a),
    List.drop_left' (encUnsigned_length bo pdt.itemsize a),
    List.take_left' (encUnsigned_length bo pdt.itemsize b),
    List.drop_left' (encUnsigned_length bo pdt.itemsize b)]
  have h3t : List.take pdt.itemsize (encUnsigned bo pdt.itemsize c ++ [])
      = encUnsigned bo pdt.itemsize c := by
    rw [List.append_nil]
    exact List.take_of_length_le (le_of_eq (encUnsigned_length bo pdt.itemsize c))
  rw [h3t]
  simp only [fieldValue, List.lookup]
  simp only [show (strBytes "x" == strBytes "x") = true from rfl,
    show (strBytes "y" == strBytes "x") = false from rfl,
    show (strBytes "y" == strBytes "y") = true from rfl,
    show (strBytes "z" == strBytes "x") = false from rfl,
    show (strBytes "z" == strBytes "y") = false from rfl,
    show (strBytes "z" == strBytes "z") = true from rfl]
  rw [decodeUnsigned_enc_of_lt bo _ a ha, decodeUnsigned_enc_of_lt bo _ b hb,
    decodeUnsigned_enc_of_lt bo _ c hc]

theorem points_decode (bo : ByteOrder) (pdt : NpDtype) :
    ∀ ps : List (List Nat), (∀ row ∈ ps, row.length = 3) →
    (∀ row ∈ ps, ∀ v ∈ row, v < 256 ^ pdt.itemsize) →
    ((ps.map (fun row => (row.map (encUnsigned bo pdt.itemsize)).flatten)).map
        (fun rec => [fieldValue bo (splitFields
            ([strBytes "x", strBytes "y", strBytes "z"].zip [pdt, pdt, pdt]) rec) (strBytes "x"),
          fieldValue bo (splitFields
            ([strBytes "x", strBytes "y", strBytes "z"].zip [pdt, pdt, pdt]) rec) (strBytes "y"),
          fieldValue bo (splitFields
            ([strBytes "x", strBytes "y", strBytes "z"].zip [pdt, pdt, pdt]) rec) (strBytes "z")]))
      = ps := by
  intro ps
  induction ps with
  | nil => intro _ _; rfl
  | cons row t ih =>
    intro h3 hv
    obtain ⟨a, b, c, rfl⟩ := list_len3 row (h3 row (by simp))
    simp only [List.map_cons]
    congr 1
    · exact decode_point_record bo pdt a b c
        (hv [a, b, c] (by simp) a (by simp)) (hv [a, b, c] (by simp) b (by simp))
        (hv [a, b, c] (by simp) c (by simp))
    · exact ih (fun x hx => h3 x (by simp [hx])) (fun x hx v hvv => hv x (by simp [hx]) v hvv)

theorem runWidth_rows (b : PCellBlock) (hne : b.rows ≠ [])
    (hrect : ∀ r ∈ b.rows, r.length = b.width) : runWidth b.rows = b.width := by
  cases hrows : b.rows with
  | nil => exact absurd hrows hne
  | cons r0 t =>
    unfold runWidth
    exact hrect r0 (by rw [hrows]; simp)

theorem chain_runWidth : ∀ l : List PCellBlock, (∀ b ∈ l, b.rows ≠ []) →
    (∀ b ∈ l, ∀ r ∈ b.rows, r.length = b.width) →
    l.Chain' (fun a b => a.width ≠ b.width) →
    (l.map PCellBlock.rows).Chain' (fun a b => runWidth a ≠ runWidth b) := by
  intro l
  induction l with
  | nil => intro _ _ _; simp
  | cons b t ih =>
    intro hne hrect hch
    cases t with
    | nil => simp
    | cons b2 t2 =>
      rw [List.map_cons, List.map_cons, List.chain'_cons]
      rw [List.chain'_cons] at hch
      constructor
      · rw [runWidth_rows b (hne b (by simp)) (hrect b (by simp)),
          runWidth_rows b2 (hne b2 (by simp)) (hrect b2 (by simp))]
        exact hch.1
      · have := ih (fun x hx => hne x (by simp [hx]))
          (fun x hx => hrect x (by simp [hx])) hch.2
        rw [List.map_cons] at this
        exact this

theorem read_binary_walk (bo : ByteOrder) (pdt : NpDtype)
    (hpdtF : pdt = .f32 ∨ pdt = .f64)
    (points : List (List Nat))
    (hpts : ∀ row ∈ points, row.length = 3)
    (hptv : ∀ row ∈ points, ∀ v ∈ row, v < 256 ^ pdt.itemsize)
    (d : NpDtype) (hd16 : d ≠ .i16)
    (cells2 : List PCellBlock) (nc : Nat)
    (hnc : nc = (cells2.map (fun b => b.rows.length)).sum)
    (hne2 : ∀ b ∈ cells2, b.rows ≠ [])
    (hrect2 : ∀ b ∈ cells2, ∀ r ∈ b.rows, r.length = b.width)
    (htag2 : ∀ b ∈ cells2, b.tag = cell_type_from_count b.width)
    (hwlt2 : ∀ b ∈ cells2, b.width < 256)
    (hchain2 : cells2.Chain' (fun a b => a.width ≠ b.width))
    (hd2 : ∀ b ∈ cells2, b.dtype = d)
    (hval2 : ∀ b ∈ cells2, ∀ r ∈ b.rows, ∀ v ∈ r, v < 256 ^ d.itemsize) :
    read_binary bo [strBytes "x", strBytes "y", strBytes "z"]
        [strBytes (typeName pdt), strBytes (typeName pdt), strBytes (typeName pdt)]
        points.length nc [strBytes "vertex_indices"]
        [PropDtype.list (strBytes "uint8") (strBytes (plyTypeName d))]
        ((points.map (fun row => (row.map (encUnsigned bo pdt.itemsize)).flatten)).flatten
          ++ (cells2.map (blockBinaryBytes bo)).flatten)
      = .ok ⟨pdt, 3, points, [], cells2⟩ := by
  have hresolve : resolveDtypes [strBytes (typeName pdt), strBytes (typeName pdt),
      strBytes (typeName pdt)] = .ok [pdt, pdt, pdt] := by
    simp only [resolveDtypes, lookupDtypeString_typeName pdt hpdtF]
  have hchunks : ∀ c ∈ points.map (fun row => (row.map (encUnsigned bo pdt.itemsize)).flatten),
      c.length = pdt.itemsize + (pdt.itemsize + (pdt.itemsize + 0)) := by
    intro c hc2
    obtain ⟨row, hrow, rfl⟩ := List.mem_map.mp hc2
    obtain ⟨a, b, c2, rfl⟩ := list_len3 row (hpts row hrow)
    simp [encUnsigned_length]
  have hptsLen : ((points.map (fun row =>
      (row.map (encUnsigned bo pdt.itemsize)).flatten)).flatten).length
      = points.length * (pdt.itemsize + (pdt.itemsize + (pdt.itemsize + 0))) := by
    rw [flatten_length_const _ _ hchunks, List.length_map]
  have hpos : 0 < pdt.itemsize + (pdt.itemsize + (pdt.itemsize + 0)) := by
    have := pdt.itemsize_pos
    omega
  have hchunkEq : chunkList (pdt.itemsize + (pdt.itemsize + (pdt.itemsize + 0)))
      ((points.map (fun row => (row.map (encUnsigned bo pdt.itemsize)).flatten)).flatten)
      = points.map (fun row => (row.map (encUnsigned bo pdt.itemsize)).flatten) :=
    chunkList_flatten _ hpos _ hchunks
  have hflat : (cells2.map (blockBinaryBytes bo)).flatten
      = encodeRows bo 1 d.itemsize (cells2.map PCellBlock.rows).flatten :=
    cellsBody_encodeRows bo d cells2 hd2 hrect2
  have hlen256 : ∀ r ∈ (cells2.map PCellBlock.rows).flatten,
      r.length < 256 ^ NpDtype.u8.itemsize := by
    intro r hr
    obtain ⟨rows, hrowsmem, hrin⟩ := List.mem_flatten.mp hr
    obtain ⟨b, hb, rfl⟩ := List.mem_map.mp hrowsmem
    rw [hrect2 b hb r hrin]
    have := hwlt2 b hb
    simpa using this
  have hruns := read_binary_list_runs bo .u8 d (cells2.map PCellBlock.rows) []
    (by intro run hrun
        obtain ⟨b, hb, rfl⟩ := List.mem_map.mp hrun
        exact hne2 b hb)
    (by intro run hrun r hrin
        obtain ⟨b, hb, rfl⟩ := List.mem_map.mp hrun
        rw [runWidth_rows b (hne2 b hb) (hrect2 b hb)]
        exact hrect2 b hb r hrin)
    (chain_runWidth cells2 hne2 hrect2 hchain2)
    hlen256
    (by intro run hrun r hrin v hv
        obtain ⟨b, hb, rfl⟩ := List.mem_map.mp hrun
        exact hval2 b hb r hrin v hv)
  rw [List.append_nil] at hruns
  rw [show NpDtype.u8.itemsize = 1 from rfl] at hruns
  rw [← hflat] at hruns
  have hcount : (cells2.map PCellBlock.rows).flatten.length = nc := by
    rw [List.length_flatten, List.map_map, hnc]
    rfl
  rw [hcount] at hruns
  have hblocks : (cells2.map PCellBlock.rows).map (fun run =>
      (⟨cell_type_from_count (runWidth run), d, runWidth run, run⟩ : PCellBlock)) = cells2 := by
    rw [List.map_map]
    have hpt : ∀ b ∈ cells2, (⟨cell_type_from_count (runWidth b.rows), d,
        runWidth b.rows, b.rows⟩ : PCellBlock) = b := by
      intro b hb
      have hw := runWidth_rows b (hne2 b hb) (hrect2 b hb)
      rw [hw, ← htag2 b hb, ← hd2 b hb]
    calc (cells2.map (fun b => (⟨cell_type_from_count (runWidth b.rows), d,
          runWidth b.rows, b.rows⟩ : PCellBlock)))
        = cells2.map (fun b => b) := List.map_congr_left hpt
      _ = cells2 := List.map_id' cells2
  rw [hblocks] at hruns
  have hloop : readCellLoop bo nc ((cells2.map (blockBinaryBytes bo)).flatten)
      [(strBytes "vertex_indices", PropDtype.list (strBytes "uint8")
        (strBytes (plyTypeName d)))] 0
      = .ok [(strBytes "vertex_indices", .blocks cells2)] := by
    simp only [readCellLoop, lookupDtypeString_plyTypeName d hd16,
      show lookupDtypeString (strBytes "uint8") = some NpDtype.u8 from rfl, List.drop_zero]
    rw [hruns]
  simp only [read_binary, hresolve]
  simp only [List.map_cons, List.map_nil, List.sum_cons, List.sum_nil]
  rw [List.take_left' hptsLen, List.drop_left' hptsLen]
  rw [hchunkEq]
  rw [if_neg (by decide)]
  rw [List.map_map]
  have hverts : List.map ((fun rf => [fieldValue bo rf (strBytes "x"),
      fieldValue bo rf (strBytes "y"), fieldValue bo rf (strBytes "z")])
      ∘ splitFields ([strBytes "x", strBytes "y", strBytes "z"].zip [pdt, pdt, pdt]))
      (List.map (fun row => (List.map (encUnsigned bo pdt.itemsize) row).flatten) points)
      = points := points_decode bo pdt points hpts hptv
  rw [hverts]
  rw [show [strBytes "vertex_indices"].zip [PropDtype.list (strBytes "uint8")
    (strBytes (plyTypeName d))] = [(strBytes "vertex_indices", PropDtype.list (strBytes "uint8")
    (strBytes (plyTypeName d)))] from rfl]
  rw [hloop]
  rfl

theorem narrowBlock_width (b : PCellBlock) : (narrowBlock b).width = b.width := by
  unfold narrowBlock
  by_cases h : b.dtype = .i64 <;> simp [h]

theorem narrowBlock_rows_length (b : PCellBlock) :
    (narrowBlock b).rows.length = b.rows.length := by
  unfold narrowBlock
  by_cases h : b.dtype = .i64 <;> simp [h]

theorem narrowBlock_rows_ne (b : PCellBlock) (hb : b.rows ≠ []) :
    (narrowBlock b).rows ≠ [] := by
  intro hcon
  have := congrArg List.length hcon
  rw [narrowBlock_rows_length] at this
  exact hb (List.length_eq_zero.mp (by simpa using this))

theorem narrowBlock_rect (b : PCellBlock) (h : ∀ r ∈ b.rows, r.length = b.width) :
    ∀ r ∈ (narrowBlock b).rows, r.length = (narrowBlock b).width := by
  intro r hr
  rw [narrowBlock_width]
  unfold narrowBlock at hr
  by_cases h64 : b.dtype = .i64
  · rw [if_pos h64] at hr
    simp only at hr
    obtain ⟨r0, hr0, rfl⟩ := List.mem_map.mp hr
    rw [List.length_map]
    exact h r0 hr0
  · rw [if_neg h64] at hr
    exact h r hr

theorem reader_on_writer_output (ar : HeaderAcc → List Nat → Except RErr PMesh)
    (bo : ByteOrder) (nv nc : Nat) (pdt d : NpDtype)
    (hpdtF : pdt = .f32 ∨ pdt = .f64) (body : List Nat) :
    ply_read_buffer ar (expectedHeader bo pdt nv nc d ++ body)
      = read_binary bo [strBytes "x", strBytes "y", strBytes "z"]
          [strBytes (typeName pdt), strBytes (typeName pdt), strBytes (typeName pdt)] nv nc
          [strBytes "vertex_indices"]
          [PropDtype.list (strBytes "uint8") (strBytes (plyTypeName d))] body := by
  have e4 : strBytes ("property " ++ typeName pdt ++ " " ++ "x")
      = strBytes "property " ++ (strBytes (typeName pdt) ++ 32 :: strBytes "x") := by
    rcases hpdtF with rfl | rfl <;> rfl
  have e5 : strBytes ("property " ++ typeName pdt ++ " " ++ "y")
      = strBytes "property " ++ (strBytes (typeName pdt) ++ 32 :: strBytes "y") := by
    rcases hpdtF with rfl | rfl <;> rfl
  have e6 : strBytes ("property " ++ typeName pdt ++ " " ++ "z")
      = strBytes "property " ++ (strBytes (typeName pdt) ++ 32 :: strBytes "z") := by
    rcases hpdtF with rfl | rfl <;> rfl
  have e8 : strBytes ("property list uint8 " ++ plyTypeName d ++ " vertex_indices")
      = strBytes "property list " ++ (strBytes "uint8"
          ++ 32 :: (strBytes (plyTypeName d) ++ 32 :: strBytes "vertex_indices")) := by
    cases d <;> rfl
  have h : expectedHeader bo pdt nv nc d ++ body
      = lineBytes (strBytes "ply") ++ (lineBytes (strBytes ("format binary_" ++ boName bo ++ "_endian 1.0")) ++ (lineBytes (strBytes plyCommentLine) ++ (lineBytes (strBytes "element vertex " ++ decimalBytes nv) ++ (lineBytes (strBytes "property " ++ (strBytes (typeName pdt) ++ 32 :: strBytes "x")) ++ (lineBytes (strBytes "property " ++ (strBytes (typeName pdt) ++ 32 :: strBytes "y")) ++ (lineBytes (strBytes "property " ++ (strBytes (typeName pdt) ++ 32 :: strBytes "z")) ++ (lineBytes (strBytes "element face " ++ decimalBytes nc) ++ (lineBytes (strBytes "property list " ++ (strBytes "uint8" ++ 32 :: (strBytes (plyTypeName d) ++ 32 :: strBytes "vertex_indices"))) ++ (lineBytes (strBytes "end_header") ++ (body)))))))))) := by
    simp only [expectedHeader, List.map_cons, List.map_nil, List.flatten_cons,
      List.flatten_nil, List.append_nil, List.append_assoc, e4, e5, e6, e8]
  rw [h]
  exact reader_header_walk ar bo nv nc (strBytes (typeName pdt)) (strBytes (plyTypeName d)) body
    (by rcases hpdtF with rfl | rfl <;> decide) (by rcases hpdtF with rfl | rfl <;> decide)
    (by cases d <;> decide) (by cases d <;> decide)

theorem ply_binary_roundtrip (bo : ByteOrder) (ffmt : NpDtype → Nat → String)
    (ar : HeaderAcc → List Nat → Except RErr PMesh) (mesh : PMesh) (d : NpDtype)
    (hdim : mesh.pointsDim = 3)
    (hpdt : mesh.pointsDtype = .f32 ∨ mesh.pointsDtype = .f64)
    (hpts : ∀ row ∈ mesh.points, row.length = 3)
    (hptv : ∀ row ∈ mesh.points, ∀ v ∈ row, v < 256 ^ mesh.pointsDtype.itemsize)
    (hpd : mesh.point_data = [])
    (hcne : mesh.cells ≠ [])
    (hbne : ∀ b ∈ mesh.cells, b.rows ≠ [])
    (hrect : ∀ b ∈ mesh.cells, ∀ r ∈ b.rows, r.length = b.width)
    (htag : ∀ b ∈ mesh.cells, b.tag = cell_type_from_count b.width)
    (hwpos : ∀ b ∈ mesh.cells, 0 < b.width)
    (hwlt : ∀ b ∈ mesh.cells, b.width < 256)
    (hchain : mesh.cells.Chain' (fun a b => a.width ≠ b.width))
    (hd : ∀ b ∈ mesh.cells, (narrowBlock b).dtype = d)
    (hd16 : d ≠ .i16)
    (hval : ∀ b ∈ mesh.cells, b.dtype ≠ .i64 →
      ∀ r ∈ b.rows, ∀ v ∈ r, v < 256 ^ b.dtype.itemsize) :
    ∃ out,
      ply_write bo ffmt mesh true = .ok (out, mesh.cells.map narrowBlock,
        if mesh.cells.any (fun b => b.dtype = .i64) then [Warning.castDown] else [])
      ∧ ply_read_buffer ar out
          = .ok ⟨mesh.pointsDtype, 3, mesh.points, [], mesh.cells.map narrowBlock⟩ := by
  refine ⟨expectedHeader bo mesh.pointsDtype mesh.points.length (writeNumCells mesh.cells) d
      ++ (binaryPointsBytes bo mesh.pointsDtype mesh.points []
        ++ ((mesh.cells.map narrowBlock).map (blockBinaryBytes bo)).flatten),
    ply_write_ok bo ffmt mesh d hdim hpd hcne hbne htag hwpos hd, ?_⟩
  rw [reader_on_writer_output ar bo mesh.points.length (writeNumCells mesh.cells)
    mesh.pointsDtype d hpdt
    (binaryPointsBytes bo mesh.pointsDtype mesh.points []
      ++ ((mesh.cells.map narrowBlock).map (blockBinaryBytes bo)).flatten)]
  rw [binaryPointsBytes_no_pd]
  have hnc2 : writeNumCells mesh.cells
      = ((mesh.cells.map narrowBlock).map (fun b => b.rows.length)).sum := by
    rw [writeNumCells_canonical mesh.cells htag hwpos, List.map_map]
    congr 1
    apply List.map_congr_left
    intro b _
    exact (narrowBlock_rows_length b).symm
  have hne2 : ∀ b ∈ mesh.cells.map narrowBlock, b.rows ≠ [] := by
    intro b hb
    obtain ⟨x, hx, rfl⟩ := List.mem_map.mp hb
    exact narrowBlock_rows_ne x (hbne x hx)
  have hrect2 : ∀ b ∈ mesh.cells.map narrowBlock, ∀ r ∈ b.rows, r.length = b.width := by
    intro b hb
    obtain ⟨x, hx, rfl⟩ := List.mem_map.mp hb
    exact narrowBlock_rect x (hrect x hx)
  have htag2 : ∀ b ∈ mesh.cells.map narrowBlock, b.tag = cell_type_from_count b.width := by
    intro b hb
    obtain ⟨x, hx, rfl⟩ := List.mem_map.mp hb
    rw [narrowBlock_tag, narrowBlock_width]
    exact htag x hx
  have hwlt2 : ∀ b ∈ mesh.cells.map narrowBlock, b.width < 256 := by
    intro b hb
    obtain ⟨x, hx, rfl⟩ := List.mem_map.mp hb
    rw [narrowBlock_width]
    exact hwlt x hx
  have hchain2 : (mesh.cells.map narrowBlock).Chain' (fun a b => a.width ≠ b.width) := by
    rw [List.chain'_map]
    exact hchain.imp (fun a b h => by rw [narrowBlock_width, narrowBlock_width]; exact h)
  have hd2 : ∀ b ∈ mesh.cells.map narrowBlock, b.dtype = d := by
    intro b hb
    obtain ⟨x, hx, rfl⟩ := List.mem_map.mp hb
    exact hd x hx
  have hval2 : ∀ b ∈ mesh.cells.map narrowBlock, ∀ r ∈ b.rows, ∀ v ∈ r,
      v < 256 ^ d.itemsize := by
    intro b hb
    obtain ⟨x, hx, rfl⟩ := List.mem_map.mp hb
    by_cases h64 : x.dtype = .i64
    · have hdi : NpDtype.i32 = d := by
        have := hd x hx
        unfold narrowBlock at this
        rw [if_pos h64] at this
        exact this
      intro r hr v hv
      unfold narrowBlock at hr
      rw [if_pos h64] at hr
      simp only at hr
      obtain ⟨r0, hr0, rfl⟩ := List.mem_map.mp hr
      obtain ⟨v0, hv0, rfl⟩ := List.mem_map.mp hv
      rw [← hdi]
      have h232 : (0:Nat) < 2 ^ 32 := by norm_num
      have := Nat.mod_lt v0 h232
      have heq : (2:Nat) ^ 32 = 256 ^ NpDtype.i32.itemsize := by
        rw [show NpDtype.i32.itemsize = 4 from rfl]
        norm_num
      omega
    · have hx2 : narrowBlock x = x := by
        unfold narrowBlock
        rw [if_neg h64]
      rw [hx2]
      have hdd : x.dtype = d := by
        have := hd x hx
        rw [hx2] at this
        exact this
      intro r hr v hv
      rw [← hdd]
      exact hval x hx h64 r hr v hv
  exact read_binary_walk bo mesh.pointsDtype hpdt mesh.points hpts hptv d hd16
    (mesh.cells.map narrowBlock) (writeNumCells mesh.cells) hnc2 hne2 hrect2 htag2
    hwlt2 hchain2 hd2 hval2

/-- C1 (amended): for a binary write of a mesh with 3-D `float32`/`float64`
points (coordinate patterns within dtype range), no point data, and one or
more nonempty rectangular cell blocks carrying the canonical tag of their
width, widths in `1..255`, *adjacent blocks of distinct widths*, and one
shared index dtype that is neither `int64` nor `int16`, reading the
written buffer back reproduces the points, the cell tags, the cell
connectivity and the block structure exactly; the write raises no
warning. -/
theorem C1_binary_roundtrip (bo : ByteOrder) (ffmt : NpDtype → Nat → String)
    (ar : HeaderAcc → List Nat → Except RErr PMesh) (mesh : PMesh) (d : NpDtype)
    (hdim : mesh.pointsDim = 3)
    (hpdt : mesh.pointsDtype = .f32 ∨ mesh.pointsDtype = .f64)
    (hpts : ∀ row ∈ mesh.points, row.length = 3)
    (hptv : ∀ row ∈ mesh.points, ∀ v ∈ row, v < 256 ^ mesh.pointsDtype.itemsize)
    (hpd : mesh.point_data = [])
    (hcne : mesh.cells ≠ [])
    (hbne : ∀ b ∈ mesh.cells, b.rows ≠ [])
    (hrect : ∀ b ∈ mesh.cells, ∀ r ∈ b.rows, r.length = b.width)
    (htag : ∀ b ∈ mesh.cells, b.tag = cell_type_from_count b.width)
    (hwpos : ∀ b ∈ mesh.cells, 0 < b.width)
    (hwlt : ∀ b ∈ mesh.cells, b.width < 256)
    (hchain : mesh.cells.Chain' (fun a b => a.width ≠ b.width))
    (hdu : ∀ b ∈ mesh.cells, b.dtype = d)
    (hni : d ≠ .i64) (hd16 : d ≠ .i16)
    (hval : ∀ b ∈ mesh.cells, ∀ r ∈ b.rows, ∀ v ∈ r, v < 256 ^ d.itemsize) :
    ∃ out, ply_write bo ffmt mesh true = .ok (out, mesh.cells, [])
      ∧ ply_read_buffer ar out
          = .ok ⟨mesh.pointsDtype, 3, mesh.points, [], mesh.cells⟩ := by
  have hnb : ∀ b ∈ mesh.cells, narrowBlock b = b := by
    intro b hb
    unfold narrowBlock
    rw [if_neg (by rw [hdu b hb]; exact hni)]
  have hmap : mesh.cells.map narrowBlock = mesh.cells := by
    calc mesh.cells.map narrowBlock
        = mesh.cells.map (fun b => b) := List.map_congr_left hnb
      _ = mesh.cells := List.map_id' _
  have hd : ∀ b ∈ mesh.cells, (narrowBlock b).dtype = d := by
    intro b hb
    rw [hnb b hb]
    exact hdu b hb
  have hval2 : ∀ b ∈ mesh.cells, b.dtype ≠ .i64 →
      ∀ r ∈ b.rows, ∀ v ∈ r, v < 256 ^ b.dtype.itemsize := by
    intro b hb _ r hr v hv
    rw [hdu b hb]
    exact hval b hb r hr v hv
  obtain ⟨out, hw, hr⟩ := ply_binary_roundtrip bo ffmt ar mesh d hdim hpdt hpts hptv hpd
    hcne hbne hrect htag hwpos hwlt hchain hd hd16 hval2
  have hany : (mesh.cells.any (fun b => b.dtype = .i64)) = false := by
    rw [List.any_eq_false]
    intro b hb
    simp only [decide_eq_true_eq]
    rw [hdu b hb]
    exact hni
  rw [hany] at hw
  rw [if_neg (by simp)] at hw
  rw [hmap] at hw hr
  exact ⟨out, hw, hr⟩

/-- C5 (amended): when the face element is actually emitted (canonical
tags, nonempty rows, so `num_cells > 0`) and at least one block has
`int64` index dtype, every `int64` block is narrowed to `int32` in the
cells list the writer stores back into the mesh, exactly one `castDown`
warning is raised no matter how many blocks were narrowed (with no point
data and recognized tags there is no other warning), and the written
buffer reads back as the narrowed `int32` blocks.  (When `num_cells = 0`
the narrowing loop never runs — see the counterexample.) -/
theorem C5_narrowing (bo : ByteOrder) (ffmt : NpDtype → Nat → String)
    (ar : HeaderAcc → List Nat → Except RErr PMesh) (mesh : PMesh) (d : NpDtype)
    (hdim : mesh.pointsDim = 3)
    (hpdt : mesh.pointsDtype = .f32 ∨ mesh.pointsDtype = .f64)
    (hpts : ∀ row ∈ mesh.points, row.length = 3)
    (hptv : ∀ row ∈ mesh.points, ∀ v ∈ row, v < 256 ^ mesh.pointsDtype.itemsize)
    (hpd : mesh.point_data = [])
    (hcne : mesh.cells ≠ [])
    (hbne : ∀ b ∈ mesh.cells, b.rows ≠ [])
    (hrect : ∀ b ∈ mesh.cells, ∀ r ∈ b.rows, r.length = b.width)
    (htag : ∀ b ∈ mesh.cells, b.tag = cell_type_from_count b.width)
    (hwpos : ∀ b ∈ mesh.cells, 0 < b.width)
    (hwlt : ∀ b ∈ mesh.cells, b.width < 256)
    (hchain : mesh.cells.Chain' (fun a b => a.width ≠ b.width))
    (hd : ∀ b ∈ mesh.cells, (narrowBlock b).dtype = d)
    (h64 : ∃ b, b ∈ mesh.cells ∧ b.dtype = .i64)
    (hval : ∀ b ∈ mesh.cells, b.dtype ≠ .i64 →
      ∀ r ∈ b.rows, ∀ v ∈ r, v < 256 ^ b.dtype.itemsize) :
    d = .i32
    ∧ ∃ out, ply_write bo ffmt mesh true
        = .ok (out, mesh.cells.map narrowBlock, [Warning.castDown])
      ∧ (∀ b ∈ mesh.cells.map narrowBlock, b.dtype = .i32)
      ∧ ply_read_buffer ar out
          = .ok ⟨mesh.pointsDtype, 3, mesh.points, [], mesh.cells.map narrowBlock⟩ := by
  obtain ⟨b64, hb64, hb64d⟩ := h64
  have hdi : d = .i32 := by
    have h := hd b64 hb64
    unfold narrowBlock at h
    rw [if_pos hb64d] at h
    exact h.symm
  have hd16 : d ≠ .i16 := by
    rw [hdi]
    decide
  obtain ⟨out, hw, hr⟩ := ply_binary_roundtrip bo ffmt ar mesh d hdim hpdt hpts hptv hpd
    hcne hbne hrect htag hwpos hwlt hchain hd hd16 hval
  have hany : (mesh.cells.any (fun b => b.dtype = .i64)) = true := by
    rw [List.any_eq_true]
    exact ⟨b64, hb64, by simp [hb64d]⟩
  rw [hany] at hw
  rw [if_pos rfl] at hw
  refine ⟨hdi, out, hw, ?_, hr⟩
  intro b hb
  obtain ⟨x, hx, rfl⟩ := List.mem_map.mp hb
  rw [hd x hx]
  exact hdi

/-- Two adjacent `triangle` blocks: legal input for the round-trip claim. -/
def c1mergemesh : PMesh :=
  ⟨.f32, 3, [], [], [⟨"triangle", .i32, 3, [[0, 1, 2]]⟩, ⟨"triangle", .i32, 3, [[3, 4, 5]]⟩]⟩

/-- The buffer the writer produces for `c1mergemesh`. -/
def c1out : List Nat :=
  match ply_write .little (fun _ _ => "") c1mergemesh true with
  | .ok (o, _, _) => o
  | .error _ => []

set_option maxRecDepth 100000 in
/-- C1 counterexample: the mesh with two adjacent `triangle` blocks (one
row each) writes successfully with its cells untouched, but reading the
output back yields a *single* merged block of two rows — the block
structure (and hence the cells) of the original mesh is not reproduced. -/
theorem C1_counterexample :
    ply_write .little (fun _ _ => "") c1mergemesh true = .ok (c1out, c1mergemesh.cells, [])
    ∧ ply_read_buffer (fun _ _ => .error .nonterm) c1out
        = .ok ⟨.f32, 3, [], [], [⟨"triangle", .i32, 3, [[0, 1, 2], [3, 4, 5]]⟩]⟩
    ∧ ¬ ([(⟨"triangle", .i32, 3, [[0, 1, 2], [3, 4, 5]]⟩ : PCellBlock)] = c1mergemesh.cells) :=
  ⟨by decide, by decide, by decide⟩

def c1wmesh : PMesh :=
  ⟨.f32, 3, [[7, 8, 9]], [], [⟨"triangle", .i32, 3, [[0, 1, 2]]⟩]⟩

/-- Witness instantiating `C1_binary_roundtrip` on a concrete mesh. -/
theorem C1_witness :
    (∀ b ∈ c1wmesh.cells, b.tag = cell_type_from_count b.width)
    ∧ c1wmesh.cells.Chain' (fun a b => a.width ≠ b.width)
    ∧ ∃ out, ply_write .little (fun _ _ => "") c1wmesh true = .ok (out, c1wmesh.cells, [])
      ∧ ply_read_buffer (fun _ _ => .error .nonterm) out
          = .ok ⟨c1wmesh.pointsDtype, 3, c1wmesh.points, [], c1wmesh.cells⟩ :=
  ⟨by decide, List.chain'_singleton _,
    C1_binary_roundtrip .little (fun _ _ => "") (fun _ _ => .error .nonterm) c1wmesh .i32
      rfl (Or.inl rfl) (by decide) (by decide) rfl (by decide) (by decide) (by decide)
      (by decide) (by decide) (by decide) (List.chain'_singleton _) (by decide) (by decide)
      (by decide) (by decide)⟩

/-- A recognized-tag `int64` block with no rows: `num_cells = 0`. -/
def c5zeromesh : PMesh := ⟨.f32, 3, [], [], [⟨"quad", .i64, 4, []⟩]⟩

def c5zout : List Nat :=
  match ply_write .little (fun _ _ => "") c5zeromesh true with
  | .ok (o, _, _) => o
  | .error _ => []

/-- C5 counterexample: a mesh holding an `int64` cell block with zero rows
(`num_cells = 0`, so the face element is not emitted) writes successfully
with the block *not* narrowed — it keeps dtype `int64` — and no warning is
raised, refuting the unconditional narrow-plus-warn claim. -/
theorem C5_counterexample :
    ply_write .little (fun _ _ => "") c5zeromesh true = .ok (c5zout, c5zeromesh.cells, [])
    ∧ c5zeromesh.cells.map (fun b => b.dtype) = [.i64] :=
  ⟨by decide, by decide⟩

def c5wmesh : PMesh :=
  ⟨.f32, 3, [], [],
   [⟨"triangle", .i64, 3, [[4294967296, 1, 2]]⟩, ⟨"quad", .i64, 4, [[0, 1, 2, 3]]⟩]⟩

/-- Witness instantiating `C5_narrowing` on a mesh with *two* `int64`
blocks: both are narrowed, exactly one warning is raised. -/
theorem C5_witness :
    (∃ b, b ∈ c5wmesh.cells ∧ b.dtype = .i64)
    ∧ (NpDtype.i32 = .i32
      ∧ ∃ out, ply_write .little (fun _ _ => "") c5wmesh true
          = .ok (out, c5wmesh.cells.map narrowBlock, [Warning.castDown])
        ∧ (∀ b ∈ c5wmesh.cells.map narrowBlock, b.dtype = .i32)
        ∧ ply_read_buffer (fun _ _ => .error .nonterm) out
            = .ok ⟨c5wmesh.pointsDtype, 3, c5wmesh.points, [],
                c5wmesh.cells.map narrowBlock⟩) :=
  ⟨⟨⟨"triangle", .i64, 3, [[4294967296, 1, 2]]⟩, by decide, rfl⟩,
    C5_narrowing .little (fun _ _ => "") (fun _ _ => .error .nonterm) c5wmesh .i32
      rfl (Or.inl rfl) (by decide) (by decide) rfl (by decide) (by decide) (by decide)
      (by decide) (by decide) (by decide)
      (List.chain'_cons.mpr ⟨by decide, List.chain'_singleton _⟩) (by decide)
      ⟨⟨"triangle", .i64, 3, [[4294967296, 1, 2]]⟩, by decide, rfl⟩ (by decide)⟩
